import Mathlib

/-!
# Binary graph writer (compiler/ras/BinaryGraphWriter.cpp)

A shallow embedding of the binary IR exporter: the scalar encoder with its
4096-byte buffer, the interning pools and the define-vs-reference protocol,
the graph serialiser and the session life cycle, and the string replacement
of the textual exporter (compiler/ras/XMLGraphWriter.cpp), followed by the
properties proved about them.

Conventions of the embedding
* an `int8_t`, `int16_t`, `int32_t` value is an `Int` in the range of its type;
  narrowing conversions are the explicit functions `toInt8`, `toInt16`,
  `toInt32`; a `uint16_t` is a `Nat` reduced modulo `2^16`;
* a `std::string` is a list of bytes (`CppString`);
* a member function of the writer is a function `Writer → Res α`; a C++
  exception is the result `Res.throw`, which keeps the state reached when the
  exception left the function;
* the vector `buffer` is the list of its bytes with the byte pushed last
  first, so that `push_back` is `cons`; `stream` reads it in writing order.
-/

namespace BinaryGraphWriter

/-! ## Machine integers -/

/-- Conversion of an integer value to `int8_t` (two's complement wrap). -/
def toInt8 (x : Int) : Int := (x + 128) % 256 - 128

/-- Conversion of an integer value to `int16_t` (two's complement wrap). -/
def toInt16 (x : Int) : Int := (x + 32768) % 65536 - 32768

/-- Conversion of an integer value to `int32_t` (two's complement wrap). -/
def toInt32 (x : Int) : Int := (x + 2147483648) % 4294967296 - 2147483648

/-- The operator `&` on two `int` operands: the bitwise and of their 32-bit
two's complement representations. -/
def and32 (a b : Int) : Int :=
  toInt32 (((a % 4294967296).toNat &&& (b % 4294967296).toNat : Nat) : Int)

/-- The byte that `fwrite` stores for an `int8_t` value: its bit pattern read
as an unsigned char. -/
def ubyte (x : Int) : Nat := (x % 256).toNat

/-- A `std::string`: a sequence of bytes, zero bytes included. -/
abbrev CppString := List (Fin 256)

/-- A string literal of the source (ASCII) as a `std::string`. -/
def str (s : String) : CppString := s.toList.map (fun c => Fin.ofNat c.toNat)

/-! ## Protocol constants (BinaryGraphWriter.cpp, lines 42-60) -/

def BUFFER_SIZE_BYTES : Nat := 4096

def BEGIN_GRAPH : Int := 0x1
def BEGIN_GROUP : Int := 0
def CLOSE_GROUP : Int := 0x2
def PROPERTY_POOL : Int := 0x0

def POOL_NEW : Int := 0x0
def POOL_STRING : Int := 0x1
def POOL_ENUM : Int := 0x2
def POOL_CLASS : Int := 0x3
def POOL_METHOD : Int := 0x4
def POOL_NULL : Int := 0x5
def POOL_NODE_CLASS : Int := 0x6
def POOL_SIGNATURE : Int := 0x8

def KLASS : Int := 0x0
def ENUM_KLASS : Int := 0x1

/-! ## Pool (BinaryGraphWriter.hpp, lines 29-45) -/

/-- The class template `Pool<T>`: a `std::map<T, uint16_t>`, kept as an
association list in which every key occurs at most once. -/
structure Pool (T : Type) where
  map : List (T × Nat)
deriving DecidableEq, Repr

namespace Pool

variable {T : Type} [DecidableEq T]

/-- The empty pool of a fresh writer. -/
def empty : Pool T := ⟨[]⟩

/-- The lookup `map.find(elem)`. -/
def find (p : Pool T) (elem : T) : Option Nat :=
  (p.map.find? (fun kv => decide (kv.1 = elem))).map Prod.snd

/-- The member `contains`: `map.count(elem) == 1`. -/
def contains (p : Pool T) (elem : T) : Bool := (p.find elem).isSome

/-- The member `lookup`: `map.at(elem)`, which throws when the key is absent. -/
def lookup (p : Pool T) (elem : T) : Option Nat := p.find elem

/-- The member `insert`: `map.insert({elem, id})`, which leaves the map as it
is when the key is already present, and returns `id` either way. -/
def insert (p : Pool T) (elem : T) (id : Nat) : Pool T × Nat :=
  (if p.contains elem then p else ⟨p.map ++ [(elem, id)]⟩, id)

end Pool

/-! ## The destination file and the writer state -/

/-- Modelled from the spec: the destination (`::FILE`, `fopen`, `fwrite`,
`fclose` of the C library are not part of the sources). The spec's flush
failure is "underlying write returns fewer bytes than requested": the
destination accepts `room` more bytes and a write beyond that is short.
`chunks` records the accepted bytes of every `fwrite` call, in call order. -/
structure File where
  name : CppString
  chunks : List (List Nat)
  room : Nat
  isOpen : Bool
deriving DecidableEq, Repr

/-- The bytes the destination holds. -/
def File.data (f : File) : List Nat := f.chunks.flatten

/-- Modelled from the spec: `fwrite(buffer.data(), 1, buffer.size(), _file)`;
returns the number of bytes accepted. -/
def fwrite (bytes : List Int) (f : File) : Nat × File :=
  let n := min bytes.length f.room
  (n, { f with chunks := f.chunks ++ [(bytes.take n).map ubyte], room := f.room - n })

/-- Modelled from the spec: `fclose(_file)`. -/
def fclose (f : File) : File := { f with isOpen := false }

/-- The data members of `BinaryGraphWriter` (BinaryGraphWriter.hpp, lines
84-97), `_comp` apart, which is read-only and passed where it is used. -/
structure Writer where
  /-- the bytes of the vector `buffer`, the one pushed last first -/
  buffer : List Int
  stringPool : Pool CppString
  nodeClassPool : Pool (CppString × Int × Int)
  methodPool : Pool CppString
  signaturePool : Pool CppString
  typePool : Pool CppString
  enumValuePool : Pool (CppString × Int)
  poolId : Nat
  file : Option File
  initialized : Bool
deriving DecidableEq, Repr

/-- The constructor `BinaryGraphWriter::BinaryGraphWriter` (lines 79-85). -/
def Writer.new : Writer :=
  { buffer := [], stringPool := Pool.empty, nodeClassPool := Pool.empty,
    methodPool := Pool.empty, signaturePool := Pool.empty, typePool := Pool.empty,
    enumValuePool := Pool.empty, poolId := 0, file := none, initialized := false }

/-- The exceptions and fatal conditions of the writer. -/
inductive Fault where
  /-- `std::runtime_error("Error opening file")` -/
  | openFailed
  /-- `std::runtime_error("failed to flush byte buffer during graph writing")` -/
  | flushFailed
  /-- a write through a null `_file` -/
  | nullFile
  /-- `std::out_of_range` of `map.at` -/
  | outOfRange
  /-- a member access through a null pointer -/
  | nullPointer
deriving DecidableEq, Repr

/-- The outcome of a member function: normal return with a value, or an
exception; both with the writer state reached. -/
inductive Res (α : Type) where
  | ok (a : α) (w : Writer)
  | throw (e : Fault) (w : Writer)
deriving DecidableEq, Repr

/-- A member function of the writer. -/
def M (α : Type) : Type := Writer → Res α

instance : Monad M where
  pure a := fun w => Res.ok a w
  bind m f := fun w =>
    match m w with
    | Res.ok a w1 => f a w1
    | Res.throw e w1 => Res.throw e w1

/-- The current state of the writer (`*this`). -/
def getWriter : M Writer := fun w => Res.ok w w

/-- An assignment to data members. -/
def modifyWriter (f : Writer → Writer) : M Unit := fun w => Res.ok () (f w)

/-- The statement `throw`. -/
def throwFault {α : Type} (e : Fault) : M α := fun w => Res.throw e w

/-- A loop `for (auto x : xs) body(x)`. -/
def forEach {α : Type} (xs : List α) (body : α → M Unit) : M Unit :=
  match xs with
  | [] => pure ()
  | x :: rest => do body x; forEach rest body

/-- Every byte of the session so far, in the order it was written: what the
destination holds followed by what is still buffered. -/
def stream (w : Writer) : List Nat :=
  (match w.file with | some f => f.data | none => []) ++ w.buffer.reverse.map ubyte

/-! ## Scalar encoder -/

/-- The member `flushBuffer` (lines 607-616). -/
def flushBuffer (force : Bool) : M Unit := fun w =>
  if w.buffer.length < BUFFER_SIZE_BYTES && !force then
    Res.ok () w
  else
    match w.file with
    | none => Res.throw Fault.nullFile w
    | some f =>
      let r := fwrite w.buffer.reverse f
      if r.1 < w.buffer.length then
        Res.throw Fault.flushFailed { w with file := some r.2 }
      else
        Res.ok () { w with file := some r.2, buffer := [] }

/-- The member `writeInt8` (lines 149-152). -/
def writeInt8 (byte : Int) : M Unit := do
  flushBuffer false
  fun w => Res.ok () { w with buffer := byte :: w.buffer }

/-- The member `writeInt16` (lines 170-174); the mask is a `uint8_t` 0xFF. -/
def writeInt16 (n : Int) : M Unit := do
  let mask : Int := 0xFF
  writeInt8 (toInt8 (and32 (n >>> (8 : Nat)) mask))
  writeInt8 (toInt8 (and32 n mask))

/-- The member `writeInt32` (lines 176-182); the mask is declared `int8_t` and
initialised with 0xFF, so it holds `toInt8 0xFF`. -/
def writeInt32 (n : Int) : M Unit := do
  let mask : Int := toInt8 0xFF
  forEach ([3, 2, 1, 0] : List Nat) (fun i => writeInt8 (toInt8 (and32 (n >>> (i * 8)) mask)))

/-- The member `writeString` (lines 184-191): `len` is the size converted to
`int32_t`, and the loop runs over `0 ≤ i < len`. -/
def writeString (s : CppString) : M Unit := do
  let len : Int := toInt32 s.length
  writeInt32 len
  forEach (s.take len.toNat) (fun c => writeInt8 (toInt8 c.val))

/-! ## String helpers of the C++ library -/

/-- The member `c_str()` read as a C string by `%s` or by the conversion from
`char *`: the bytes before the first zero byte. -/
def cstr (s : CppString) : CppString := s.takeWhile (fun c => c ≠ 0)

/-- The decimal digits of a natural number, most significant first. -/
def digits (fuel n : Nat) (acc : CppString) : CppString :=
  match fuel with
  | 0 => acc
  | fuel + 1 =>
    let acc1 : CppString := Fin.ofNat (48 + n % 10) :: acc
    if n / 10 = 0 then acc1 else digits fuel (n / 10) acc1

/-- The text of `std::to_string(i)` and of the conversion `%d`. -/
def decimal (i : Int) : CppString :=
  if i < 0 then (45 : Fin 256) :: digits (i.natAbs + 1) i.natAbs []
  else digits (i.natAbs + 1) i.natAbs []

/-! ## The IR read by the writer

The classes `TR::Node`, `TR::TreeTop`, `TR::ILOpCode`, `TR::ResolvedMethodSymbol`
and `TR::Compilation` and the iterators over them are declared outside the
sources; they are modelled from the spec as the data the writer reads through
their accessors. -/

/-- Modelled from the spec: the enumeration `TR::ILOpCodes`, with the
enumerators the writers name and `other` for every remaining opcode. -/
inductive ILOpCodes where
  | BBStart | BBEnd
  | Return | areturn | ireturn | freturn | lreturn | dreturn
  | acall | icall | lcall | dcall | fcall | call
  | astore | istore | fstore | lstore | dstore | bstore | sstore
  | aload | iload | fload | lload | dload | bload | sload
  | iconst | lconst | sconst | bconst
  | iadd | dadd | ladd | sadd | badd
  | ishl | lshl | sshl | bshl
  | ifacmpeq | ifbcmpeq | ifdcmpeq | iffcmpeq | ificmpeq | iflcmpeq | ifscmpeq
  | ifacmpne | ifbcmpne | ifdcmpne | iffcmpne | ificmpne | iflcmpne | ifscmpne
  | ifacmplt | ifbcmplt | ifdcmplt | iffcmplt | ificmplt | ifiucmplt | iflucmplt
  | iflcmplt | ifscmplt
  | ifacmple | ifbcmple | ifdcmple | iffcmple | ificmple | ifiucmple | iflucmple
  | iflcmple | ifscmple
  | ifacmpgt | ifbcmpgt | ifdcmpgt | iffcmpgt | ificmpgt | ifiucmpgt | iflucmpgt
  | iflcmpgt | ifscmpgt
  | ifacmpge | ifbcmpge | ifdcmpge | iffcmpge | ificmpge | ifiucmpge | iflucmpge
  | iflcmpge | ifscmpge
  | other (code : Nat)

/-- Modelled from the spec: a `TR::ILOpCode`, the opcode value with the row of
the opcode table the writer reads: `getName()`, `isTreeTop()`, `isBranch()`. -/
structure ILOpCode where
  value : ILOpCodes
  name : CppString
  isTreeTop : Bool
  isBranch : Bool

/-- Modelled from the spec: a `TR::Node` ("identified by a global index; has
an opcode, ordered child edges"), with what the writer reads of it:
`getGlobalIndex()`, `getOpCode()`, the name of `getSymbolReference()`,
`getLongInt()`, the text of `getDataType()`, the global index of the node of
`getBranchDestination()` (none for a null destination) and the children. A
node that several parents share occurs under each of them, with the same
global index. -/
inductive Node where
  | mk (globalIndex : Nat) (opCode : ILOpCode) (symbolName : CppString) (longInt : Int)
      (dataType : CppString) (branchDestination : Option Nat) (children : List Node)

namespace Node

def getGlobalIndex : Node → Nat
  | mk g _ _ _ _ _ _ => g

def getOpCode : Node → ILOpCode
  | mk _ o _ _ _ _ _ => o

def getOpCodeValue (n : Node) : ILOpCodes := n.getOpCode.value

def getSymbolName : Node → CppString
  | mk _ _ s _ _ _ _ => s

def getLongInt : Node → Int
  | mk _ _ _ l _ _ _ => l

def getDataType : Node → CppString
  | mk _ _ _ _ d _ _ => d

def getBranchDestination : Node → Option Nat
  | mk _ _ _ _ _ b _ => b

def children : Node → List Node
  | mk _ _ _ _ _ _ cs => cs

def getNumChildren (n : Node) : Nat := n.children.length

end Node

/-- Modelled from the spec: a `TR::TreeTop` ("a sequencing node; carries a
predecessor-exists flag, an optional next-statement edge"): its node,
whether `getPrevRealTreeTop()` is non-null, and the global index of the node
of `getNextTreeTop()` when there is one. -/
structure TreeTop where
  node : Node
  hasPrev : Bool
  next : Option Nat

/-- Modelled from the spec: what the writer reads of a
`TR::ResolvedMethodSymbol` and its `TR_ResolvedMethod`: the text of
`getDebug()->signature(symbol)`, `classNameChars()`, `nameChars()`,
`signatureChars()`, the parameter and return type names, `getFlags()`,
`maxBytecodeIndex()`, the bytecodes, and the nodes of the statement list that
starts at `getFirstTreeTop()`. -/
structure ResolvedMethodSymbol where
  signature : CppString
  className : CppString
  methodName : CppString
  signatureChars : CppString
  parmTypes : List CppString
  returnType : CppString
  flags : Int
  maxBytecodeIndex : Int
  bytecode : List (Fin 256)
  trees : List Node

/-- Modelled from the spec: what the writer reads of the `TR::Compilation`:
the name of the method hotness, the optimisation index, and the file system
reached through `fopen` (which names can be created, and how many bytes a
created destination accepts). -/
structure Compilation where
  hotnessName : CppString
  optIndex : Int
  canCreate : CppString → Bool
  room : Nat

/-- Modelled from the spec: `fopen(filename, "wb")`; none is the null result. -/
def fopen (comp : Compilation) (filename : CppString) : Option File :=
  if comp.canCreate filename then
    some { name := filename, chunks := [], room := comp.room, isOpen := true }
  else none

/-- The statements linked into `TR::TreeTop`s. -/
def linkTreeTops (hasPrev : Bool) : List Node → List TreeTop
  | [] => []
  | n :: rest =>
    { node := n, hasPrev := hasPrev, next := rest.head?.map Node.getGlobalIndex }
      :: linkTreeTops true rest

/-- Modelled from the spec: the sequence of a `TR::TreeTopIterator` started at
`getFirstTreeTop()` ("ordered statement iteration"). -/
def treeTopIterator (methodSymbol : ResolvedMethodSymbol) : List TreeTop :=
  linkTreeTops false methodSymbol.trees

mutual
/-- The pre-order walk below one node; `seen` holds the global indices of the
nodes already reached. -/
def preorderNode : Node → List Nat → List Node × List Nat
  | Node.mk g o s l d b cs, seen =>
    if g ∈ seen then ([], seen)
    else
      let r := preorderChildren cs (g :: seen)
      (Node.mk g o s l d b cs :: r.1, r.2)
/-- The pre-order walk below the children of a node, in order. -/
def preorderChildren : List Node → List Nat → List Node × List Nat
  | [], seen => ([], seen)
  | c :: cs, seen =>
    let r1 := preorderNode c seen
    let r2 := preorderChildren cs r1.2
    (r1.1 ++ r2.1, r2.2)
end

/-- Modelled from the spec: the sequence of a `TR::PreorderNodeIterator`
started at `getFirstTreeTop()` ("pre-order node iteration": "statement list
order, then pre-order over each statement's child subtree"; the graph is "the
set of Nodes reachable" from the statements, so a node is reached once). -/
def preorderNodeIterator (methodSymbol : ResolvedMethodSymbol) : List Node :=
  (preorderChildren methodSymbol.trees []).1

/-! ## Edge and property records (GraphWriter.hpp, lines 41-55) -/

structure InputEdgeInfo where
  isIndirect : Bool
  name : CppString
  type : Int
deriving DecidableEq, Repr

structure OutputEdgeInfo where
  isIndirect : Bool
  name : CppString
deriving DecidableEq, Repr

structure StringProperty where
  key : CppString
  value : CppString
deriving DecidableEq, Repr

/-- The class `PoolEnumClass` (BinaryGraphWriter.hpp, lines 49-54). -/
structure PoolEnumClass where
  name : CppString
  values : List CppString
deriving DecidableEq, Repr

/-- The static `InputEdgeType` (line 62). -/
def InputEdgeType : PoolEnumClass := { name := str "InputEdgeType", values := [str "values"] }

/-! ## Pool protocol -/

/-- The member `getNextPoolId` (lines 618-620): `poolId++` on a `uint16_t`. -/
def getNextPoolId : M Nat := fun w =>
  Res.ok w.poolId { w with poolId := (w.poolId + 1) % 65536 }

/-- The call `pool.lookup(elem)`, which throws when the key is absent. -/
def poolLookup {T : Type} [DecidableEq T] (p : Pool T) (elem : T) : M Nat :=
  match p.lookup elem with
  | some id => pure id
  | none => throwFault Fault.outOfRange

/-- The call `stringPool.insert(elem, id)`. -/
def insertString (elem : CppString) (id : Nat) : M Nat := fun w =>
  Res.ok (w.stringPool.insert elem id).2 { w with stringPool := (w.stringPool.insert elem id).1 }

/-- The call `nodeClassPool.insert(elem, id)`. -/
def insertNodeClass (elem : CppString × Int × Int) (id : Nat) : M Nat := fun w =>
  Res.ok (w.nodeClassPool.insert elem id).2
    { w with nodeClassPool := (w.nodeClassPool.insert elem id).1 }

/-- The call `typePool.insert(elem, id)`. -/
def insertType (elem : CppString) (id : Nat) : M Nat := fun w =>
  Res.ok (w.typePool.insert elem id).2 { w with typePool := (w.typePool.insert elem id).1 }

/-- The call `signaturePool.insert(elem, id)`. -/
def insertSignature (elem : CppString) (id : Nat) : M Nat := fun w =>
  Res.ok (w.signaturePool.insert elem id).2
    { w with signaturePool := (w.signaturePool.insert elem id).1 }

/-- The call `enumValuePool.insert(elem, id)`. -/
def insertEnumValue (elem : CppString × Int) (id : Nat) : M Nat := fun w =>
  Res.ok (w.enumValuePool.insert elem id).2
    { w with enumValuePool := (w.enumValuePool.insert elem id).1 }

/-- The member `writePoolReference` (lines 527-530). -/
def writePoolReference (type : Int) (id : Nat) : M Unit := do
  writeInt8 type
  writeInt16 (toInt16 id)

/-- The member `writePoolString` (lines 514-525). -/
def writePoolString (string : CppString) : M Unit := do
  if (← getWriter).stringPool.contains string then
    writePoolReference POOL_STRING (← poolLookup (← getWriter).stringPool string)
  else
    writeInt8 POOL_NEW
    let id ← insertString string (← getNextPoolId)
    writeInt16 (toInt16 id)
    writeInt8 POOL_STRING
    writeString string

/-- The member `writePropString` (lines 509-512). -/
def writePropString (string : CppString) : M Unit := do
  writeInt8 PROPERTY_POOL
  writePoolString string

/-- The member `writeStringProperty` (lines 64-69). -/
def writeStringProperty (property : StringProperty) : M Unit := do
  writePoolString property.key
  writePropString property.value

/-- The member `writeProperties` (lines 626-632). -/
def writeProperties (stringProperties : List StringProperty) : M Unit := do
  let size := stringProperties.length
  writeInt16 (toInt16 size)
  forEach stringProperties writeStringProperty

/-- The member `writePoolClass` (lines 693-710). -/
def writePoolClass (name : CppString) : M Unit := do
  if (← getWriter).typePool.contains name then
    let id ← poolLookup (← getWriter).typePool name
    writePoolReference POOL_CLASS id
  else
    let id ← getNextPoolId
    writeInt8 POOL_NEW
    writeInt16 (toInt16 id)
    writeInt8 POOL_CLASS
    writeString name
    writeInt8 KLASS
    let _ ← insertType name id

/-- The member `writePoolEnumClass` (lines 712-735). -/
def writePoolEnumClass (cls : PoolEnumClass) : M Unit := do
  let name := cls.name
  if (← getWriter).typePool.contains name then
    let id ← poolLookup (← getWriter).typePool name
    writePoolReference POOL_CLASS id
  else
    let id ← getNextPoolId
    writeInt8 POOL_NEW
    writeInt16 (toInt16 id)
    writeInt8 POOL_CLASS
    writeString name
    writeInt8 ENUM_KLASS
    writeInt32 (toInt32 cls.values.length)
    forEach cls.values writePoolString
    let _ ← insertType name id

/-- The member `writePoolEnumValue` (lines 543-559); the index is a `uint32_t`
and the key holds it as an `int`. -/
def writePoolEnumValue (index : Nat) (cls : PoolEnumClass) : M Unit := do
  if (← getWriter).enumValuePool.contains (cls.name, toInt32 index) then
    let id ← poolLookup (← getWriter).enumValuePool (cls.name, toInt32 index)
    writePoolReference POOL_ENUM id
  else
    let id ← getNextPoolId
    writeInt8 POOL_NEW
    writeInt16 (toInt16 id)
    writeInt8 POOL_ENUM
    writePoolEnumClass cls
    writeInt32 (toInt32 index)
    let _ ← insertEnumValue (cls.name, toInt32 index) id

/-- The member `writeInputEdgeInfo` (lines 532-536). -/
def writeInputEdgeInfo (info : InputEdgeInfo) : M Unit := do
  writeInt8 (if info.isIndirect then 1 else 0)
  writePoolString info.name
  writePoolEnumValue 0 InputEdgeType

/-- The member `writeOutputEdgeInfo` (lines 538-541). -/
def writeOutputEdgeInfo (info : OutputEdgeInfo) : M Unit := do
  writeInt8 (if info.isIndirect then 1 else 0)
  writePoolString info.name

/-! ## Node classes, properties and display templates -/

/-- The function `getInputEdgeInfo` (lines 238-251): one edge `value[i]` per
child. -/
def getInputEdgeInfo (node : Node) : List InputEdgeInfo :=
  (List.range node.getNumChildren).map (fun i =>
    { isIndirect := false, name := str "value[" ++ decimal i ++ str "]", type := 0 })

/-- The function `getOutputEdgeInfo` (lines 253-268). -/
def getOutputEdgeInfo (treetop : TreeTop) : List OutputEdgeInfo :=
  let opcode := treetop.node.getOpCode
  if opcode.isBranch then
    [{ isIndirect := false, name := str "falseBranch" },
     { isIndirect := false, name := str "trueBranch" }]
  else if treetop.next.isSome then
    [{ isIndirect := false, name := str "nextTreeTop" }]
  else
    []

/-- The function `getNodeProperties` (lines 270-330). -/
def getNodeProperties (node : Node) : List StringProperty :=
  match node.getOpCodeValue with
  | ILOpCodes.BBStart => [⟨str "category", str "begin"⟩]
  | ILOpCodes.BBEnd => [⟨str "category", str "end"⟩]
  | ILOpCodes.Return | ILOpCodes.areturn | ILOpCodes.ireturn | ILOpCodes.freturn
  | ILOpCodes.lreturn | ILOpCodes.dreturn => [⟨str "category", str "controlSink"⟩]
  | ILOpCodes.acall | ILOpCodes.icall | ILOpCodes.lcall | ILOpCodes.dcall
  | ILOpCodes.fcall | ILOpCodes.call =>
    [⟨str "category", str "floating"⟩, ⟨str "target", node.getSymbolName⟩]
  | ILOpCodes.astore | ILOpCodes.istore | ILOpCodes.fstore | ILOpCodes.lstore
  | ILOpCodes.dstore =>
    [⟨str "category", str "fixed"⟩, ⟨str "destination", node.getSymbolName⟩]
  | ILOpCodes.aload | ILOpCodes.iload | ILOpCodes.fload | ILOpCodes.lload
  | ILOpCodes.dload =>
    [⟨str "category", str "floating"⟩, ⟨str "destination", node.getSymbolName⟩]
  | ILOpCodes.iconst | ILOpCodes.lconst | ILOpCodes.sconst | ILOpCodes.bconst =>
    [⟨str "category", str "floating"⟩, ⟨str "rawvalue", decimal node.getLongInt⟩,
     ⟨str "datatype", node.getDataType⟩]
  | _ =>
    let opcode := node.getOpCode
    if opcode.isBranch then [⟨str "category", str "controlSplit"⟩]
    else if opcode.isTreeTop then [⟨str "category", str "fixed"⟩]
    else [⟨str "category", str "floating"⟩]

/-- The function `getNameFormat` (lines 332-435). -/
def getNameFormat (node : Node) : CppString :=
  match node.getOpCodeValue with
  | ILOpCodes.iadd | ILOpCodes.dadd | ILOpCodes.ladd | ILOpCodes.sadd | ILOpCodes.badd =>
    str "+"
  | ILOpCodes.ishl | ILOpCodes.lshl | ILOpCodes.sshl | ILOpCodes.bshl => str "<<"
  | ILOpCodes.ifacmpeq | ILOpCodes.ifbcmpeq | ILOpCodes.ifdcmpeq | ILOpCodes.iffcmpeq
  | ILOpCodes.ificmpeq | ILOpCodes.iflcmpeq | ILOpCodes.ifscmpeq => str "If =="
  | ILOpCodes.ifacmpne | ILOpCodes.ifbcmpne | ILOpCodes.ifdcmpne | ILOpCodes.iffcmpne
  | ILOpCodes.ificmpne | ILOpCodes.iflcmpne | ILOpCodes.ifscmpne => str "If !="
  | ILOpCodes.ifacmplt | ILOpCodes.ifbcmplt | ILOpCodes.ifdcmplt | ILOpCodes.iffcmplt
  | ILOpCodes.ificmplt | ILOpCodes.ifiucmplt | ILOpCodes.iflucmplt | ILOpCodes.iflcmplt
  | ILOpCodes.ifscmplt => str "If <"
  | ILOpCodes.ifacmple | ILOpCodes.ifbcmple | ILOpCodes.ifdcmple | ILOpCodes.iffcmple
  | ILOpCodes.ificmple | ILOpCodes.ifiucmple | ILOpCodes.iflucmple | ILOpCodes.iflcmple
  | ILOpCodes.ifscmple => str "If <="
  | ILOpCodes.ifacmpgt | ILOpCodes.ifbcmpgt | ILOpCodes.ifdcmpgt | ILOpCodes.iffcmpgt
  | ILOpCodes.ificmpgt | ILOpCodes.ifiucmpgt | ILOpCodes.iflucmpgt | ILOpCodes.iflcmpgt
  | ILOpCodes.ifscmpgt => str "If >"
  | ILOpCodes.ifacmpge | ILOpCodes.ifbcmpge | ILOpCodes.ifdcmpge | ILOpCodes.iffcmpge
  | ILOpCodes.ificmpge | ILOpCodes.ifiucmpge | ILOpCodes.iflucmpge | ILOpCodes.iflcmpge
  | ILOpCodes.ifscmpge => str "If >="
  | ILOpCodes.acall | ILOpCodes.icall | ILOpCodes.lcall | ILOpCodes.dcall
  | ILOpCodes.fcall | ILOpCodes.call => str "Call \x7bp#target\x7d"
  | ILOpCodes.Return | ILOpCodes.areturn | ILOpCodes.ireturn | ILOpCodes.freturn
  | ILOpCodes.lreturn | ILOpCodes.dreturn => str "Return"
  | ILOpCodes.astore | ILOpCodes.istore | ILOpCodes.fstore | ILOpCodes.lstore
  | ILOpCodes.dstore => str "Store \x7bp#destination\x7d"
  | ILOpCodes.aload | ILOpCodes.iload | ILOpCodes.fload | ILOpCodes.lload
  | ILOpCodes.dload => str "Load \x7bp#destination\x7d"
  | ILOpCodes.iconst | ILOpCodes.lconst | ILOpCodes.bconst | ILOpCodes.sconst =>
    str "C(\x7bp#rawvalue\x7d) \x7bp#datatype\x7d"
  | _ => node.getOpCode.name

/-- The member `writePoolNodeClass` (lines 561-601); the key holds the two
sizes as `int`s. -/
def writePoolNodeClass (node : Node) (inputs : List InputEdgeInfo)
    (outputs : List OutputEdgeInfo) : M Unit := do
  let name := node.getOpCode.name
  let edges_in := inputs.length
  let edges_out := outputs.length
  let key : CppString × Int × Int := (name, toInt32 edges_in, toInt32 edges_out)
  if (← getWriter).nodeClassPool.contains key then
    writePoolReference POOL_NODE_CLASS (← poolLookup (← getWriter).nodeClassPool key)
  else
    writeInt8 POOL_NEW
    let id ← insertNodeClass key (← getNextPoolId)
    writeInt16 (toInt16 id)
    writeInt8 POOL_NODE_CLASS
    writePoolClass name
    writeString (getNameFormat node)
    writeInt16 (toInt16 edges_in)
    forEach inputs writeInputEdgeInfo
    writeInt16 (toInt16 edges_out)
    forEach outputs writeOutputEdgeInfo

/-- The member `writeDirectEdge` (lines 603-605). -/
def writeDirectEdge (node_id : Int) : M Unit := writeInt32 node_id

/-! ## Method and signature entries -/

/-- The member `writePoolSignature` (lines 666-691). -/
def writePoolSignature (symbol : ResolvedMethodSymbol) : M Unit := do
  let signature := symbol.signatureChars
  if (← getWriter).signaturePool.contains signature then
    let id ← poolLookup (← getWriter).signaturePool signature
    writePoolReference POOL_SIGNATURE id
  else
    let id ← getNextPoolId
    writeInt8 POOL_NEW
    writeInt16 (toInt16 id)
    writeInt8 POOL_SIGNATURE
    writeInt16 (toInt16 symbol.parmTypes.length)
    forEach symbol.parmTypes writePoolString
    writePoolString symbol.returnType
    let _ ← insertSignature signature id

/-- The member `writePoolMethod` (lines 634-664): the handle is the local
`auto id = 0`, and `methodPool` is read but never assigned. -/
def writePoolMethod (symbol : ResolvedMethodSymbol) : M Unit := do
  let signature := symbol.signature
  if (← getWriter).methodPool.contains signature then
    let id ← poolLookup (← getWriter).methodPool signature
    writePoolReference POOL_METHOD id
  else
    let id : Int := 0
    writeInt8 POOL_NEW
    writeInt16 (toInt16 id)
    writeInt8 POOL_METHOD
    writePoolClass symbol.className
    writePoolString symbol.methodName
    writePoolSignature symbol
    writeInt32 (toInt32 symbol.flags)
    let maxByteCodeIndex := symbol.maxBytecodeIndex
    writeInt32 (toInt32 maxByteCodeIndex)
    forEach (symbol.bytecode.take maxByteCodeIndex.toNat) (fun c => writeInt8 (toInt8 c.val))

/-! ## Graph serialiser -/

/-- The function `writeTreeTop` (lines 463-490). -/
def writeTreeTop (tt : TreeTop) : M Unit := do
  let node := tt.node
  writeInt32 (toInt32 node.getGlobalIndex)
  writePoolNodeClass tt.node (getInputEdgeInfo tt.node) (getOutputEdgeInfo tt)
  let hasPredecessor : Int := if tt.hasPrev then 1 else 0
  writeInt8 hasPredecessor
  let properties := getNodeProperties tt.node
  writeProperties properties
  forEach node.children (fun child => writeDirectEdge (toInt32 child.getGlobalIndex))
  if node.getOpCode.isBranch then
    match node.getBranchDestination with
    | some target => writeDirectEdge (toInt32 target)
    | none => throwFault Fault.nullPointer
  match tt.next with
  | some next => writeDirectEdge (toInt32 next)
  | none => pure ()

/-- The function `writeNode` (lines 492-507). -/
def writeNode (node : Node) : M Unit := do
  writeInt32 (toInt32 node.getGlobalIndex)
  writePoolNodeClass node (getInputEdgeInfo node) []
  writeInt8 0
  let properties := getNodeProperties node
  writeProperties properties
  forEach node.children (fun child => writeDirectEdge (toInt32 child.getGlobalIndex))

/-- The two counting loops of `writeGraphBody` (lines 201-210). -/
def countNodes (methodSymbol : ResolvedMethodSymbol) : Nat :=
  (treeTopIterator methodSymbol).length +
    ((preorderNodeIterator methodSymbol).filter (fun n => !n.getOpCode.isTreeTop)).length

/-- The function `writeGraphBody` (lines 193-235). -/
def writeGraphBody (name : CppString) (methodSymbol : ResolvedMethodSymbol) : M Unit := do
  let stringProperties : List StringProperty := [⟨str "label", name⟩]
  writeProperties stringProperties
  let nodes_count := countNodes methodSymbol
  writeInt32 (toInt32 nodes_count)
  forEach (treeTopIterator methodSymbol) writeTreeTop
  forEach ((preorderNodeIterator methodSymbol).filter (fun n => !n.getOpCode.isTreeTop)) writeNode
  writeInt32 0

/-! ## Session life cycle -/

/-- The call `std::replace(begin, end, from, to)`. -/
def replaceChar (s : CppString) (old new : Fin 256) : CppString :=
  s.map (fun c => if c = old then new else c)

/-- The member `BinaryGraphWriter::initialize` (lines 95-147); the local `id` is
`auto id = 0`. -/
def initializeWriter (comp : Compilation) (symbol : ResolvedMethodSymbol) : M Unit := do
  if (← getWriter).initialized then
    pure ()
  else
    let id : Int := 0
    let signature := replaceChar symbol.signature 47 46
    if (← getWriter).file.isNone then
      let hotness := comp.hotnessName
      let filename := str "TestarossaCompilation-" ++ decimal id ++ str "[" ++ cstr signature
        ++ str "][" ++ cstr hotness ++ str "].bgv"
      match fopen comp filename with
      | none => throwFault Fault.openFailed
      | some f => modifyWriter (fun w => { w with file := some f })
    writeInt8 66
    writeInt8 73
    writeInt8 71
    writeInt8 86
    let MAJOR : Int := 7
    let MINOR : Int := 0
    writeInt8 MAJOR
    writeInt8 MINOR
    writeInt8 BEGIN_GROUP
    let name := decimal id ++ str ":" ++ cstr signature
    writePoolString name
    writePoolString (str "Placeholder short name")
    writePoolMethod symbol
    writeInt32 0
    let graphType := str "StructuredGraph:" ++ decimal id ++ str "\x7bTestarossaCompilation<"
      ++ cstr signature ++ str ">\x7d"
    let properties : List StringProperty := [⟨str "graph", graphType⟩]
    writeProperties properties
    modifyWriter (fun w => { w with initialized := true })

/-- The member `writeGraph` (lines 154-168). -/
def writeGraph (comp : Compilation) (title : CppString) (methodSymbol : ResolvedMethodSymbol) :
    M Unit := do
  initializeWriter comp methodSymbol
  writeInt8 BEGIN_GRAPH
  let optIndex := comp.optIndex
  writeInt32 (toInt32 optIndex)
  writeString (cstr title)
  writeInt32 0
  let name := cstr title
  writeGraphBody name methodSymbol

/-- The destructor `BinaryGraphWriter::~BinaryGraphWriter` (lines 87-93). -/
def destructor : M Unit := do
  if (← getWriter).initialized then
    writeInt8 CLOSE_GROUP
    flushBuffer true
    match (← getWriter).file with
    | some f => modifyWriter (fun w => { w with file := some (fclose f) })
    | none => throwFault Fault.nullFile
  else
    pure ()

/-! ## Reading the byte stream -/

/-- The two bytes of a 16-bit value, most significant first. -/
def be16 (n : Int) : List Nat := [ubyte (n / 256), ubyte n]

/-- The four bytes of a 32-bit value, most significant first: byte `k` is
`floor (n / 2^(8*(3-k))) mod 256`. -/
def be32 (n : Int) : List Nat :=
  [ubyte (n / 2 ^ 24), ubyte (n / 2 ^ 16), ubyte (n / 2 ^ 8), ubyte n]

/-- A length-prefixed byte string: the 4-byte big-endian length, then the
bytes themselves. -/
def lengthPrefixed (s : CppString) : List Nat := be32 s.length ++ s.map Fin.val

/-- The part of the state that is not the buffer or the destination. -/
structure Tables where
  stringPool : Pool CppString
  nodeClassPool : Pool (CppString × Int × Int)
  methodPool : Pool CppString
  signaturePool : Pool CppString
  typePool : Pool CppString
  enumValuePool : Pool (CppString × Int)
  poolId : Nat
  initialized : Bool
deriving DecidableEq, Repr

/-- The pools, the handle counter and the session flag of a writer. -/
def Writer.tables (w : Writer) : Tables :=
  { stringPool := w.stringPool, nodeClassPool := w.nodeClassPool, methodPool := w.methodPool,
    signaturePool := w.signaturePool, typePool := w.typePool,
    enumValuePool := w.enumValuePool, poolId := w.poolId, initialized := w.initialized }

/-- The number of `fwrite` calls made on the destination so far. -/
def flushCount (w : Writer) : Nat :=
  match w.file with
  | some f => f.chunks.length
  | none => 0

/-- A run of `writeInt8` calls, one per byte of the list. -/
def emit (bs : List Int) : M Unit := forEach bs writeInt8


/-- The four `writeInt8` arguments of `writeInt32`. -/
def bytes32 (n : Int) : List Int :=
  [toInt8 (n / 2 ^ 24), toInt8 (n / 2 ^ 16), toInt8 (n / 2 ^ 8), toInt8 n]

/-- The two `writeInt8` arguments of `writeInt16`. -/
def bytes16 (n : Int) : List Int := [toInt8 (n / 256 % 256), toInt8 (n % 256)]

/-- The `writeInt8` arguments of `writeString`. -/
def bytesString (s : CppString) : List Int :=
  bytes32 (toInt32 s.length) ++ (s.take (toInt32 s.length).toNat).map (fun c => toInt8 c.val)

/-- The buffer can take `k` more bytes without a failing flush: either no
flush will be needed, or the destination is open with room for everything. -/
def Roomy (w : Writer) (k : Nat) : Prop :=
  w.buffer.length + k ≤ BUFFER_SIZE_BYTES ∨
    ∃ f, w.file = some f ∧ w.buffer.length + k ≤ f.room

/-- The bytes a run from `w` to `w1` added to the stream. -/
def emitted (w w1 : Writer) : List Nat := (stream w1).drop (stream w).length

/-- A sequence of calls of one operation, one per argument, on one session:
the bytes each call added to the stream, in call order, and the final state;
none when a call threw. -/
def callTrace {κ : Type} (op : κ → M Unit) : List κ → Writer → Option (List (List Nat) × Writer)
  | [], w => some ([], w)
  | k :: ks, w =>
    match op k w with
    | Res.ok _ w1 =>
      match callTrace op ks w1 with
      | some (ds, w2) => some (emitted w w1 :: ds, w2)
      | none => none
    | Res.throw _ _ => none

/-! ## The define-vs-reference protocol, read from the stream -/

/-- A reference to a pool entry: the tag of the pool kind and the 16-bit
handle, 3 bytes. -/
def poolReference (tag : Nat) (h : Int) : List Nat := tag :: be16 h

/-- The payload of a String define record: what `writeString` writes. -/
def stringPayload (s : CppString) : List Nat := (bytesString s).map ubyte

/-- The define record of a String entry: `[0x00][16-bit handle][0x01][payload]`. -/
def stringDefine (h : Int) (s : CppString) : List Nat :=
  0 :: (be16 h ++ 1 :: stringPayload s)

/-- The tables after `getNextPoolId`. -/
def Tables.bump (t : Tables) : Tables := { t with poolId := (t.poolId + 1) % 65536 }

/-- The tables after `stringPool.insert(s, id)`. -/
def Tables.addString (t : Tables) (s : CppString) (id : Nat) : Tables :=
  { t with stringPool := (t.stringPool.insert s id).1 }

/-- The tables after `nodeClassPool.insert(k, id)`. -/
def Tables.addNodeClass (t : Tables) (k : CppString × Int × Int) (id : Nat) : Tables :=
  { t with nodeClassPool := (t.nodeClassPool.insert k id).1 }

/-- The tables after `typePool.insert(s, id)`. -/
def Tables.addType (t : Tables) (s : CppString) (id : Nat) : Tables :=
  { t with typePool := (t.typePool.insert s id).1 }

/-- The tables after `signaturePool.insert(s, id)`. -/
def Tables.addSignature (t : Tables) (s : CppString) (id : Nat) : Tables :=
  { t with signaturePool := (t.signaturePool.insert s id).1 }

/-- The tables after `enumValuePool.insert(k, id)`. -/
def Tables.addEnumValue (t : Tables) (k : CppString × Int) (id : Nat) : Tables :=
  { t with enumValuePool := (t.enumValuePool.insert k id).1 }

/-- A String pool define-or-reference against given tables: the bytes of the
entry and the tables afterwards. A key in the pool is referenced by its
handle; a new key draws the next handle and is defined and inserted. -/
def stringEntry (t : Tables) (s : CppString) : List Nat × Tables :=
  match t.stringPool.find s with
  | some h => (poolReference 1 h, t)
  | none => (stringDefine t.poolId s, t.bump.addString s t.poolId)

/-- The entries of a sequence of String pool writes, in order. -/
def stringTrace (t : Tables) : List CppString → List (List Nat)
  | [] => []
  | k :: ks => (stringEntry t k).1 :: stringTrace (stringEntry t k).2 ks

/-- A record that starts with the tag `POOL_NEW`: a define record. -/
def isDefine (d : List Nat) : Bool := d.head? == some 0

/-- One call `writePoolNodeClass(node, inputs, outputs)`. -/
def nodeClassCall (c : Node × List InputEdgeInfo × List OutputEdgeInfo) : M Unit :=
  writePoolNodeClass c.1 c.2.1 c.2.2

/-- The nodes that get a node record: the pre-order sequence without the
nodes whose opcode is a statement opcode (lines 219-223). -/
def plainNodes (methodSymbol : ResolvedMethodSymbol) : List Node :=
  (preorderNodeIterator methodSymbol).filter (fun n => !n.getOpCode.isTreeTop)

/-- The global indices of the nodes the two record loops of `writeGraphBody`
run over, in order: the statements, then the plain nodes. -/
def recordIndices (methodSymbol : ResolvedMethodSymbol) : List Nat :=
  (treeTopIterator methodSymbol).map (fun tt => tt.node.getGlobalIndex) ++
    (plainNodes methodSymbol).map Node.getGlobalIndex

/-- The state of an outcome. -/
def finalState {α : Type} : Res α → Writer
  | Res.ok _ w => w
  | Res.throw _ w => w

/-! ## Frame conditions -/

/-- Every entry of the pool `p` is an entry of `q`, with the same handle. -/
def Pool.le {T : Type} [DecidableEq T] (p q : Pool T) : Prop :=
  ∀ k h, p.find k = some h → q.find k = some h

/-- The state `w1` continues `w`: the stream of `w1` starts with the stream of
`w`, every pool entry of `w` is still there with its handle, and the method
pool and the session flag are the same. -/
structure Grows (w w1 : Writer) : Prop where
  stream : ∃ bs, stream w1 = stream w ++ bs
  stringPool : Pool.le w.stringPool w1.stringPool
  nodeClassPool : Pool.le w.nodeClassPool w1.nodeClassPool
  signaturePool : Pool.le w.signaturePool w1.signaturePool
  typePool : Pool.le w.typePool w1.typePool
  enumValuePool : Pool.le w.enumValuePool w1.enumValuePool
  methodPool : w1.methodPool = w.methodPool
  initialized : w1.initialized = w.initialized

/-- Every successful run of `m` ends in a state that continues the one it
started from. -/
def Steps {α : Type} (m : M α) : Prop := ∀ w a w1, m w = Res.ok a w1 → Grows w w1

/-! ## Sample inputs -/

/-- An open destination that accepts 10 more bytes and holds one byte. -/
def sampleFile : File := { name := [], chunks := [[1]], room := 10, isOpen := true }

/-- An initialized session with two bytes buffered. -/
def sampleSession : Writer :=
  { Writer.new with initialized := true, buffer := [73, 66], file := some sampleFile }

/-- Three String writes, the third repeating the first key. -/
def sampleKeys : List CppString := [[97], [98], [97]]

/-- The fresh session after the writes of `sampleKeys`. -/
def sampleKeysWriter : Writer :=
  { Writer.new with
    buffer := List.reverse [0, 0, 0, 1, 0, 0, 0, 1, 97, 0, 0, 1, 1, 0, 0, 0, 1, 98, 1, 0, 0]
    stringPool := ⟨[([97], 0), ([98], 1)]⟩
    poolId := 2 }

/-- The bytes of each of the writes of `sampleKeys`. -/
def sampleKeysTrace : List (List Nat) :=
  [[0, 0, 0, 1, 0, 0, 0, 1, 97], [0, 0, 1, 1, 0, 0, 0, 1, 98], [1, 0, 0]]

/-- The final stream of an outcome. -/
def finalStream {α : Type} : Res α → List Nat
  | Res.ok _ w => stream w
  | Res.throw _ w => stream w

/-- Whether an outcome is a normal return. -/
def isOk {α : Type} : Res α → Bool
  | Res.ok _ _ => true
  | Res.throw _ _ => false

/-- The method `A.f()V` with two bytecodes and an empty statement list. -/
def sampleMethod : ResolvedMethodSymbol :=
  { signature := str "A/f()V", className := str "A", methodName := str "f",
    signatureChars := str "()V", parmTypes := [], returnType := str "void", flags := 0,
    maxBytecodeIndex := 2, bytecode := [1, 2], trees := [] }

/-- A compilation whose destination can be created and accepts 100000 bytes. -/
def sampleComp : Compilation :=
  { hotnessName := str "warm", optIndex := 3, canCreate := fun _ => true, room := 100000 }

/-- Two childless nodes with different opcode values and the same opcode
name `x`. -/
def sampleNodeA : Node := Node.mk 0 ⟨ILOpCodes.other 1, str "x", false, false⟩ [] 0 [] none []

def sampleNodeB : Node := Node.mk 1 ⟨ILOpCodes.other 2, str "x", false, false⟩ [] 0 [] none []

/-- Two `writePoolNodeClass` calls on the sample nodes, without edges. -/
def sampleCalls : List (Node × List InputEdgeInfo × List OutputEdgeInfo) :=
  [(sampleNodeA, [], []), (sampleNodeB, [], [])]

/-- The bytes of each of the calls of `sampleCalls` on a fresh session. -/
def sampleCallsTrace : List (List Nat) :=
  [[0, 0, 0, 6, 0, 0, 1, 3, 0, 0, 0, 1, 120, 0, 0, 0, 0, 1, 120, 0, 0, 0, 0], [6, 0, 0]]

/-- The fresh session after the calls of `sampleCalls`. -/
def sampleCallsWriter : Writer :=
  { Writer.new with
    buffer := List.reverse
      [0, 0, 0, 6, 0, 0, 1, 3, 0, 0, 0, 1, 120, 0, 0, 0, 0, 1, 120, 0, 0, 0, 0, 6, 0, 0]
    nodeClassPool := ⟨[(([120], 0, 0), 0)]⟩
    typePool := ⟨[([120], 1)]⟩
    poolId := 2 }

/-- The statements `x = 1; return x;` and a block end: three statements with
two further data nodes. -/
def sampleGraph : ResolvedMethodSymbol :=
  { sampleMethod with
    trees :=
      [Node.mk 0 ⟨ILOpCodes.istore, str "istore", true, false⟩ (str "x") 0 (str "Int32") none
         [Node.mk 1 ⟨ILOpCodes.iconst, str "iconst", false, false⟩ [] 1 (str "Int32") none []],
       Node.mk 2 ⟨ILOpCodes.ireturn, str "ireturn", true, false⟩ [] 0 (str "Int32") none
         [Node.mk 3 ⟨ILOpCodes.iload, str "iload", false, false⟩ (str "x") 0 (str "Int32") none []],
       Node.mk 4 ⟨ILOpCodes.BBEnd, str "BBEnd", true, false⟩ [] 0 (str "NoType") none []] }

/-- One statement, an anchor with a statement opcode, whose child is a store:
a node with a statement opcode below a statement. -/
def sampleAnchored : ResolvedMethodSymbol :=
  { sampleMethod with
    trees :=
      [Node.mk 0 ⟨ILOpCodes.other 0, str "treetop", true, false⟩ [] 0 (str "NoType") none
         [Node.mk 1 ⟨ILOpCodes.istore, str "istore", true, false⟩ (str "x") 0 (str "Int32") none
            [Node.mk 2 ⟨ILOpCodes.iconst, str "iconst", false, false⟩ [] 1 (str "Int32") none []]]] }

/-- One statement whose node has an opcode that is not a statement opcode. -/
def sampleBareCall : ResolvedMethodSymbol :=
  { sampleMethod with
    trees :=
      [Node.mk 0 ⟨ILOpCodes.icall, str "icall", false, false⟩ (str "g") 0 (str "Int32") none []] }

/-- The global indices a statement record carries as direct edges, in the
order written: the children, the branch target of a branch, the following
statement. -/
def treeTopEdges (tt : TreeTop) : List Int :=
  tt.node.children.map (fun c => (c.getGlobalIndex : Int)) ++
    (if tt.node.getOpCode.isBranch then
      tt.node.getBranchDestination.toList.map (fun t => (t : Int)) else []) ++
    tt.next.toList.map (fun n => (n : Int))

/-- The bytes of a sequence of direct edges. -/
def edgeBytes (ids : List Int) : List Nat := (ids.map be32).flatten

/-- An addition whose two children are one shared constant node. -/
def sampleAdd : Node :=
  Node.mk 7 ⟨ILOpCodes.iadd, str "iadd", false, false⟩ [] 0 (str "Int32") none
    [Node.mk 8 ⟨ILOpCodes.iconst, str "iconst", false, false⟩ [] 1 (str "Int32") none [],
     Node.mk 8 ⟨ILOpCodes.iconst, str "iconst", false, false⟩ [] 1 (str "Int32") none []]

/-- The state `w5` is the state of the record of `tt`, started in `w`, when
its property block has been written: the global index, the NodeClass entry,
the predecessor flag and the property block have run, in this order. -/
def AfterProperties (tt : TreeTop) (w w5 : Writer) : Prop :=
  ∃ w2 w3 w4,
    writeInt32 (toInt32 tt.node.getGlobalIndex) w = Res.ok () w2 ∧
    writePoolNodeClass tt.node (getInputEdgeInfo tt.node) (getOutputEdgeInfo tt) w2 =
      Res.ok () w3 ∧
    writeInt8 (if tt.hasPrev then 1 else 0) w3 = Res.ok () w4 ∧
    writeProperties (getNodeProperties tt.node) w4 = Res.ok () w5

/-- A branch statement node, numbered 4, with the target 9 and one child. -/
def sampleBranchNode : Node :=
  Node.mk 4 ⟨ILOpCodes.ificmpeq, str "ificmpeq", true, true⟩ [] 0 (str "NoType") (some 9)
    [Node.mk 5 ⟨ILOpCodes.iload, str "iload", false, false⟩ (str "a") 0 (str "Int32") none []]

/-- The branch as the last statement of the list. -/
def sampleBranchLast : TreeTop := { node := sampleBranchNode, hasPrev := true, next := none }

/-- The branch followed by the statement numbered 6. -/
def sampleBranchMid : TreeTop := { node := sampleBranchNode, hasPrev := true, next := some 6 }

/-- The entries of a sequence of string properties against given tables: for
each property the String entry of the key, the tag byte 0x00 and the String
entry of the value, each entry read against the tables the previous one
left; and the tables afterwards. -/
def propertyEntries (t : Tables) : List StringProperty → List Nat × Tables
  | [] => ([], t)
  | p :: ps =>
    let k := stringEntry t p.key
    let v := stringEntry k.2 p.value
    let r := propertyEntries v.2 ps
    (k.1 ++ 0 :: v.1 ++ r.1, r.2)

/-- Two properties that share the value of the first as the key of the second. -/
def sampleProperties : List StringProperty := [⟨[107], [118]⟩, ⟨[118], [107]⟩]

/-- The opcodes that the `switch` of `getNodeProperties` names (lines 272-317). -/
def namedPropertyOpcodes : List ILOpCodes :=
  [ILOpCodes.BBStart, ILOpCodes.BBEnd,
   ILOpCodes.Return, ILOpCodes.areturn, ILOpCodes.ireturn, ILOpCodes.freturn,
   ILOpCodes.lreturn, ILOpCodes.dreturn,
   ILOpCodes.acall, ILOpCodes.icall, ILOpCodes.lcall, ILOpCodes.dcall, ILOpCodes.fcall,
   ILOpCodes.call,
   ILOpCodes.astore, ILOpCodes.istore, ILOpCodes.fstore, ILOpCodes.lstore, ILOpCodes.dstore,
   ILOpCodes.aload, ILOpCodes.iload, ILOpCodes.fload, ILOpCodes.lload, ILOpCodes.dload,
   ILOpCodes.iconst, ILOpCodes.lconst, ILOpCodes.sconst, ILOpCodes.bconst]

/-- The local `signature` of `initialize` as `%s` prints it: the text of the
method signature with every `/` replaced by `.` (lines 107-108). -/
def sessionSignature (symbol : ResolvedMethodSymbol) : CppString :=
  cstr (replaceChar symbol.signature 47 46)

/-- The local `filename` of `initialize` (line 112); the id printed is the
local `id`, which is 0. -/
def destinationName (comp : Compilation) (symbol : ResolvedMethodSymbol) : CppString :=
  str "TestarossaCompilation-" ++ decimal 0 ++ str "[" ++ sessionSignature symbol
    ++ str "][" ++ cstr comp.hotnessName ++ str "].bgv"

/-- The local `name` of `initialize` (line 133). -/
def sessionName (symbol : ResolvedMethodSymbol) : CppString :=
  decimal 0 ++ str ":" ++ sessionSignature symbol

/-- The local `graphType` of `initialize` (line 140). -/
def sessionGraphType (symbol : ResolvedMethodSymbol) : CppString :=
  str "StructuredGraph:" ++ decimal 0 ++ str "\x7bTestarossaCompilation<"
    ++ sessionSignature symbol ++ str ">\x7d"

/-- The statements of `initialize` that follow the opening of the destination
(lines 121-146), as one operation. -/
def initializeBody (symbol : ResolvedMethodSymbol) : M Unit := do
  writeInt8 66
  writeInt8 73
  writeInt8 71
  writeInt8 86
  writeInt8 7
  writeInt8 0
  writeInt8 BEGIN_GROUP
  writePoolString (sessionName symbol)
  writePoolString (str "Placeholder short name")
  writePoolMethod symbol
  writeInt32 0
  writeProperties [⟨str "graph", sessionGraphType symbol⟩]
  modifyWriter (fun w => { w with initialized := true })

/-- A compilation of the same method at the same hotness in which no
destination can be created. -/
def sampleCompClosed : Compilation :=
  { hotnessName := str "warm", optIndex := 3, canCreate := fun _ => false, room := 0 }

/-- A second compilation of the same method at the same hotness. -/
def sampleCompSecond : Compilation :=
  { hotnessName := str "warm", optIndex := 8, canCreate := fun _ => true, room := 100000 }

/-- A writer without a buffer, after the spec's words ("one that sends every
byte straight to the destination"): the destination after one more byte. -/
def sendDirect (destination : List Nat) (byte : Int) : List Nat := destination ++ [ubyte byte]

/-- A session with one byte buffered whose destination accepts no byte. -/
def sampleFullSession : Writer :=
  { Writer.new with
    buffer := [5], file := some { name := [], chunks := [], room := 0, isOpen := true } }

/-- The state `v5` is the state of the plain node record of `node`, started
in `v`, when its property block has been written. -/
def AfterNodeProperties (node : Node) (v v5 : Writer) : Prop :=
  ∃ v2 v3 v4,
    writeInt32 (toInt32 node.getGlobalIndex) v = Res.ok () v2 ∧
    writePoolNodeClass node (getInputEdgeInfo node) [] v2 = Res.ok () v3 ∧
    writeInt8 0 v3 = Res.ok () v4 ∧
    writeProperties (getNodeProperties node) v4 = Res.ok () v5

/-- The bytes of a property block against given tables: the 2-byte count and
the entries of the properties. -/
def propertyBlock (t : Tables) (ps : List StringProperty) : List Nat :=
  [ps.length / 256, ps.length % 256] ++ (propertyEntries t ps).1

/-- The statement `x = 1 + 2`: a store (node 0) of an addition (node 1) of the
constants 1 (node 2) and 2 (node 3). -/
def sampleStoreAdd : ResolvedMethodSymbol :=
  { sampleMethod with
    trees :=
      [Node.mk 0 ⟨ILOpCodes.istore, str "istore", true, false⟩ (str "x") 0 (str "Int32") none
        [Node.mk 1 ⟨ILOpCodes.iadd, str "iadd", false, false⟩ [] 0 (str "Int32") none
          [Node.mk 2 ⟨ILOpCodes.iconst, str "iconst", false, false⟩ [] 1 (str "Int32") none [],
           Node.mk 3 ⟨ILOpCodes.iconst, str "iconst", false, false⟩ [] 2 (str "Int32") none
             []]]] }

/-! ## The textual exporter (XMLGraphWriter.cpp, lines 50-74) -/

namespace XMLGraphWriter

/-- The search of `std::string::find` in a suffix that starts at position `i`. -/
def findIn (target : CppString) : CppString → Nat → Option Nat
  | [], i => if target = [] then some i else none
  | c :: rest, i =>
    if (c :: rest).take target.length = target then some i else findIn target rest (i + 1)

/-- The call `string.find(target, index)`: the lowest position not below
`index` at which `target` occurs; none is `npos`. -/
def find (string target : CppString) (index : Nat) : Option Nat :=
  if index ≤ string.length then findIn target (string.drop index) index else none

/-- The call `string.replace(index, n, replacement)` for `index` within the
string: the `n` characters at `index` (as many as there are) give way to
`replacement`. -/
def stringReplace (string : CppString) (index n : Nat) (replacement : CppString) : CppString :=
  string.take index ++ replacement ++ string.drop (index + n)

/-- The loop of `replace` (lines 53-63), run for at most `fuel` iterations;
none when the loop has not ended by then. -/
def replaceLoop (target replacement : CppString) : Nat → CppString → Nat → Option CppString
  | 0, _, _ => none
  | fuel + 1, string, index =>
    match find string target index with
    | none => some string
    | some i =>
      let n := replacement.length
      replaceLoop target replacement fuel (stringReplace string i n replacement) (i + n)

/-- The function `replace` (lines 50-64), run for at most `fuel` iterations. -/
def replace (fuel : Nat) (string target replacement : CppString) : Option CppString :=
  replaceLoop target replacement fuel string 0

/-- The function `sanitizeXML` (lines 71-74). -/
def sanitizeXML (fuel : Nat) (string : CppString) : Option CppString :=
  (replace fuel string (str "<") (str "&lt;")).bind
    (fun s => replace fuel s (str ">") (str "&gt;"))

end XMLGraphWriter

/-- The reference to a String entry against given tables: `[0x01][handle]`. -/
def stringRef (t : Tables) (s : CppString) : List Nat :=
  poolReference 1 ((t.stringPool.find s).getD 0)

/-- A property block of references only. -/
def propertyRefs (t : Tables) (ps : List StringProperty) : List Nat :=
  [ps.length / 256, ps.length % 256] ++
    (ps.map (fun p => stringRef t p.key ++ 0 :: stringRef t p.value)).flatten

/-- The NodeClass key of a statement record (lines 561-566). -/
def treeTopKey (tt : TreeTop) : CppString × Int × Int :=
  (tt.node.getOpCode.name, toInt32 (getInputEdgeInfo tt.node).length,
    toInt32 (getOutputEdgeInfo tt).length)

/-- The NodeClass key of a plain node record. -/
def nodeKey (node : Node) : CppString × Int × Int :=
  (node.getOpCode.name, toInt32 (getInputEdgeInfo node).length,
    toInt32 ([] : List OutputEdgeInfo).length)

/-- The reference to a NodeClass entry against given tables: `[0x06][handle]`. -/
def nodeClassRef (t : Tables) (key : CppString × Int × Int) : List Nat :=
  poolReference 6 ((t.nodeClassPool.find key).getD 0)

/-- A statement record of references only. -/
def treeTopRefRecord (t : Tables) (tt : TreeTop) : List Nat :=
  be32 tt.node.getGlobalIndex ++ nodeClassRef t (treeTopKey tt) ++
    [if tt.hasPrev then 1 else 0] ++ propertyRefs t (getNodeProperties tt.node) ++
    edgeBytes (treeTopEdges tt)

/-- A plain node record of references only. -/
def nodeRefRecord (t : Tables) (node : Node) : List Nat :=
  be32 node.getGlobalIndex ++ nodeClassRef t (nodeKey node) ++ [0] ++
    propertyRefs t (getNodeProperties node) ++
    edgeBytes (node.children.map (fun c => (c.getGlobalIndex : Int)))

/-- The body of a graph of references only. -/
def bodyRefs (t : Tables) (name : CppString) (methodSymbol : ResolvedMethodSymbol) : List Nat :=
  propertyRefs t [⟨str "label", name⟩] ++ be32 (countNodes methodSymbol) ++
    ((treeTopIterator methodSymbol).map (treeTopRefRecord t)).flatten ++
    ((plainNodes methodSymbol).map (nodeRefRecord t)).flatten ++ [0, 0, 0, 0]

/-- Every key and value of the properties is in the String pool. -/
def PropertiesKnown (t : Tables) (ps : List StringProperty) : Prop :=
  ∀ p ∈ ps, (t.stringPool.find p.key).isSome = true ∧ (t.stringPool.find p.value).isSome = true

/-- The NodeClass key and the property strings of a statement are in the pools. -/
def TreeTopKnown (t : Tables) (tt : TreeTop) : Prop :=
  (t.nodeClassPool.find (treeTopKey tt)).isSome = true ∧
    PropertiesKnown t (getNodeProperties tt.node)

/-- The NodeClass key and the property strings of a plain node are in the pools. -/
def NodeKnown (t : Tables) (node : Node) : Prop :=
  (t.nodeClassPool.find (nodeKey node)).isSome = true ∧
    PropertiesKnown t (getNodeProperties node)

/-- Every pool key of the body of a graph is in the pools. -/
def BodyKnown (t : Tables) (name : CppString) (methodSymbol : ResolvedMethodSymbol) : Prop :=
  PropertiesKnown t [⟨str "label", name⟩] ∧
    (∀ tt ∈ treeTopIterator methodSymbol, TreeTopKnown t tt) ∧
    (∀ node ∈ plainNodes methodSymbol, NodeKnown t node)

/-- The pool operations other than `writePoolMethod`. -/
inductive PoolOp where
  | poolString (string : CppString)
  | poolClass (name : CppString)
  | poolEnumClass (cls : PoolEnumClass)
  | poolEnumValue (index : Nat) (cls : PoolEnumClass)
  | poolNodeClass (node : Node) (inputs : List InputEdgeInfo) (outputs : List OutputEdgeInfo)
  | poolSignature (symbol : ResolvedMethodSymbol)
  | inputEdgeInfo (info : InputEdgeInfo)
  | outputEdgeInfo (info : OutputEdgeInfo)
  | properties (stringProperties : List StringProperty)

/-- The call of a pool operation. -/
def PoolOp.run : PoolOp → M Unit
  | PoolOp.poolString s => writePoolString s
  | PoolOp.poolClass name => writePoolClass name
  | PoolOp.poolEnumClass cls => writePoolEnumClass cls
  | PoolOp.poolEnumValue index cls => writePoolEnumValue index cls
  | PoolOp.poolNodeClass node inputs outputs => writePoolNodeClass node inputs outputs
  | PoolOp.poolSignature symbol => writePoolSignature symbol
  | PoolOp.inputEdgeInfo info => writeInputEdgeInfo info
  | PoolOp.outputEdgeInfo info => writeOutputEdgeInfo info
  | PoolOp.properties ps => writeProperties ps

/-- Pool operations on a fresh session: a string, a node class with one input
edge, and the string again. -/
def samplePoolOps : List PoolOp :=
  [PoolOp.poolString [97],
   PoolOp.poolNodeClass sampleNodeA [⟨false, [98], 0⟩] [],
   PoolOp.poolString [97]]

/-- A byte store: a statement opcode that the switch of `getNodeProperties`
does not name. -/
def sampleByteStore : Node :=
  Node.mk 1 ⟨ILOpCodes.bstore, str "bstore", true, false⟩ (str "x") 0 (str "Int8") none []

/-- A byte load: an opcode that the switch of `getNodeProperties` does not
name. -/
def sampleByteLoad : Node :=
  Node.mk 2 ⟨ILOpCodes.bload, str "bload", false, false⟩ (str "x") 0 (str "Int8") none []

/-- The entries of the constant pool that draw their handle from the counter
`poolId`: what `writePoolString`, `writePoolClass`, `writePoolEnumClass`,
`writePoolEnumValue`, `writePoolNodeClass` and `writePoolSignature` write. -/
inductive PoolEntry where
  | string (s : CppString)
  | klass (name : CppString)
  | enumClass (cls : PoolEnumClass)
  | enumValue (index : Nat) (cls : PoolEnumClass)
  | nodeClass (node : Node) (inputs : List InputEdgeInfo) (outputs : List OutputEdgeInfo)
  | signature (symbol : ResolvedMethodSymbol)

/-- A field of the stream: the bytes of one call of the scalar encoder
(`writeInt8`, `writeInt16`, `writeInt32`, `writeString`), or a pool entry,
which is written as a define record or as a reference. -/
inductive Field where
  | scalar (bytes : List Nat)
  | entry (e : PoolEntry)

/-- The tag byte of a pool entry. -/
def PoolEntry.tag : PoolEntry → Nat
  | PoolEntry.string _ => ubyte POOL_STRING
  | PoolEntry.klass _ => ubyte POOL_CLASS
  | PoolEntry.enumClass _ => ubyte POOL_CLASS
  | PoolEntry.enumValue _ _ => ubyte POOL_ENUM
  | PoolEntry.nodeClass _ _ _ => ubyte POOL_NODE_CLASS
  | PoolEntry.signature _ => ubyte POOL_SIGNATURE

/-- The fields that `writeInputEdgeInfo` writes (lines 532-536). -/
def inputEdgeFields (info : InputEdgeInfo) : List Field :=
  [Field.scalar [ubyte (if info.isIndirect then 1 else 0)],
   Field.entry (PoolEntry.string info.name),
   Field.entry (PoolEntry.enumValue 0 InputEdgeType)]

/-- The fields that `writeOutputEdgeInfo` writes (lines 538-541). -/
def outputEdgeFields (info : OutputEdgeInfo) : List Field :=
  [Field.scalar [ubyte (if info.isIndirect then 1 else 0)],
   Field.entry (PoolEntry.string info.name)]

/-- The fields that `writeStringProperty` writes (lines 64-69 and 509-512). -/
def propertyFields (property : StringProperty) : List Field :=
  [Field.entry (PoolEntry.string property.key),
   Field.scalar [ubyte PROPERTY_POOL],
   Field.entry (PoolEntry.string property.value)]

/-- The payload of the define record of a pool entry: the fields that the
defining branch of its member function writes after the head
`[0x00][handle][tag]`. -/
def PoolEntry.payload : PoolEntry → List Field
  | PoolEntry.string s => [Field.scalar (stringPayload s)]
  | PoolEntry.klass name => [Field.scalar (stringPayload name), Field.scalar [ubyte KLASS]]
  | PoolEntry.enumClass cls =>
    Field.scalar (stringPayload cls.name) :: Field.scalar [ubyte ENUM_KLASS] ::
      Field.scalar (be32 (toInt32 cls.values.length)) ::
      cls.values.map (fun s => Field.entry (PoolEntry.string s))
  | PoolEntry.enumValue index cls =>
    [Field.entry (PoolEntry.enumClass cls), Field.scalar (be32 (toInt32 index))]
  | PoolEntry.nodeClass node inputs outputs =>
    Field.entry (PoolEntry.klass node.getOpCode.name) ::
      Field.scalar (stringPayload (getNameFormat node)) ::
      Field.scalar (be16 (toInt16 inputs.length)) ::
      ((inputs.map inputEdgeFields).flatten ++
        Field.scalar (be16 (toInt16 outputs.length)) ::
        (outputs.map outputEdgeFields).flatten)
  | PoolEntry.signature symbol =>
    Field.scalar (be16 (toInt16 symbol.parmTypes.length)) ::
      (symbol.parmTypes.map (fun s => Field.entry (PoolEntry.string s)) ++
        [Field.entry (PoolEntry.string symbol.returnType)])

/-- The fields that a pool operation writes. -/
def PoolOp.fields : PoolOp → List Field
  | PoolOp.poolString s => [Field.entry (PoolEntry.string s)]
  | PoolOp.poolClass name => [Field.entry (PoolEntry.klass name)]
  | PoolOp.poolEnumClass cls => [Field.entry (PoolEntry.enumClass cls)]
  | PoolOp.poolEnumValue index cls => [Field.entry (PoolEntry.enumValue index cls)]
  | PoolOp.poolNodeClass node inputs outputs =>
    [Field.entry (PoolEntry.nodeClass node inputs outputs)]
  | PoolOp.poolSignature symbol => [Field.entry (PoolEntry.signature symbol)]
  | PoolOp.inputEdgeInfo info => inputEdgeFields info
  | PoolOp.outputEdgeInfo info => outputEdgeFields info
  | PoolOp.properties ps =>
    Field.scalar (be16 (toInt16 ps.length)) :: (ps.map propertyFields).flatten

/-- The stream read field by field: `Reads fields bytes handles` says that
`bytes` is the sequence `fields`, every scalar field being its bytes and
every pool entry being either a reference `[tag][handle]` or a define record
`[0x00][16-bit handle][tag]` followed by the payload of the entry, and that
`handles` lists the handles of the define records in the order in which
their heads stand in `bytes`: the handle of an entry comes before those of
the entries nested in its payload. -/
inductive Reads : List Field → List Nat → List Nat → Prop where
  | done : Reads [] [] []
  | scalar (bytes : List Nat) (rest : List Field) (bs hs : List Nat) :
      Reads rest bs hs → Reads (Field.scalar bytes :: rest) (bytes ++ bs) hs
  | reference (e : PoolEntry) (h : Int) (rest : List Field) (bs hs : List Nat) :
      Reads rest bs hs → Reads (Field.entry e :: rest) (poolReference e.tag h ++ bs) hs
  | define (e : PoolEntry) (h : Nat) (rest : List Field) (bs hs : List Nat) : h < 65536 →
      Reads (e.payload ++ rest) bs hs →
      Reads (Field.entry e :: rest) (0 :: (be16 (h : Int) ++ e.tag :: bs)) (h :: hs)

/-- The handles `(c + j) mod 2^16` for `j = k, ..., n - 1`. -/
def handleSeq (c k n : Nat) : List Nat :=
  (List.range' k (n - k)).map (fun j => (c + j) % 65536)

/-- Every successful run of `m` that starts with the counter at
`(c0 + k) mod 2^16` appends the fields `fields`, whose define records carry
the handles `(c0 + k) mod 2^16`, ..., `(c0 + n - 1) mod 2^16` in stream order,
and ends with the counter at `(c0 + n) mod 2^16`; the reading goes on with
whatever follows. -/
def Emits {α : Type} (m : M α) (fields : List Field) : Prop :=
  ∀ (c0 k : Nat) (w : Writer) (a : α) (w1 : Writer), w.poolId = (c0 + k) % 65536 →
    m w = Res.ok a w1 →
    ∃ (bs : List Nat) (n : Nat), k ≤ n ∧ stream w1 = stream w ++ bs ∧
      w1.poolId = (c0 + n) % 65536 ∧
      ∀ (rest : List Field) (bs2 hs2 : List Nat), Reads rest bs2 hs2 →
        Reads (fields ++ rest) (bs ++ bs2) (handleSeq c0 k n ++ hs2)

/-! # Theorems -/

theorem toInt8_and32_neg_one (x : Int) : toInt8 (and32 x (-1)) = toInt8 x := by
  unfold and32
  have h1 : ((-1 : Int) % 4294967296).toNat = 2 ^ 32 - 1 := by decide
  rw [h1, Nat.and_pow_two_sub_one_eq_mod]
  unfold toInt8 toInt32
  omega

theorem toInt8_and32_255 (x : Int) : toInt8 (and32 x 255) = toInt8 (x % 256) := by
  unfold and32
  have h1 : ((255 : Int) % 4294967296).toNat = 2 ^ 8 - 1 := by decide
  rw [h1, Nat.and_pow_two_sub_one_eq_mod]
  unfold toInt8 toInt32
  omega

theorem ubyte_toInt8 (x : Int) : ubyte (toInt8 x) = ubyte x := by
  unfold ubyte toInt8
  congr 1
  omega

theorem toInt8_255 : toInt8 0xFF = -1 := by decide

theorem bind_apply {α β : Type} (m : M α) (f : α → M β) (w : Writer) :
    (m >>= f) w = match m w with
      | Res.ok a w1 => f a w1
      | Res.throw e w1 => Res.throw e w1 := rfl

theorem pure_apply {α : Type} (a : α) (w : Writer) : (pure a : M α) w = Res.ok a w := rfl

theorem bind_ok {α β : Type} {m : M α} {f : α → M β} {w w1 : Writer} {a : α}
    (h : m w = Res.ok a w1) : (m >>= f) w = f a w1 := by
  rw [bind_apply, h]

theorem bind_throw {α β : Type} {m : M α} {f : α → M β} {w w1 : Writer} {e : Fault}
    (h : m w = Res.throw e w1) : (m >>= f) w = Res.throw e w1 := by
  rw [bind_apply, h]

theorem bind_ok_inv {α β : Type} {m : M α} {f : α → M β} {w w2 : Writer} {b : β}
    (h : (m >>= f) w = Res.ok b w2) : ∃ a w1, m w = Res.ok a w1 ∧ f a w1 = Res.ok b w2 := by
  rw [bind_apply] at h
  cases hm : m w with
  | ok a w1 => rw [hm] at h; exact ⟨a, w1, rfl, h⟩
  | throw e w1 => rw [hm] at h; cases h

theorem forEach_nil {α : Type} (body : α → M Unit) : forEach [] body = pure () := rfl

theorem forEach_cons {α : Type} (x : α) (xs : List α) (body : α → M Unit) :
    forEach (x :: xs) body = (body x >>= fun _ => forEach xs body) := rfl

/-- What `writeInt8` does, case by case. -/
theorem writeInt8_eq (b : Int) (w : Writer) :
    writeInt8 b w =
      if w.buffer.length < BUFFER_SIZE_BYTES then
        Res.ok () { w with buffer := b :: w.buffer }
      else
        match w.file with
        | none => Res.throw Fault.nullFile w
        | some f =>
          if f.room < w.buffer.length then
            Res.throw Fault.flushFailed { w with file := some (fwrite w.buffer.reverse f).2 }
          else
            Res.ok () { w with
              file := some { f with chunks := f.chunks ++ [w.buffer.reverse.map ubyte],
                                    room := f.room - w.buffer.length },
              buffer := [b] } := by
  unfold writeInt8
  rw [bind_apply]
  unfold flushBuffer
  by_cases h : w.buffer.length < BUFFER_SIZE_BYTES
  · simp [h]
  · simp only [h, Bool.not_false, Bool.and_true, decide_False, Bool.false_eq_true, if_false]
    cases hf : w.file with
    | none => simp
    | some f =>
      simp only [fwrite]
      by_cases hr : f.room < w.buffer.length
      · have : min w.buffer.length f.room < w.buffer.length := by omega
        simp [this, hr]
      · have hm : min w.buffer.length f.room = w.buffer.length := by omega
        simp [hm, hr]

theorem stream_eq (w : Writer) :
    stream w =
      (match w.file with | some f => f.data | none => []) ++ w.buffer.reverse.map ubyte := rfl

/-- A successful `writeInt8` appends its byte to the stream and touches
nothing but the buffer and the destination. -/
theorem writeInt8_ok {b : Int} {w w1 : Writer} (h : writeInt8 b w = Res.ok () w1) :
    stream w1 = stream w ++ [ubyte b] ∧ w1.tables = w.tables := by
  rw [writeInt8_eq] at h
  split at h
  · cases h
    simp [stream, Writer.tables]
  · split at h
    · cases h
    · rename_i f hf
      split at h
      · cases h
      · cases h
        simp [stream, Writer.tables, hf, File.data]

theorem emit_nil (w : Writer) : emit [] w = Res.ok () w := rfl

theorem emit_cons (b : Int) (bs : List Int) :
    emit (b :: bs) = (writeInt8 b >>= fun _ => emit bs) := rfl

/-- A successful run of `writeInt8` calls appends the bytes in call order. -/
theorem emit_ok {bs : List Int} {w w1 : Writer} (h : emit bs w = Res.ok () w1) :
    stream w1 = stream w ++ bs.map ubyte ∧ w1.tables = w.tables := by
  induction bs generalizing w with
  | nil => rw [emit_nil] at h; cases h; simp
  | cons b bs ih =>
    rw [emit_cons] at h
    obtain ⟨_, w2, h1, h2⟩ := bind_ok_inv h
    obtain ⟨e1, e2⟩ := writeInt8_ok h1
    obtain ⟨e3, e4⟩ := ih h2
    rw [e3, e1, e4, e2]
    simp

theorem writeInt8_total {b : Int} {w : Writer} {k : Nat} (h : Roomy w (k + 1)) :
    ∃ w1, writeInt8 b w = Res.ok () w1 ∧ Roomy w1 k := by
  rw [writeInt8_eq]
  by_cases hl : w.buffer.length < BUFFER_SIZE_BYTES
  · simp only [hl, if_true]
    refine ⟨_, rfl, ?_⟩
    rcases h with h | ⟨f, hf, h⟩
    · left; simp; omega
    · right; exact ⟨f, hf, by simp; omega⟩
  · simp only [hl, if_false]
    rcases h with h | ⟨f, hf, h⟩
    · omega
    · simp only [hf]
      have : ¬ f.room < w.buffer.length := by omega
      simp only [this, if_false]
      refine ⟨_, rfl, ?_⟩
      right
      exact ⟨_, rfl, by simp; omega⟩

theorem emit_total {bs : List Int} {w : Writer} {k : Nat} (h : Roomy w (bs.length + k)) :
    ∃ w1, emit bs w = Res.ok () w1 ∧ Roomy w1 k := by
  induction bs generalizing w with
  | nil => exact ⟨w, rfl, by simpa using h⟩
  | cons b bs ih =>
    have h' : Roomy w ((bs.length + k) + 1) := by
      have : (b :: bs).length + k = (bs.length + k) + 1 := by simp; omega
      rw [this] at h; exact h
    obtain ⟨w1, h1, r1⟩ := writeInt8_total (b := b) h'
    obtain ⟨w2, h2, r2⟩ := ih r1
    exact ⟨w2, by rw [emit_cons, bind_ok h1]; exact h2, r2⟩

theorem shiftRight_eq (n : Int) (k : Nat) : n >>> k = n / 2 ^ k := by
  rw [Int.shiftRight_eq_div_pow]
  norm_num

theorem bind_pure_unit (m : M Unit) : (m >>= fun _ => (pure () : M Unit)) = m := by
  funext w
  rw [bind_apply]
  cases m w <;> rfl

theorem writeInt32_eq_emit (n : Int) : writeInt32 n = emit (bytes32 n) := by
  unfold writeInt32 emit bytes32
  simp only [forEach_cons, forEach_nil, toInt8_255, toInt8_and32_neg_one, shiftRight_eq]
  norm_num

theorem writeInt16_eq_emit (n : Int) : writeInt16 n = emit (bytes16 n) := by
  unfold writeInt16 emit bytes16
  simp only [forEach_cons, forEach_nil, toInt8_and32_255, shiftRight_eq, bind_pure_unit]
  norm_num

theorem forEach_writeInt8_map {α : Type} (xs : List α) (f : α → Int) :
    forEach xs (fun c => writeInt8 (f c)) = emit (xs.map f) := by
  induction xs with
  | nil => rfl
  | cons x xs ih =>
    show (writeInt8 (f x) >>= fun _ => forEach xs (fun c => writeInt8 (f c))) = _
    rw [ih]; rfl

theorem emit_append (as bs : List Int) : emit (as ++ bs) = (emit as >>= fun _ => emit bs) := by
  induction as with
  | nil =>
    funext w
    show emit bs w = _
    rw [bind_apply, emit_nil]
  | cons a as ih =>
    funext w
    show emit (a :: (as ++ bs)) w = _
    rw [emit_cons, ih, emit_cons]
    simp only [bind_apply]
    cases writeInt8 a w <;> rfl

theorem writeString_eq_emit (s : CppString) : writeString s = emit (bytesString s) := by
  unfold writeString bytesString
  simp only [emit_append, writeInt32_eq_emit, forEach_writeInt8_map]

theorem writeDirectEdge_eq_emit (n : Int) : writeDirectEdge n = emit (bytes32 n) :=
  writeInt32_eq_emit n

theorem writePoolReference_eq_emit (type : Int) (id : Nat) :
    writePoolReference type id = emit (type :: bytes16 (toInt16 id)) := by
  unfold writePoolReference
  rw [writeInt16_eq_emit]
  rfl

theorem map_ubyte_bytes32 (n : Int) : (bytes32 n).map ubyte = be32 n := by
  simp [bytes32, be32, ubyte_toInt8]

theorem map_ubyte_bytes16 (n : Int) : (bytes16 n).map ubyte = be16 n := by
  simp only [bytes16, be16, List.map, ubyte_toInt8]
  unfold ubyte
  congr 2
  · omega
  · omega

theorem toInt32_of_lt {n : Nat} (h : n < 2 ^ 31) : toInt32 n = n := by
  unfold toInt32
  omega

theorem ubyte_fin (c : Fin 256) : ubyte (toInt8 (c.val : Int)) = c.val := by
  rw [ubyte_toInt8]
  unfold ubyte
  have := c.isLt
  omega

theorem map_ubyte_bytesString {s : CppString} (h : s.length < 2 ^ 31) :
    (bytesString s).map ubyte = lengthPrefixed s := by
  unfold bytesString lengthPrefixed
  rw [toInt32_of_lt h, List.map_append, map_ubyte_bytes32]
  congr 1
  simp only [Int.toNat_ofNat, List.take_length, List.map_map]
  apply List.map_congr_left
  intro c _
  exact ubyte_fin c

theorem writeInt32_total (n : Int) {w : Writer} (h : Roomy w 4) :
    ∃ w1, writeInt32 n w = Res.ok () w1 := by
  rw [writeInt32_eq_emit]
  obtain ⟨w1, h1, _⟩ := @emit_total (bytes32 n) w 0 (by simpa [bytes32] using h)
  exact ⟨w1, h1⟩

theorem writeInt16_total (n : Int) {w : Writer} (h : Roomy w 2) :
    ∃ w1, writeInt16 n w = Res.ok () w1 := by
  rw [writeInt16_eq_emit]
  obtain ⟨w1, h1, _⟩ := @emit_total (bytes16 n) w 0 (by simpa [bytes16] using h)
  exact ⟨w1, h1⟩

/-- C5: `writeInt32 n` appends exactly the four bytes of `n`, most significant
first (byte `k` is `floor (n / 2^(8*(3-k))) mod 256`), and `writeInt16 n`
appends exactly its two bytes, most significant first; negative `n` included,
the `int8_t` mask of `writeInt32` notwithstanding. Neither touches a pool. -/
theorem writeInt32_writeInt16_big_endian (n : Int) (w w32 w16 : Writer)
    (h32 : writeInt32 n w = Res.ok () w32) (h16 : writeInt16 n w = Res.ok () w16) :
    (stream w32 = stream w ++
        [(n / 2 ^ 24 % 256).toNat, (n / 2 ^ 16 % 256).toNat, (n / 2 ^ 8 % 256).toNat,
         (n % 256).toNat] ∧ w32.tables = w.tables) ∧
    (stream w16 = stream w ++ [(n / 2 ^ 8 % 256).toNat, (n % 256).toNat] ∧
      w16.tables = w.tables) := by
  rw [writeInt32_eq_emit] at h32
  rw [writeInt16_eq_emit] at h16
  obtain ⟨a1, a2⟩ := emit_ok h32
  obtain ⟨b1, b2⟩ := emit_ok h16
  rw [map_ubyte_bytes32] at a1
  rw [map_ubyte_bytes16] at b1
  exact ⟨⟨a1, a2⟩, ⟨b1, b2⟩⟩

theorem writeInt32_writeInt16_big_endian_witness :
    stream { Writer.new with buffer := [-2, -1, -1, -1] } = stream Writer.new ++
        [((-2 : Int) / 2 ^ 24 % 256).toNat, ((-2 : Int) / 2 ^ 16 % 256).toNat,
         ((-2 : Int) / 2 ^ 8 % 256).toNat, ((-2 : Int) % 256).toNat] ∧
    stream { Writer.new with buffer := [-2, -1] } = stream Writer.new ++
        [((-2 : Int) / 2 ^ 8 % 256).toNat, ((-2 : Int) % 256).toNat] :=
  have h := writeInt32_writeInt16_big_endian (-2) Writer.new
    { Writer.new with buffer := [-2, -1, -1, -1] } { Writer.new with buffer := [-2, -1] }
    (by decide!) (by decide!)
  ⟨h.1.1, h.2.1⟩

/-- C6: for a byte string `s` shorter than `2^31`, `writeString s` appends
exactly `4 + |s|` bytes: the 4-byte big-endian length, then the bytes of `s`
unchanged and in order, zero bytes kept and no terminator added. -/
theorem writeString_length_prefixed (s : CppString) (w w1 : Writer) (hlen : s.length < 2 ^ 31)
    (h : writeString s w = Res.ok () w1) :
    stream w1 = stream w ++
      ([((s.length : Int) / 2 ^ 24 % 256).toNat, ((s.length : Int) / 2 ^ 16 % 256).toNat,
        ((s.length : Int) / 2 ^ 8 % 256).toNat, ((s.length : Int) % 256).toNat] ++
        s.map Fin.val) ∧
    (emitted w w1).length = 4 + s.length ∧ w1.tables = w.tables := by
  rw [writeString_eq_emit] at h
  obtain ⟨a1, a2⟩ := emit_ok h
  rw [map_ubyte_bytesString hlen] at a1
  refine ⟨a1, ?_, a2⟩
  unfold emitted
  rw [a1]
  simp [lengthPrefixed, be32]
  omega

theorem writeString_length_prefixed_witness :
    stream { Writer.new with buffer := [105, 0, 104, 3, 0, 0, 0] } = stream Writer.new ++
      ([(((([104, 0, 105] : CppString).length : Nat) : Int) / 2 ^ 24 % 256).toNat,
        (((([104, 0, 105] : CppString).length : Nat) : Int) / 2 ^ 16 % 256).toNat,
        (((([104, 0, 105] : CppString).length : Nat) : Int) / 2 ^ 8 % 256).toNat,
        (((([104, 0, 105] : CppString).length : Nat) : Int) % 256).toNat] ++
        ([104, 0, 105] : CppString).map Fin.val) ∧
    (emitted Writer.new { Writer.new with buffer := [105, 0, 104, 3, 0, 0, 0] }).length =
      4 + ([104, 0, 105] : CppString).length ∧
    ({ Writer.new with buffer := [105, 0, 104, 3, 0, 0, 0] } : Writer).tables =
      Writer.new.tables :=
  writeString_length_prefixed [104, 0, 105] Writer.new
    { Writer.new with buffer := [105, 0, 104, 3, 0, 0, 0] } (by decide)
    (by decide!)

theorem emit_no_flush (bs : List Int) (w : Writer)
    (h : w.buffer.length + bs.length ≤ BUFFER_SIZE_BYTES) :
    emit bs w = Res.ok () { w with buffer := bs.reverse ++ w.buffer } := by
  induction bs generalizing w with
  | nil => simp [emit_nil]
  | cons b bs ih =>
    have hl : w.buffer.length < BUFFER_SIZE_BYTES := by
      simp only [List.length_cons] at h; omega
    have h1 : writeInt8 b w = Res.ok () { w with buffer := b :: w.buffer } := by
      rw [writeInt8_eq]; simp [hl]
    rw [emit_cons, bind_ok h1, ih]
    · simp
    · simp only [List.length_append, List.length_cons, List.length_nil] at h ⊢
      omega

theorem writeInt8_buffer_le (c : Int) (v v1 : Writer) (h : writeInt8 c v = Res.ok () v1) :
    v1.buffer.length ≤ BUFFER_SIZE_BYTES := by
  rw [writeInt8_eq] at h
  split at h
  · cases h
    simp only [List.length_append, List.length_cons, List.length_nil]
    omega
  · split at h
    · cases h
    · split at h
      · cases h
      · cases h
        simp [BUFFER_SIZE_BYTES]

/-- C7: starting from an empty buffer with an open destination that accepts
4096 bytes, the first 4096 `writeInt8` calls cause no flush (after each prefix
of them the destination is untouched and the bytes are buffered); the 4097th
call performs exactly one flush, of exactly those 4096 bytes, before its own
byte is appended, leaving a buffer of 1 byte. After any successful write the
buffer holds at most 4096 bytes. -/
theorem writeInt8_flushes_at_4096 (bs : List Int) (b : Int) (w : Writer) (f : File)
    (hlen : bs.length = 4096) (hbuf : w.buffer = []) (hfile : w.file = some f)
    (hroom : 4096 ≤ f.room) :
    (∀ k, k ≤ 4096 →
      emit (bs.take k) w = Res.ok () { w with buffer := (bs.take k).reverse }) ∧
    emit bs w = Res.ok () { w with buffer := bs.reverse } ∧
    flushCount { w with buffer := bs.reverse } = flushCount w ∧
    writeInt8 b { w with buffer := bs.reverse } =
      Res.ok () { w with
        file := some { f with chunks := f.chunks ++ [bs.map ubyte], room := f.room - 4096 },
        buffer := [b] } ∧
    flushCount { w with
        file := some { f with chunks := f.chunks ++ [bs.map ubyte], room := f.room - 4096 },
        buffer := [b] } = flushCount w + 1 ∧
    (∀ (c : Int) (v v1 : Writer), writeInt8 c v = Res.ok () v1 → v1.buffer.length ≤ 4096) := by
  have hpre : ∀ k, k ≤ 4096 →
      emit (bs.take k) w = Res.ok () { w with buffer := (bs.take k).reverse } := by
    intro k hk
    have := emit_no_flush (bs.take k) w (by
      rw [hbuf]; simp only [List.length_nil, List.length_take, BUFFER_SIZE_BYTES]; omega)
    rw [this, hbuf]; simp
  refine ⟨hpre, ?_, ?_, ?_, ?_, ?_⟩
  · have := hpre 4096 (le_refl _)
    rwa [← hlen, List.take_length] at this
  · simp [flushCount]
  · rw [writeInt8_eq]
    have h1 : ¬ (bs.length < BUFFER_SIZE_BYTES) := by simp [hlen, BUFFER_SIZE_BYTES]
    have h2 : ¬ (f.room < bs.length) := by omega
    have h3 : ¬ (f.room < 4096) := by omega
    simp [h3, hfile, hlen, BUFFER_SIZE_BYTES]
  · simp [flushCount, hfile]
  · intro c v v1 h
    exact writeInt8_buffer_le c v v1 h

theorem writeInt8_flushes_at_4096_witness :
    emit (List.replicate 4096 7)
        { Writer.new with file := some { name := [], chunks := [], room := 5000, isOpen := true } } =
      Res.ok () { Writer.new with
        file := some { name := [], chunks := [], room := 5000, isOpen := true },
        buffer := (List.replicate 4096 7).reverse } ∧
    writeInt8 9 { Writer.new with
        file := some { name := [], chunks := [], room := 5000, isOpen := true },
        buffer := (List.replicate 4096 7).reverse } =
      Res.ok () { Writer.new with
        file := some { name := [], chunks := [] ++ [(List.replicate 4096 (7 : Int)).map ubyte],
                       room := 5000 - 4096, isOpen := true },
        buffer := [9] } :=
  have h := writeInt8_flushes_at_4096 (List.replicate 4096 7) 9
    { Writer.new with file := some { name := [], chunks := [], room := 5000, isOpen := true } }
    { name := [], chunks := [], room := 5000, isOpen := true }
    (List.length_replicate 4096 7) rfl rfl (by decide)
  ⟨h.2.1, h.2.2.2.1⟩

/-- C8: teardown of an initialized session (destination open, with room for
what is buffered and one more byte) appends the close-group byte 0x02 as the
last byte of the stream and force-flushes: whatever the buffer held, it is
empty afterwards, the destination holds every byte of the session followed
by 0x02, and it is closed. Teardown of a session that was never initialized
returns at once and changes nothing. -/
theorem destructor_closes_group (w : Writer) (f : File) (hinit : w.initialized = true)
    (hfile : w.file = some f) (hroom : w.buffer.length + 1 ≤ f.room) :
    (∃ w1 f1, destructor w = Res.ok () w1 ∧ w1.buffer = [] ∧ w1.file = some f1 ∧
      f1.data = stream w ++ [2] ∧ f1.isOpen = false ∧ f1.name = f.name ∧
      w1.tables = w.tables) ∧
    (∀ v : Writer, v.initialized = false → destructor v = Res.ok () v) := by
  constructor
  · unfold destructor
    simp only [bind_apply, getWriter, hinit, if_true]
    rw [writeInt8_eq]
    by_cases hl : w.buffer.length < BUFFER_SIZE_BYTES
    · simp only [hl, if_true, flushBuffer, fwrite, hfile]
      have hm : min (CLOSE_GROUP :: w.buffer).reverse.length f.room =
          (CLOSE_GROUP :: w.buffer).length := by
        simp only [List.length_reverse, List.length_cons]; omega
      simp only [hm, lt_irrefl, if_false, Bool.not_true, Bool.and_false, Bool.false_eq_true,
        modifyWriter, fclose]
      refine ⟨_, _, rfl, rfl, rfl, ?_, rfl, rfl, rfl⟩
      have ht : List.take (CLOSE_GROUP :: w.buffer).length (CLOSE_GROUP :: w.buffer).reverse =
          (CLOSE_GROUP :: w.buffer).reverse := by
        rw [← List.length_reverse]; exact List.take_length _
      rw [ht]
      simp [File.data, stream, hfile, CLOSE_GROUP, ubyte]
    · have hr : ¬ f.room < w.buffer.length := by omega
      simp only [hl, if_false, hfile, hr, flushBuffer, fwrite]
      have hm : min ([CLOSE_GROUP] : List Int).reverse.length (f.room - w.buffer.length) =
          ([CLOSE_GROUP] : List Int).length := by
        simp only [List.length_reverse, List.length_cons, List.length_nil]; omega
      simp only [hm, lt_irrefl, if_false, Bool.not_true, Bool.and_false, Bool.false_eq_true,
        modifyWriter, fclose]
      refine ⟨_, _, rfl, rfl, rfl, ?_, rfl, rfl, rfl⟩
      simp [File.data, stream, hfile, CLOSE_GROUP, ubyte]
  · intro v hv
    unfold destructor
    simp [bind_apply, getWriter, hv, pure_apply]

theorem destructor_closes_group_witness :
    (∃ w1 f1, destructor sampleSession = Res.ok () w1 ∧ w1.buffer = [] ∧ w1.file = some f1 ∧
      f1.data = stream sampleSession ++ [2] ∧ f1.isOpen = false ∧ f1.name = sampleFile.name ∧
      w1.tables = sampleSession.tables) ∧
    destructor Writer.new = Res.ok () Writer.new :=
  have h := destructor_closes_group sampleSession sampleFile rfl rfl (by decide)
  ⟨h.1, h.2 Writer.new rfl⟩

theorem Pool.le_refl {T : Type} [DecidableEq T] (p : Pool T) : Pool.le p p := fun _ _ h => h

theorem Pool.le_trans {T : Type} [DecidableEq T] {p q r : Pool T} (h1 : Pool.le p q)
    (h2 : Pool.le q r) : Pool.le p r := fun k h hk => h2 k h (h1 k h hk)

theorem Pool.find_insert {T : Type} [DecidableEq T] (p : Pool T) (k : T) (id : Nat) (k1 : T) :
    (p.insert k id).1.find k1 =
      match p.find k1 with
      | some h => some h
      | none => if k1 = k then some id else none := by
  unfold Pool.insert Pool.contains
  cases hk : p.find k with
  | some h0 =>
    simp only [Option.isSome_some, if_true]
    cases hk1 : p.find k1 with
    | some h => rfl
    | none =>
      simp only
      split
      · rename_i e; rw [e] at hk1; rw [hk1] at hk; cases hk
      · rfl
  | none =>
    simp only [Option.isSome_none, Bool.false_eq_true, if_false]
    unfold Pool.find at hk ⊢
    simp only [List.find?_append]
    cases hk1 : List.find? (fun kv => decide (kv.1 = k1)) p.map with
    | some kv => simp
    | none =>
      simp only [Option.none_or, Option.map_none']
      by_cases e : k1 = k
      · simp [e]
      · have e' : ¬ k = k1 := fun h => e h.symm
        simp [e, e']

theorem Pool.le_insert {T : Type} [DecidableEq T] (p : Pool T) (k : T) (id : Nat) :
    Pool.le p (p.insert k id).1 := by
  intro k1 h hk
  rw [Pool.find_insert, hk]

theorem Pool.insert_snd {T : Type} [DecidableEq T] (p : Pool T) (k : T) (id : Nat) :
    (p.insert k id).2 = id := rfl

theorem grows_refl (w : Writer) : Grows w w :=
  ⟨⟨[], by simp⟩, Pool.le_refl _, Pool.le_refl _, Pool.le_refl _, Pool.le_refl _,
    Pool.le_refl _, rfl, rfl⟩

theorem grows_trans {w w1 w2 : Writer} (h1 : Grows w w1) (h2 : Grows w1 w2) : Grows w w2 := by
  obtain ⟨b1, e1⟩ := h1.stream
  obtain ⟨b2, e2⟩ := h2.stream
  exact ⟨⟨b1 ++ b2, by rw [e2, e1, List.append_assoc]⟩,
    Pool.le_trans h1.stringPool h2.stringPool, Pool.le_trans h1.nodeClassPool h2.nodeClassPool,
    Pool.le_trans h1.signaturePool h2.signaturePool, Pool.le_trans h1.typePool h2.typePool,
    Pool.le_trans h1.enumValuePool h2.enumValuePool,
    h2.methodPool.trans h1.methodPool, h2.initialized.trans h1.initialized⟩

theorem grows_of_tables {w w1 : Writer} (hs : ∃ bs, stream w1 = stream w ++ bs)
    (ht : w1.tables = w.tables) : Grows w w1 := by
  have h := ht
  simp only [Writer.tables, Tables.mk.injEq] at h
  obtain ⟨a, b, c, d, e, f, _, g⟩ := h
  refine ⟨hs, ?_, ?_, ?_, ?_, ?_, c, g⟩
  · rw [a]; exact Pool.le_refl _
  · rw [b]; exact Pool.le_refl _
  · rw [d]; exact Pool.le_refl _
  · rw [e]; exact Pool.le_refl _
  · rw [f]; exact Pool.le_refl _

theorem steps_pure {α : Type} (a : α) : Steps (pure a : M α) := by
  intro w b w1 h
  cases h
  exact grows_refl w

theorem steps_bind {α β : Type} {m : M α} {f : α → M β} (hm : Steps m)
    (hf : ∀ a, Steps (f a)) : Steps (m >>= f) := by
  intro w b w2 h
  obtain ⟨a, w1, h1, h2⟩ := bind_ok_inv h
  exact grows_trans (hm w a w1 h1) (hf a w1 b w2 h2)

theorem steps_forEach {α : Type} (xs : List α) {body : α → M Unit} (hb : ∀ x, Steps (body x)) :
    Steps (forEach xs body) := by
  induction xs with
  | nil => exact steps_pure ()
  | cons x xs ih => exact steps_bind (hb x) (fun _ => ih)

theorem steps_getWriter : Steps getWriter := by
  intro w a w1 h
  cases h
  exact grows_refl w

theorem steps_throwFault {α : Type} (e : Fault) : Steps (throwFault e : M α) := by
  intro w a w1 h
  cases h

theorem steps_poolLookup {T : Type} [DecidableEq T] (p : Pool T) (k : T) :
    Steps (poolLookup p k) := by
  unfold poolLookup
  split
  · exact steps_pure _
  · exact steps_throwFault _

theorem steps_writeInt8 (b : Int) : Steps (writeInt8 b) := by
  intro w a w1 h
  obtain ⟨h1, h2⟩ := writeInt8_ok h
  exact grows_of_tables ⟨_, h1⟩ h2

theorem steps_emit (bs : List Int) : Steps (emit bs) :=
  steps_forEach bs steps_writeInt8

theorem steps_writeInt16 (n : Int) : Steps (writeInt16 n) := by
  rw [writeInt16_eq_emit]; exact steps_emit _

theorem steps_writeInt32 (n : Int) : Steps (writeInt32 n) := by
  rw [writeInt32_eq_emit]; exact steps_emit _

theorem steps_writeString (s : CppString) : Steps (writeString s) := by
  rw [writeString_eq_emit]; exact steps_emit _

theorem steps_writeDirectEdge (n : Int) : Steps (writeDirectEdge n) := steps_writeInt32 n

theorem steps_writePoolReference (t : Int) (id : Nat) : Steps (writePoolReference t id) := by
  rw [writePoolReference_eq_emit]; exact steps_emit _

theorem steps_getNextPoolId : Steps getNextPoolId := by
  intro w a w1 h
  cases h
  exact ⟨⟨[], by simp [stream]⟩, Pool.le_refl _, Pool.le_refl _, Pool.le_refl _, Pool.le_refl _,
    Pool.le_refl _, rfl, rfl⟩

theorem steps_insertString (k : CppString) (id : Nat) : Steps (insertString k id) := by
  intro w a w1 h
  cases h
  exact ⟨⟨[], by simp [stream]⟩, Pool.le_insert _ _ _, Pool.le_refl _, Pool.le_refl _,
    Pool.le_refl _, Pool.le_refl _, rfl, rfl⟩

theorem steps_insertNodeClass (k : CppString × Int × Int) (id : Nat) :
    Steps (insertNodeClass k id) := by
  intro w a w1 h
  cases h
  exact ⟨⟨[], by simp [stream]⟩, Pool.le_refl _, Pool.le_insert _ _ _, Pool.le_refl _,
    Pool.le_refl _, Pool.le_refl _, rfl, rfl⟩

theorem steps_insertSignature (k : CppString) (id : Nat) : Steps (insertSignature k id) := by
  intro w a w1 h
  cases h
  exact ⟨⟨[], by simp [stream]⟩, Pool.le_refl _, Pool.le_refl _, Pool.le_insert _ _ _,
    Pool.le_refl _, Pool.le_refl _, rfl, rfl⟩

theorem steps_insertType (k : CppString) (id : Nat) : Steps (insertType k id) := by
  intro w a w1 h
  cases h
  exact ⟨⟨[], by simp [stream]⟩, Pool.le_refl _, Pool.le_refl _, Pool.le_refl _,
    Pool.le_insert _ _ _, Pool.le_refl _, rfl, rfl⟩

theorem steps_insertEnumValue (k : CppString × Int) (id : Nat) :
    Steps (insertEnumValue k id) := by
  intro w a w1 h
  cases h
  exact ⟨⟨[], by simp [stream]⟩, Pool.le_refl _, Pool.le_refl _, Pool.le_refl _,
    Pool.le_refl _, Pool.le_insert _ _ _, rfl, rfl⟩

theorem steps_ite {α : Type} {c : Prop} [Decidable c] {a b : M α} (ha : Steps a) (hb : Steps b) :
    Steps (if c then a else b) := by
  split
  · exact ha
  · exact hb

theorem steps_matchOption {α β : Type} (o : Option β) {a : M α} {b : β → M α}
    (ha : Steps a) (hb : ∀ x, Steps (b x)) :
    Steps (match o with | some x => b x | none => a) := by
  cases o with
  | none => exact ha
  | some x => exact hb x

theorem steps_writePoolString (s : CppString) : Steps (writePoolString s) := by
  unfold writePoolString
  repeat' with_reducible first
    | exact steps_pure _ | exact steps_getWriter | exact steps_throwFault _
    | exact steps_poolLookup _ _ | exact steps_writeInt8 _ | exact steps_writeInt16 _
    | exact steps_writeInt32 _ | exact steps_writeString _ | exact steps_writePoolReference _ _
    | exact steps_getNextPoolId | exact steps_insertString _ _
    | refine steps_bind ?_ (fun _ => ?_) | apply steps_ite

theorem steps_writePropString (s : CppString) : Steps (writePropString s) :=
  steps_bind (steps_writeInt8 _) (fun _ => steps_writePoolString s)

theorem steps_writeStringProperty (p : StringProperty) : Steps (writeStringProperty p) :=
  steps_bind (steps_writePoolString _) (fun _ => steps_writePropString _)

theorem steps_writeProperties (ps : List StringProperty) : Steps (writeProperties ps) :=
  steps_bind (steps_writeInt16 _) (fun _ => steps_forEach ps steps_writeStringProperty)

theorem steps_writePoolClass (name : CppString) : Steps (writePoolClass name) := by
  unfold writePoolClass
  repeat' with_reducible first
    | exact steps_pure _ | exact steps_getWriter | exact steps_throwFault _
    | exact steps_poolLookup _ _ | exact steps_writeInt8 _ | exact steps_writeInt16 _
    | exact steps_writeInt32 _ | exact steps_writeString _ | exact steps_writePoolReference _ _
    | exact steps_getNextPoolId | exact steps_insertType _ _
    | refine steps_bind ?_ (fun _ => ?_) | apply steps_ite

theorem steps_writePoolEnumClass (cls : PoolEnumClass) : Steps (writePoolEnumClass cls) := by
  unfold writePoolEnumClass
  repeat' with_reducible first
    | exact steps_pure _ | exact steps_getWriter | exact steps_throwFault _
    | exact steps_poolLookup _ _ | exact steps_writeInt8 _ | exact steps_writeInt16 _
    | exact steps_writeInt32 _ | exact steps_writeString _ | exact steps_writePoolReference _ _
    | exact steps_getNextPoolId | exact steps_insertType _ _
    | exact steps_forEach _ steps_writePoolString
    | refine steps_bind ?_ (fun _ => ?_) | apply steps_ite

theorem steps_writePoolEnumValue (index : Nat) (cls : PoolEnumClass) :
    Steps (writePoolEnumValue index cls) := by
  unfold writePoolEnumValue
  repeat' with_reducible first
    | exact steps_pure _ | exact steps_getWriter | exact steps_throwFault _
    | exact steps_poolLookup _ _ | exact steps_writeInt8 _ | exact steps_writeInt16 _
    | exact steps_writeInt32 _ | exact steps_writePoolReference _ _
    | exact steps_getNextPoolId | exact steps_insertEnumValue _ _
    | exact steps_writePoolEnumClass _
    | refine steps_bind ?_ (fun _ => ?_) | apply steps_ite

theorem steps_writeInputEdgeInfo (info : InputEdgeInfo) : Steps (writeInputEdgeInfo info) :=
  steps_bind (steps_writeInt8 _) (fun _ =>
    steps_bind (steps_writePoolString _) (fun _ => steps_writePoolEnumValue _ _))

theorem steps_writeOutputEdgeInfo (info : OutputEdgeInfo) : Steps (writeOutputEdgeInfo info) :=
  steps_bind (steps_writeInt8 _) (fun _ => steps_writePoolString _)

theorem steps_writePoolNodeClass (node : Node) (inputs : List InputEdgeInfo)
    (outputs : List OutputEdgeInfo) : Steps (writePoolNodeClass node inputs outputs) := by
  unfold writePoolNodeClass
  repeat' with_reducible first
    | exact steps_pure _ | exact steps_getWriter | exact steps_throwFault _
    | exact steps_poolLookup _ _ | exact steps_writeInt8 _ | exact steps_writeInt16 _
    | exact steps_writeInt32 _ | exact steps_writeString _ | exact steps_writePoolReference _ _
    | exact steps_getNextPoolId | exact steps_insertNodeClass _ _
    | exact steps_writePoolClass _
    | exact steps_forEach _ steps_writeInputEdgeInfo
    | exact steps_forEach _ steps_writeOutputEdgeInfo
    | refine steps_bind ?_ (fun _ => ?_) | apply steps_ite

theorem steps_writePoolSignature (symbol : ResolvedMethodSymbol) :
    Steps (writePoolSignature symbol) := by
  unfold writePoolSignature
  repeat' with_reducible first
    | exact steps_pure _ | exact steps_getWriter | exact steps_throwFault _
    | exact steps_poolLookup _ _ | exact steps_writeInt8 _ | exact steps_writeInt16 _
    | exact steps_writeInt32 _ | exact steps_writePoolReference _ _
    | exact steps_getNextPoolId | exact steps_insertSignature _ _
    | exact steps_writePoolString _
    | exact steps_forEach _ steps_writePoolString
    | refine steps_bind ?_ (fun _ => ?_) | apply steps_ite

theorem steps_writePoolMethod (symbol : ResolvedMethodSymbol) :
    Steps (writePoolMethod symbol) := by
  unfold writePoolMethod
  repeat' with_reducible first
    | exact steps_pure _ | exact steps_getWriter | exact steps_throwFault _
    | exact steps_poolLookup _ _ | exact steps_writeInt8 _ | exact steps_writeInt16 _
    | exact steps_writeInt32 _ | exact steps_writePoolReference _ _
    | exact steps_writePoolString _ | exact steps_writePoolClass _
    | exact steps_writePoolSignature _
    | exact steps_forEach _ (fun c => steps_writeInt8 _)
    | refine steps_bind ?_ (fun _ => ?_) | apply steps_ite

theorem steps_writeTreeTop (tt : TreeTop) : Steps (writeTreeTop tt) := by
  unfold writeTreeTop
  repeat' with_reducible first
    | exact steps_pure _ | exact steps_throwFault _
    | exact steps_writeInt8 _ | exact steps_writeInt32 _ | exact steps_writeDirectEdge _
    | exact steps_writePoolNodeClass _ _ _ | exact steps_writeProperties _
    | exact steps_forEach _ (fun c => steps_writeDirectEdge _)
    | refine steps_bind ?_ (fun _ => ?_) | apply steps_ite | split

theorem steps_writeNode (node : Node) : Steps (writeNode node) := by
  unfold writeNode
  repeat' with_reducible first
    | exact steps_pure _ | exact steps_throwFault _
    | exact steps_writeInt8 _ | exact steps_writeInt32 _ | exact steps_writeDirectEdge _
    | exact steps_writePoolNodeClass _ _ _ | exact steps_writeProperties _
    | exact steps_forEach _ (fun c => steps_writeDirectEdge _)
    | refine steps_bind ?_ (fun _ => ?_) | apply steps_ite

theorem steps_writeGraphBody (name : CppString) (methodSymbol : ResolvedMethodSymbol) :
    Steps (writeGraphBody name methodSymbol) := by
  unfold writeGraphBody
  repeat' with_reducible first
    | exact steps_pure _
    | exact steps_writeInt32 _ | exact steps_writeProperties _
    | exact steps_forEach _ steps_writeTreeTop
    | exact steps_forEach _ steps_writeNode
    | refine steps_bind ?_ (fun _ => ?_) | apply steps_ite

theorem be16_toInt16 (x : Int) : be16 (toInt16 x) = be16 x := by
  unfold be16 toInt16 ubyte
  congr 2
  · omega
  · omega

theorem emitted_of_append {w w1 : Writer} {bs : List Nat} (h : stream w1 = stream w ++ bs) :
    emitted w w1 = bs := by
  unfold emitted
  rw [h]
  simp

theorem writeInt16_ok {n : Int} {w w1 : Writer} (h : writeInt16 n w = Res.ok () w1) :
    stream w1 = stream w ++ be16 n ∧ w1.tables = w.tables := by
  rw [writeInt16_eq_emit] at h
  have := emit_ok h
  rwa [map_ubyte_bytes16] at this

theorem writeInt32_ok {n : Int} {w w1 : Writer} (h : writeInt32 n w = Res.ok () w1) :
    stream w1 = stream w ++ be32 n ∧ w1.tables = w.tables := by
  rw [writeInt32_eq_emit] at h
  have := emit_ok h
  rwa [map_ubyte_bytes32] at this

theorem writeString_ok {s : CppString} {w w1 : Writer} (h : writeString s w = Res.ok () w1) :
    stream w1 = stream w ++ stringPayload s ∧ w1.tables = w.tables := by
  rw [writeString_eq_emit] at h
  exact emit_ok h

theorem ubyte_small {x : Int} (h0 : 0 ≤ x) (h1 : x < 256) : ubyte x = x.toNat := by
  unfold ubyte
  congr 1
  omega

theorem writePoolReference_ok {t : Int} {id : Nat} {w w1 : Writer}
    (h : writePoolReference t id w = Res.ok () w1) :
    stream w1 = stream w ++ ubyte t :: be16 id ∧ w1.tables = w.tables := by
  rw [writePoolReference_eq_emit] at h
  have := emit_ok h
  rwa [List.map_cons, map_ubyte_bytes16, be16_toInt16] at this

theorem getNextPoolId_ok {a : Nat} {w w1 : Writer} (h : getNextPoolId w = Res.ok a w1) :
    a = w.poolId ∧ stream w1 = stream w ∧ w1.tables = w.tables.bump := by
  cases h
  exact ⟨rfl, rfl, rfl⟩

theorem insertString_ok {k : CppString} {id a : Nat} {w w1 : Writer}
    (h : insertString k id w = Res.ok a w1) :
    a = id ∧ stream w1 = stream w ∧ w1.tables = w.tables.addString k id := by
  cases h
  exact ⟨rfl, rfl, rfl⟩

theorem getWriter_ok {a w w1 : Writer} (h : getWriter w = Res.ok a w1) : a = w ∧ w1 = w := by
  cases h
  exact ⟨rfl, rfl⟩

theorem poolLookup_ok {T : Type} [DecidableEq T] {p : Pool T} {k : T} {a : Nat} {w w1 : Writer}
    (h : poolLookup p k w = Res.ok a w1) : p.find k = some a ∧ w1 = w := by
  unfold poolLookup Pool.lookup at h
  cases hk : p.find k with
  | none => rw [hk] at h; cases h
  | some id =>
    rw [hk] at h
    cases h
    exact ⟨rfl, rfl⟩

/-- What a successful `writePoolString` does: it appends the String entry of
the key and leaves the tables as that entry prescribes. -/
theorem writePoolString_ok {s : CppString} {w w1 : Writer}
    (h : writePoolString s w = Res.ok () w1) :
    stream w1 = stream w ++ (stringEntry w.tables s).1 ∧ w1.tables = (stringEntry w.tables s).2 := by
  unfold writePoolString at h
  obtain ⟨a, w0, h0, k0⟩ := bind_ok_inv h
  obtain ⟨rfl, rfl⟩ := getWriter_ok h0
  cases hf : w0.stringPool.find s with
  | some id =>
    have hc : w0.stringPool.contains s = true := by simp [Pool.contains, hf]
    simp only [hc, if_true] at k0
    obtain ⟨a, w1', h1, k1⟩ := bind_ok_inv k0
    obtain ⟨rfl, rfl⟩ := getWriter_ok h1
    obtain ⟨id', w2, h2, k2⟩ := bind_ok_inv k1
    obtain ⟨e, rfl⟩ := poolLookup_ok h2
    rw [hf] at e
    cases e
    obtain ⟨e1, e2⟩ := writePoolReference_ok k2
    have ht : stringEntry w2.tables s = (poolReference 1 id, w2.tables) := by
      simp [stringEntry, Writer.tables, hf]
    rw [ht]
    exact ⟨e1, e2⟩
  | none =>
    have hc : w0.stringPool.contains s = false := by simp [Pool.contains, hf]
    simp only [hc, Bool.false_eq_true, if_false] at k0
    obtain ⟨_, w2, h1, k1⟩ := bind_ok_inv k0
    obtain ⟨nx, w3, h2, k2⟩ := bind_ok_inv k1
    obtain ⟨id, w4, h3, k3⟩ := bind_ok_inv k2
    obtain ⟨_, w5, h4, k4⟩ := bind_ok_inv k3
    obtain ⟨_, w6, h5, k5⟩ := bind_ok_inv k4
    obtain ⟨a1, a2⟩ := writeInt8_ok h1
    obtain ⟨rfl, b1, b2⟩ := getNextPoolId_ok h2
    obtain ⟨rfl, c1, c2⟩ := insertString_ok h3
    obtain ⟨d1, d2⟩ := writeInt16_ok h4
    obtain ⟨f1, f2⟩ := writeInt8_ok h5
    obtain ⟨g1, g2⟩ := writeString_ok k5
    have hp : w2.poolId = w0.poolId := congrArg Tables.poolId a2
    have ht : stringEntry w0.tables s = (stringDefine w0.poolId s,
        w0.tables.bump.addString s w0.poolId) := by
      simp [stringEntry, Writer.tables, hf]
    rw [ht]
    constructor
    · rw [g1, f1, d1, c1, b1, a1, be16_toInt16, hp]
      simp [stringDefine, POOL_NEW, POOL_STRING, ubyte]
    · rw [g2, f2, d2, c2, b2, a2, hp]

theorem callTrace_writePoolString {keys : List CppString} {w w1 : Writer}
    {ds : List (List Nat)} (h : callTrace writePoolString keys w = some (ds, w1)) :
    ds = stringTrace w.tables keys := by
  induction keys generalizing w w1 ds with
  | nil =>
    simp only [callTrace, Option.some.injEq, Prod.mk.injEq] at h
    rw [← h.1]; rfl
  | cons k ks ih =>
    simp only [callTrace] at h
    cases h1 : writePoolString k w with
    | throw e w2 => rw [h1] at h; cases h
    | ok u w2 =>
      rw [h1] at h
      simp only at h
      cases h2 : callTrace writePoolString ks w2 with
      | none => rw [h2] at h; cases h
      | some r =>
        obtain ⟨ds2, w3⟩ := r
        rw [h2] at h
        simp only [Option.some.injEq, Prod.mk.injEq] at h
        obtain ⟨e1, e2⟩ := writePoolString_ok h1
        have r := ih h2
        rw [← h.1, r, e2, emitted_of_append e1]
        rfl

theorem stringEntry_find (t : Tables) (k k1 : CppString) :
    (stringEntry t k).2.stringPool.find k1 =
      match t.stringPool.find k1 with
      | some h => some h
      | none => if k1 = k then some t.poolId else none := by
  unfold stringEntry
  cases hk : t.stringPool.find k with
  | some h =>
    simp only
    cases hk1 : t.stringPool.find k1 with
    | some h1 => rfl
    | none =>
      simp only
      split
      · rename_i e; rw [e] at hk1; rw [hk1] at hk; cases hk
      · rfl
  | none =>
    simp only [Tables.addString, Tables.bump]
    rw [Pool.find_insert]

theorem stringDefine_ne_reference (h h1 : Int) (k : CppString) :
    stringDefine h k ≠ poolReference 1 h1 := by
  intro e
  simp [stringDefine, poolReference] at e

theorem be16_of_stringDefine_eq {h h1 : Int} {k : CppString}
    (e : stringDefine h k = stringDefine h1 k) : be16 h = be16 h1 := by
  simp only [stringDefine, List.cons.injEq, true_and] at e
  have := List.append_inj_left e (by simp [be16])
  exact this

theorem stringTrace_length (t : Tables) (keys : List CppString) :
    (stringTrace t keys).length = keys.length := by
  induction keys generalizing t with
  | nil => rfl
  | cons k ks ih => simp [stringTrace, ih]

/-- The entry of each write of a sequence, by the state of the pool. -/
theorem stringTrace_entries (t : Tables) (keys : List CppString) (i : Nat) (k : CppString)
    (hk : keys[i]? = some k) :
    (t.stringPool.find k = none → k ∉ keys.take i →
        ∃ h : Nat, (stringTrace t keys)[i]? = some (stringDefine h k)) ∧
    (∀ h, t.stringPool.find k = some h →
        (stringTrace t keys)[i]? = some (poolReference 1 h)) ∧
    (∀ j (h : Int), j < i → keys[j]? = some k →
        (stringTrace t keys)[j]? = some (stringDefine h k) →
        (stringTrace t keys)[i]? = some (poolReference 1 h)) := by
  induction keys generalizing t i with
  | nil => simp at hk
  | cons k0 ks ih =>
    cases i with
    | zero =>
      simp only [List.getElem?_cons_zero, Option.some.injEq] at hk
      subst hk
      refine ⟨?_, ?_, ?_⟩
      · intro hf _
        exact ⟨t.poolId, by simp [stringTrace, stringEntry, hf]⟩
      · intro h hf
        simp [stringTrace, stringEntry, hf]
      · intro j h hj
        omega
    | succ i =>
      simp only [List.getElem?_cons_succ] at hk
      obtain ⟨p1, p2, p3⟩ := ih (stringEntry t k0).2 i hk
      refine ⟨?_, ?_, ?_⟩
      · intro hf hn
        simp only [List.take_succ_cons, List.mem_cons, not_or] at hn
        have : (stringEntry t k0).2.stringPool.find k = none := by
          rw [stringEntry_find, hf]; simp [hn.1]
        simpa [stringTrace] using p1 this hn.2
      · intro h hf
        have : (stringEntry t k0).2.stringPool.find k = some h := by
          rw [stringEntry_find, hf]
        simpa [stringTrace] using p2 h this
      · intro j h hj hkj hd
        cases j with
        | zero =>
          simp only [List.getElem?_cons_zero, Option.some.injEq] at hkj
          subst hkj
          simp only [stringTrace, List.getElem?_cons_zero, Option.some.injEq] at hd
          cases hf : t.stringPool.find k0 with
          | some h0 =>
            simp only [stringEntry, hf] at hd
            exact absurd hd.symm (stringDefine_ne_reference _ _ _)
          | none =>
            simp only [stringEntry, hf] at hd
            have hb := be16_of_stringDefine_eq hd
            have : (stringEntry t k0).2.stringPool.find k0 = some t.poolId := by
              rw [stringEntry_find, hf]; simp
            have r := p2 t.poolId this
            simp only [stringTrace, List.getElem?_cons_succ]
            rw [r]
            simp only [poolReference, hb]
        | succ j =>
          simp only [List.getElem?_cons_succ] at hkj
          simp only [stringTrace, List.getElem?_cons_succ] at hd ⊢
          exact p3 j h (by omega) hkj hd

theorem isDefine_stringDefine (h : Int) (k : CppString) : isDefine (stringDefine h k) = true := by
  simp [isDefine, stringDefine]

theorem isDefine_poolReference (h : Int) : isDefine (poolReference 1 h) = false := by
  simp [isDefine, poolReference]

/-- The define records of a sequence of String writes are as many as the
distinct keys that were not in the pool before. -/
theorem stringTrace_defines (t : Tables) (keys : List CppString) :
    ((stringTrace t keys).filter isDefine).length =
      ((keys.filter (fun k => (t.stringPool.find k).isNone)).toFinset).card := by
  induction keys generalizing t with
  | nil => rfl
  | cons k ks ih =>
    cases hf : t.stringPool.find k with
    | some h =>
      have e : stringEntry t k = (poolReference 1 h, t) := by simp [stringEntry, hf]
      simp only [stringTrace, e, List.filter_cons, isDefine_poolReference, hf, Option.isNone_some,
        Bool.false_eq_true, if_false]
      exact ih t
    | none =>
      have e : (stringEntry t k).1 = stringDefine t.poolId k := by simp [stringEntry, hf]
      simp only [stringTrace, e, List.filter_cons, isDefine_stringDefine, hf, Option.isNone_none,
        if_true, List.length_cons, List.toFinset_cons]
      rw [ih]
      have hs : (ks.filter (fun x => ((stringEntry t k).2.stringPool.find x).isNone)).toFinset =
          ((ks.filter (fun x => (t.stringPool.find x).isNone)).toFinset).erase k := by
        ext x
        simp only [List.mem_toFinset, List.mem_filter, Finset.mem_erase, stringEntry_find]
        cases hx : t.stringPool.find x with
        | some h => simp
        | none =>
          by_cases e1 : x = k
          · simp [e1]
          · simp [e1]
      rw [hs]
      rw [← Finset.card_insert_of_not_mem (Finset.not_mem_erase k _)]
      congr 1
      ext x
      simp only [Finset.mem_insert, Finset.mem_erase]
      tauto

theorem filter_isNone_of_fresh {t : Tables} {keys : List CppString}
    (h : ∀ k ∈ keys, t.stringPool.find k = none) :
    keys.filter (fun k => (t.stringPool.find k).isNone) = keys := by
  apply List.filter_eq_self.mpr
  intro k hk
  simp [h k hk]

/-- C1: for every sequence of `writePoolString` calls on one session, on keys
that are not in the pool beforehand (keys may repeat) and with no failing
flush: the define records `[0x00][16-bit handle][0x01][payload]` are as many
as the distinct keys; the first call on a key emits its define record; every
later call on that key emits exactly the 3-byte reference `[0x01][16-bit
handle]` with the handle written in the key's define record, wherever it
occurs; and the payload of a key shorter than `2^31` is its length-prefixed
bytes. -/
theorem writePoolString_define_once (keys : List CppString) (w w1 : Writer)
    (ds : List (List Nat)) (hfresh : ∀ k ∈ keys, w.stringPool.find k = none)
    (hrun : callTrace writePoolString keys w = some (ds, w1)) :
    ds.length = keys.length ∧
    (ds.filter isDefine).length = keys.toFinset.card ∧
    (∀ (i : Nat) (k : CppString), keys[i]? = some k → k ∉ keys.take i →
        ∃ h : Nat, ds[i]? = some (0 :: (be16 h ++ 1 :: stringPayload k))) ∧
    (∀ (i j : Nat) (k : CppString) (h : Int), j < i → keys[i]? = some k → keys[j]? = some k →
        ds[j]? = some (0 :: (be16 h ++ 1 :: stringPayload k)) →
        ds[i]? = some (1 :: be16 h) ∧ (1 :: be16 h).length = 3) ∧
    (∀ k : CppString, k.length < 2 ^ 31 → stringPayload k = lengthPrefixed k) := by
  have hd := callTrace_writePoolString hrun
  subst hd
  refine ⟨stringTrace_length _ _, ?_, ?_, ?_, ?_⟩
  · rw [stringTrace_defines]
    have : keys.filter (fun k => (w.tables.stringPool.find k).isNone) = keys :=
      filter_isNone_of_fresh hfresh
    rw [this]
  · intro i k hk hn
    have hf : w.tables.stringPool.find k = none := hfresh k (List.getElem?_mem hk)
    exact (stringTrace_entries w.tables keys i k hk).1 hf hn
  · intro i j k h hj hki hkj hdj
    exact ⟨(stringTrace_entries w.tables keys i k hki).2.2 j h hj hkj hdj, rfl⟩
  · intro k hk
    exact map_ubyte_bytesString hk

theorem writePoolString_define_once_witness :
    (sampleKeysTrace.filter isDefine).length = sampleKeys.toFinset.card ∧
    sampleKeysTrace[2]? = some (1 :: be16 0) :=
  have h := writePoolString_define_once sampleKeys Writer.new sampleKeysWriter sampleKeysTrace
    (by decide) (by decide!)
  ⟨h.2.1, (h.2.2.2.1 2 0 [97] 0 (by decide) (by decide) (by decide) (by decide)).1⟩

/-- Every successful `writePoolMethod` leaves the method pool as it was. -/
theorem writePoolMethod_methodPool (symbol : ResolvedMethodSymbol) (w w1 : Writer)
    (h : writePoolMethod symbol w = Res.ok () w1) : w1.methodPool = w.methodPool :=
  (steps_writePoolMethod symbol w () w1 h).methodPool

/-- C2 (the code at the failing input): two writes of the same method on a
session whose handle counter stands at 5. Both writes emit a define record
`[0x00][handle][0x04]...`, both with handle 0 and not 5, the method pool is
empty afterwards, and only the nested entries drew handles (5 to 8). -/
theorem writePoolMethod_defines_twice_with_handle_zero :
    (callTrace writePoolMethod [sampleMethod, sampleMethod] { Writer.new with poolId := 5 }).map
      (fun r => (r.1.map (List.take 4), r.2.methodPool.map, r.2.poolId)) =
    some ([[0, 0, 0, 4], [0, 0, 0, 4]], [], 9) := by
  decide!

/-- C3 (the code at the failing input): initialization of a fresh session.
After the header and the begin-group byte the stream holds the define record
of a String with handle 0, the define record of a String with handle 1, and
then the define record of the Method with handle 0 again. -/
theorem initialize_define_handles_not_increasing :
    isOk (initializeWriter sampleComp sampleMethod Writer.new) = true ∧
    finalStream (initializeWriter sampleComp sampleMethod Writer.new) =
      [66, 73, 71, 86, 7, 0, 0] ++ stringDefine 0 (str "0:A.f()V") ++
        stringDefine 1 (str "Placeholder short name") ++ (0 :: (be16 0 ++ [4])) ++
        (finalStream (initializeWriter sampleComp sampleMethod Writer.new)).drop 57 := by
  decide!

theorem insertNodeClass_ok {k : CppString × Int × Int} {id a : Nat} {w w1 : Writer}
    (h : insertNodeClass k id w = Res.ok a w1) :
    a = id ∧ stream w1 = stream w ∧ w1.tables = w.tables.addNodeClass k id := by
  cases h
  exact ⟨rfl, rfl, rfl⟩

/-- A `writePoolNodeClass` whose key is in the pool emits the 3-byte reference
`[0x06][handle]` and nothing else, and changes no table. -/
theorem writePoolNodeClass_reference {node : Node} {inputs : List InputEdgeInfo}
    {outputs : List OutputEdgeInfo} {w w1 : Writer} {h : Nat}
    (hf : w.nodeClassPool.find
      (node.getOpCode.name, toInt32 inputs.length, toInt32 outputs.length) = some h)
    (hr : writePoolNodeClass node inputs outputs w = Res.ok () w1) :
    stream w1 = stream w ++ poolReference 6 h ∧ w1.tables = w.tables := by
  unfold writePoolNodeClass at hr
  obtain ⟨a, w0, h0, k0⟩ := bind_ok_inv hr
  obtain ⟨rfl, rfl⟩ := getWriter_ok h0
  have hc : w0.nodeClassPool.contains
      (node.getOpCode.name, toInt32 inputs.length, toInt32 outputs.length) = true := by
    simp [Pool.contains, hf]
  simp only [hc, if_true] at k0
  obtain ⟨a, w1', h1, k1⟩ := bind_ok_inv k0
  obtain ⟨rfl, rfl⟩ := getWriter_ok h1
  obtain ⟨id', w2, h2, k2⟩ := bind_ok_inv k1
  obtain ⟨e, rfl⟩ := poolLookup_ok h2
  rw [hf] at e
  cases e
  exact writePoolReference_ok k2

/-- A `writePoolNodeClass` whose key is not in the pool draws the next handle,
starts its output with `[0x00][handle][0x06]` and leaves the key in the pool
with that handle. -/
theorem writePoolNodeClass_define {node : Node} {inputs : List InputEdgeInfo}
    {outputs : List OutputEdgeInfo} {w w1 : Writer}
    (hf : w.nodeClassPool.find
      (node.getOpCode.name, toInt32 inputs.length, toInt32 outputs.length) = none)
    (hr : writePoolNodeClass node inputs outputs w = Res.ok () w1) :
    (∃ rest, stream w1 = stream w ++ 0 :: (be16 w.poolId ++ 6 :: rest)) ∧
    w1.nodeClassPool.find
      (node.getOpCode.name, toInt32 inputs.length, toInt32 outputs.length) = some w.poolId := by
  unfold writePoolNodeClass at hr
  obtain ⟨a, w0, h0, k0⟩ := bind_ok_inv hr
  obtain ⟨rfl, rfl⟩ := getWriter_ok h0
  have hc : w0.nodeClassPool.contains
      (node.getOpCode.name, toInt32 inputs.length, toInt32 outputs.length) = false := by
    simp [Pool.contains, hf]
  simp only [hc, Bool.false_eq_true, if_false] at k0
  obtain ⟨_, w2, h1, k1⟩ := bind_ok_inv k0
  obtain ⟨nx, w3, h2, k2⟩ := bind_ok_inv k1
  obtain ⟨id, w4, h3, k3⟩ := bind_ok_inv k2
  obtain ⟨_, w5, h4, k4⟩ := bind_ok_inv k3
  obtain ⟨_, w6, h5, k5⟩ := bind_ok_inv k4
  obtain ⟨a1, a2⟩ := writeInt8_ok h1
  obtain ⟨rfl, b1, b2⟩ := getNextPoolId_ok h2
  obtain ⟨rfl, c1, c2⟩ := insertNodeClass_ok h3
  obtain ⟨d1, d2⟩ := writeInt16_ok h4
  obtain ⟨f1, f2⟩ := writeInt8_ok h5
  have hp : w2.poolId = w0.poolId := congrArg Tables.poolId a2
  have hn2 : w2.nodeClassPool = w0.nodeClassPool := congrArg Tables.nodeClassPool a2
  have hg : Grows w6 w1 := by
    refine (show Steps _ from ?_) _ _ _ k5
    repeat' with_reducible first
      | exact steps_pure _ | exact steps_writeInt16 _ | exact steps_writeString _
      | exact steps_writePoolClass _
      | exact steps_forEach _ steps_writeInputEdgeInfo
      | exact steps_forEach _ steps_writeOutputEdgeInfo
      | refine steps_bind ?_ (fun _ => ?_)
  constructor
  · obtain ⟨rest, hrest⟩ := hg.stream
    refine ⟨rest, ?_⟩
    rw [hrest, f1, d1, c1, b1, a1, be16_toInt16, hp]
    simp [POOL_NEW, POOL_NODE_CLASS, ubyte]
  · apply hg.nodeClassPool
    have e6 : w6.nodeClassPool = (w0.nodeClassPool.insert
        (node.getOpCode.name, toInt32 inputs.length, toInt32 outputs.length) w0.poolId).1 := by
      have t6 : w6.tables = (w0.tables.bump).addNodeClass
          (node.getOpCode.name, toInt32 inputs.length, toInt32 outputs.length) w0.poolId := by
        rw [f2, d2, c2, b2, a2, hp]
      exact congrArg Tables.nodeClassPool t6
    rw [e6, Pool.find_insert, hf]
    simp

theorem callTrace_length {κ : Type} (op : κ → M Unit) {ks : List κ} {w w1 : Writer}
    {ds : List (List Nat)} (h : callTrace op ks w = some (ds, w1)) : ds.length = ks.length := by
  induction ks generalizing w w1 ds with
  | nil =>
    simp only [callTrace, Option.some.injEq, Prod.mk.injEq] at h
    rw [← h.1]; rfl
  | cons k ks ih =>
    simp only [callTrace] at h
    cases h1 : op k w with
    | throw e w2 => rw [h1] at h; cases h
    | ok u w2 =>
      rw [h1] at h
      simp only at h
      cases h2 : callTrace op ks w2 with
      | none => rw [h2] at h; cases h
      | some r =>
        obtain ⟨ds2, w3⟩ := r
        rw [h2] at h
        simp only [Option.some.injEq, Prod.mk.injEq] at h
        rw [← h.1, List.length_cons, ih h2, List.length_cons]

theorem callTrace_cons_inv {κ : Type} {op : κ → M Unit} {k : κ} {ks : List κ} {w w1 : Writer}
    {ds : List (List Nat)} (h : callTrace op (k :: ks) w = some (ds, w1)) :
    ∃ w2 ds2, op k w = Res.ok () w2 ∧ callTrace op ks w2 = some (ds2, w1) ∧
      ds = emitted w w2 :: ds2 := by
  simp only [callTrace] at h
  cases h1 : op k w with
  | throw e w2 => rw [h1] at h; cases h
  | ok u w2 =>
    rw [h1] at h
    simp only at h
    cases h2 : callTrace op ks w2 with
    | none => rw [h2] at h; cases h
    | some r =>
      obtain ⟨ds2, w3⟩ := r
      rw [h2] at h
      simp only [Option.some.injEq, Prod.mk.injEq] at h
      exact ⟨w2, ds2, rfl, by rw [h2, h.2], h.1.symm⟩

theorem nodeClassCalls_reference (calls : List (Node × List InputEdgeInfo × List OutputEdgeInfo))
    (name : CppString) (a b : Nat) (w w1 : Writer) (ds : List (List Nat)) (h : Nat)
    (hsame : ∀ c ∈ calls, c.1.getOpCode.name = name ∧ c.2.1.length = a ∧ c.2.2.length = b)
    (hf : w.nodeClassPool.find (name, toInt32 a, toInt32 b) = some h)
    (hrun : callTrace nodeClassCall calls w = some (ds, w1)) :
    ∀ i, i < calls.length → ds[i]? = some (poolReference 6 h) := by
  induction calls generalizing w ds with
  | nil => intro i hi; simp at hi
  | cons c cs ih =>
    obtain ⟨w2, ds2, h1, h2, rfl⟩ := callTrace_cons_inv hrun
    obtain ⟨e1, e2, e3⟩ := hsame c (List.mem_cons_self _ _)
    have hf' : w.nodeClassPool.find
        (c.1.getOpCode.name, toInt32 c.2.1.length, toInt32 c.2.2.length) = some h := by
      rw [e1, e2, e3]; exact hf
    obtain ⟨s1, s2⟩ := writePoolNodeClass_reference hf' h1
    have hf2 : w2.nodeClassPool.find (name, toInt32 a, toInt32 b) = some h := by
      have : w2.nodeClassPool = w.nodeClassPool := congrArg Tables.nodeClassPool s2
      rw [this]; exact hf
    intro i hi
    cases i with
    | zero => simp [emitted_of_append s1]
    | succ i =>
      simp only [List.getElem?_cons_succ]
      exact ih w2 ds2 (fun c hc => hsame c (List.mem_cons_of_mem _ hc)) hf2 h2 i
        (by simpa using hi)

/-- C4: for every sequence of `N ≥ 1` calls of `writePoolNodeClass` whose nodes
have the same opcode name and the same numbers of input and output edges
(whatever else differs, the opcode value included), on a session whose pool
does not hold that key and with no failing flush: the first call emits the
NodeClass define record `[0x00][handle][0x06]...`, and each of the other
`N - 1` calls emits only the reference `[0x06][handle]` with that handle. -/
theorem writePoolNodeClass_define_once
    (calls : List (Node × List InputEdgeInfo × List OutputEdgeInfo))
    (name : CppString) (a b : Nat) (w w1 : Writer) (ds : List (List Nat))
    (hne : calls ≠ [])
    (hsame : ∀ c ∈ calls, c.1.getOpCode.name = name ∧ c.2.1.length = a ∧ c.2.2.length = b)
    (hfresh : w.nodeClassPool.find (name, toInt32 a, toInt32 b) = none)
    (hrun : callTrace nodeClassCall calls w = some (ds, w1)) :
    ds.length = calls.length ∧
    ∃ (h : Nat) (rest : List Nat), ds[0]? = some (0 :: (be16 h ++ 6 :: rest)) ∧
      ∀ i, 0 < i → i < calls.length → ds[i]? = some (6 :: be16 h) := by
  refine ⟨callTrace_length _ hrun, ?_⟩
  cases calls with
  | nil => exact absurd rfl hne
  | cons c cs =>
    obtain ⟨w2, ds2, h1, h2, rfl⟩ := callTrace_cons_inv hrun
    obtain ⟨e1, e2, e3⟩ := hsame c (List.mem_cons_self _ _)
    have hf' : w.nodeClassPool.find
        (c.1.getOpCode.name, toInt32 c.2.1.length, toInt32 c.2.2.length) = none := by
      rw [e1, e2, e3]; exact hfresh
    obtain ⟨⟨rest, s1⟩, s2⟩ := writePoolNodeClass_define hf' h1
    rw [e1, e2, e3] at s2
    refine ⟨w.poolId, rest, by simp [emitted_of_append s1], ?_⟩
    intro i hi0 hi
    cases i with
    | zero => omega
    | succ i =>
      simp only [List.getElem?_cons_succ]
      exact nodeClassCalls_reference cs name a b w2 w1 ds2 w.poolId
        (fun c hc => hsame c (List.mem_cons_of_mem _ hc)) s2 h2 i (by simpa using hi)

theorem writePoolNodeClass_define_once_witness :
    sampleCallsTrace.length = sampleCalls.length ∧
    ∃ (h : Nat) (rest : List Nat), sampleCallsTrace[0]? = some (0 :: (be16 h ++ 6 :: rest)) ∧
      ∀ i, 0 < i → i < sampleCalls.length → sampleCallsTrace[i]? = some (6 :: be16 h) :=
  writePoolNodeClass_define_once sampleCalls (str "x") 0 0 Writer.new sampleCallsWriter
    sampleCallsTrace (by simp [sampleCalls])
    (by
      intro c hc
      simp only [sampleCalls, List.mem_cons, List.mem_singleton, List.not_mem_nil, or_false] at hc
      rcases hc with rfl | rfl <;> exact ⟨rfl, rfl, rfl⟩)
    (by decide) (by decide!)

theorem be32_toInt32 (x : Int) : be32 (toInt32 x) = be32 x := by
  have h1 : (toInt32 x / 2 ^ 24 % 256).toNat = (x / 2 ^ 24 % 256).toNat := by
    unfold toInt32; congr 1; omega
  have h2 : (toInt32 x / 2 ^ 16 % 256).toNat = (x / 2 ^ 16 % 256).toNat := by
    unfold toInt32; congr 1; omega
  have h3 : (toInt32 x / 2 ^ 8 % 256).toNat = (x / 2 ^ 8 % 256).toNat := by
    unfold toInt32; congr 1; omega
  have h4 : (toInt32 x % 256).toNat = (x % 256).toNat := by
    unfold toInt32; congr 1; omega
  simp only [be32, ubyte, h1, h2, h3, h4]

theorem forEach_callTrace {κ : Type} {op : κ → M Unit} {ks : List κ} {w w1 : Writer}
    (h : forEach ks op w = Res.ok () w1) : ∃ ds, callTrace op ks w = some (ds, w1) := by
  induction ks generalizing w with
  | nil =>
    rw [forEach_nil, pure_apply] at h
    cases h
    exact ⟨[], rfl⟩
  | cons k ks ih =>
    rw [forEach_cons] at h
    obtain ⟨_, w2, h1, h2⟩ := bind_ok_inv h
    obtain ⟨ds, hd⟩ := ih h2
    exact ⟨emitted w w2 :: ds, by simp only [callTrace, h1, hd]⟩

theorem callTrace_stream {κ : Type} {op : κ → M Unit} (hop : ∀ k, Steps (op k)) {ks : List κ}
    {w w1 : Writer} {ds : List (List Nat)} (h : callTrace op ks w = some (ds, w1)) :
    stream w1 = stream w ++ ds.flatten := by
  induction ks generalizing w ds with
  | nil =>
    simp only [callTrace, Option.some.injEq, Prod.mk.injEq] at h
    rw [← h.1, ← h.2]; simp
  | cons k ks ih =>
    obtain ⟨w2, ds2, h1, h2, rfl⟩ := callTrace_cons_inv h
    obtain ⟨bs, hb⟩ := (hop k w () w2 h1).stream
    rw [ih h2, emitted_of_append hb, hb]
    simp

theorem callTrace_heads {κ : Type} {op : κ → M Unit} (idx : κ → Int)
    (hhead : ∀ k w w1, op k w = Res.ok () w1 → ∃ rest, emitted w w1 = be32 (idx k) ++ rest)
    {ks : List κ} {w w1 : Writer} {ds : List (List Nat)}
    (h : callTrace op ks w = some (ds, w1)) :
    ∀ (i : Nat) (k : κ), ks[i]? = some k → ∃ rest, ds[i]? = some (be32 (idx k) ++ rest) := by
  induction ks generalizing w ds with
  | nil => intro i k hk; simp at hk
  | cons k0 ks ih =>
    obtain ⟨w2, ds2, h1, h2, rfl⟩ := callTrace_cons_inv h
    intro i k hk
    cases i with
    | zero =>
      simp only [List.getElem?_cons_zero, Option.some.injEq] at hk
      subst hk
      obtain ⟨rest, hr⟩ := hhead k0 w w2 h1
      exact ⟨rest, by simp [hr]⟩
    | succ i =>
      simp only [List.getElem?_cons_succ] at hk ⊢
      exact ih h2 i k hk

/-- A statement record starts with the 4-byte global index of its node. -/
theorem writeTreeTop_head (tt : TreeTop) (w w1 : Writer) (h : writeTreeTop tt w = Res.ok () w1) :
    ∃ rest, emitted w w1 = be32 tt.node.getGlobalIndex ++ rest := by
  unfold writeTreeTop at h
  obtain ⟨_, w2, h1, k1⟩ := bind_ok_inv h
  obtain ⟨a1, _⟩ := writeInt32_ok h1
  have hg : Grows w2 w1 := by
    refine (show Steps _ from ?_) _ _ _ k1
    repeat' with_reducible first
      | exact steps_pure _ | exact steps_throwFault _
      | exact steps_writeInt8 _ | exact steps_writeDirectEdge _
      | exact steps_writePoolNodeClass _ _ _ | exact steps_writeProperties _
      | exact steps_forEach _ (fun c => steps_writeDirectEdge _)
      | refine steps_bind ?_ (fun _ => ?_) | apply steps_ite | split
  obtain ⟨rest, hr⟩ := hg.stream
  refine ⟨rest, ?_⟩
  apply emitted_of_append
  rw [hr, a1, be32_toInt32, List.append_assoc]

/-- A node record starts with the 4-byte global index of its node. -/
theorem writeNode_head (node : Node) (w w1 : Writer) (h : writeNode node w = Res.ok () w1) :
    ∃ rest, emitted w w1 = be32 node.getGlobalIndex ++ rest := by
  unfold writeNode at h
  obtain ⟨_, w2, h1, k1⟩ := bind_ok_inv h
  obtain ⟨a1, _⟩ := writeInt32_ok h1
  have hg : Grows w2 w1 := by
    refine (show Steps _ from ?_) _ _ _ k1
    repeat' with_reducible first
      | exact steps_pure _
      | exact steps_writeInt8 _ | exact steps_writeDirectEdge _
      | exact steps_writePoolNodeClass _ _ _ | exact steps_writeProperties _
      | exact steps_forEach _ (fun c => steps_writeDirectEdge _)
      | refine steps_bind ?_ (fun _ => ?_)
  obtain ⟨rest, hr⟩ := hg.stream
  refine ⟨rest, ?_⟩
  apply emitted_of_append
  rw [hr, a1, be32_toInt32, List.append_assoc]

/-- The shape of a successful `writeGraphBody`: the property block, the
4-byte node count, the statement records, the plain node records, and the
4-byte zero block count. -/
theorem writeGraphBody_records (name : CppString) (methodSymbol : ResolvedMethodSymbol)
    (w w1 : Writer) (h : writeGraphBody name methodSymbol w = Res.ok () w1) :
    ∃ (wA wB wC : Writer) (recsT recsN : List (List Nat)),
      writeProperties [⟨str "label", name⟩] w = Res.ok () wA ∧
      callTrace writeTreeTop (treeTopIterator methodSymbol) wB = some (recsT, wC) ∧
      (∃ wD, callTrace writeNode (plainNodes methodSymbol) wC = some (recsN, wD)) ∧
      stream w1 = stream wA ++ be32 (countNodes methodSymbol) ++ recsT.flatten ++
        recsN.flatten ++ [0, 0, 0, 0] := by
  unfold writeGraphBody at h
  obtain ⟨_, wA, h1, k1⟩ := bind_ok_inv h
  obtain ⟨_, wB, h2, k2⟩ := bind_ok_inv k1
  obtain ⟨_, wC, h3, k3⟩ := bind_ok_inv k2
  obtain ⟨_, wD, h4, k4⟩ := bind_ok_inv k3
  obtain ⟨recsT, hT⟩ := forEach_callTrace h3
  obtain ⟨recsN, hN⟩ := forEach_callTrace h4
  obtain ⟨a1, _⟩ := writeInt32_ok h2
  obtain ⟨b1, _⟩ := writeInt32_ok k4
  have sT := callTrace_stream steps_writeTreeTop hT
  have sN := callTrace_stream steps_writeNode hN
  refine ⟨wA, wB, wC, recsT, recsN, h1, hT, ⟨wD, hN⟩, ?_⟩
  rw [b1, sN, sT, a1, be32_toInt32]
  simp [be32, ubyte]

theorem linkTreeTops_length (b : Bool) (ns : List Node) : (linkTreeTops b ns).length = ns.length := by
  induction ns generalizing b with
  | nil => rfl
  | cons n ns ih => simp [linkTreeTops, ih]

/-- C9: the 4-byte node count written by `writeGraphBody` is the number of
statements plus the number of nodes of the pre-order traversal whose opcode
is not a statement opcode, and it is the number of records that follow it:
the statement records and the plain node records, which with the count and
the closing block count make up the rest of the output. -/
theorem writeGraphBody_nodeCount (name : CppString) (methodSymbol : ResolvedMethodSymbol)
    (w w1 : Writer) (h : writeGraphBody name methodSymbol w = Res.ok () w1) :
    countNodes methodSymbol = methodSymbol.trees.length +
      ((preorderNodeIterator methodSymbol).filter (fun n => !n.getOpCode.isTreeTop)).length ∧
    ∃ (wA wB wC : Writer) (recsT recsN : List (List Nat)),
      writeProperties [⟨str "label", name⟩] w = Res.ok () wA ∧
      callTrace writeTreeTop (treeTopIterator methodSymbol) wB = some (recsT, wC) ∧
      (∃ wD, callTrace writeNode (plainNodes methodSymbol) wC = some (recsN, wD)) ∧
      stream w1 = stream wA ++ be32 (countNodes methodSymbol) ++ recsT.flatten ++
        recsN.flatten ++ [0, 0, 0, 0] ∧
      recsT.length + recsN.length = countNodes methodSymbol := by
  constructor
  · simp [countNodes, treeTopIterator, linkTreeTops_length]
  · obtain ⟨wA, wB, wC, recsT, recsN, h1, hT, ⟨wD, hN⟩, hs⟩ :=
      writeGraphBody_records name methodSymbol w w1 h
    refine ⟨wA, wB, wC, recsT, recsN, h1, hT, ⟨wD, hN⟩, hs, ?_⟩
    rw [callTrace_length _ hT, callTrace_length _ hN]
    rfl

theorem writeGraphBody_nodeCount_witness :
    countNodes sampleGraph = 5 ∧
    sampleGraph.trees.length = 3 ∧
    ∃ (wA wB wC : Writer) (recsT recsN : List (List Nat)),
      writeProperties [⟨str "label", str "t"⟩] Writer.new = Res.ok () wA ∧
      callTrace writeTreeTop (treeTopIterator sampleGraph) wB = some (recsT, wC) ∧
      (∃ wD, callTrace writeNode (plainNodes sampleGraph) wC = some (recsN, wD)) ∧
      stream (finalState (writeGraphBody (str "t") sampleGraph Writer.new)) =
        stream wA ++ be32 (countNodes sampleGraph) ++ recsT.flatten ++
        recsN.flatten ++ [0, 0, 0, 0] ∧
      recsT.length + recsN.length = countNodes sampleGraph :=
  ⟨by decide, by decide,
    (writeGraphBody_nodeCount (str "t") sampleGraph Writer.new
      (finalState (writeGraphBody (str "t") sampleGraph Writer.new)) (by decide!)).2⟩

mutual
theorem preorderNode_spec : ∀ (n : Node) (seen : List Nat),
    ((preorderNode n seen).1.map Node.getGlobalIndex).Nodup ∧
    (∀ x ∈ (preorderNode n seen).1.map Node.getGlobalIndex, x ∉ seen) ∧
    (∀ x, x ∈ (preorderNode n seen).2 ↔
      x ∈ seen ∨ x ∈ (preorderNode n seen).1.map Node.getGlobalIndex)
  | Node.mk g o s l d b cs, seen => by
    have ih := preorderChildren_spec cs (g :: seen)
    unfold preorderNode
    by_cases hg : g ∈ seen
    · simp [hg]
    · simp only [hg, if_false, List.map_cons, Node.getGlobalIndex, List.nodup_cons,
        List.mem_cons]
      obtain ⟨i1, i2, i3⟩ := ih
      refine ⟨⟨?_, i1⟩, ?_, ?_⟩
      · intro hx
        exact i2 g hx (List.mem_cons_self _ _)
      · intro x hx
        rcases hx with rfl | hx
        · exact hg
        · exact fun h => i2 x hx (List.mem_cons_of_mem _ h)
      · intro x
        rw [i3 x]
        simp only [List.mem_cons]
        tauto
theorem preorderChildren_spec : ∀ (cs : List Node) (seen : List Nat),
    ((preorderChildren cs seen).1.map Node.getGlobalIndex).Nodup ∧
    (∀ x ∈ (preorderChildren cs seen).1.map Node.getGlobalIndex, x ∉ seen) ∧
    (∀ x, x ∈ (preorderChildren cs seen).2 ↔
      x ∈ seen ∨ x ∈ (preorderChildren cs seen).1.map Node.getGlobalIndex)
  | [], seen => by simp [preorderChildren]
  | c :: cs, seen => by
    have ih1 := preorderNode_spec c seen
    have ih2 := preorderChildren_spec cs (preorderNode c seen).2
    unfold preorderChildren
    obtain ⟨a1, a2, a3⟩ := ih1
    obtain ⟨b1, b2, b3⟩ := ih2
    simp only [List.map_append, List.mem_append]
    refine ⟨?_, ?_, ?_⟩
    · rw [List.nodup_append]
      refine ⟨a1, b1, ?_⟩
      intro x hx1 hx2
      exact b2 x hx2 ((a3 x).mpr (Or.inr hx1))
    · intro x hx
      rcases hx with hx | hx
      · exact a2 x hx
      · exact fun h => b2 x hx ((a3 x).mpr (Or.inl h))
    · intro x
      rw [b3 x, a3 x]
      tauto
end

theorem preorderNodeIterator_nodup (methodSymbol : ResolvedMethodSymbol) :
    ((preorderNodeIterator methodSymbol).map Node.getGlobalIndex).Nodup :=
  (preorderChildren_spec methodSymbol.trees []).1

theorem treeTopIterator_indices (methodSymbol : ResolvedMethodSymbol) :
    (treeTopIterator methodSymbol).map (fun tt => tt.node.getGlobalIndex) =
      methodSymbol.trees.map Node.getGlobalIndex := by
  unfold treeTopIterator
  generalize false = b
  induction methodSymbol.trees generalizing b with
  | nil => rfl
  | cons n ns ih => simp [linkTreeTops, ih]

theorem callTrace_append_heads {κ₁ κ₂ : Type} {op1 : κ₁ → M Unit} {op2 : κ₂ → M Unit}
    (idx1 : κ₁ → Nat) (idx2 : κ₂ → Nat)
    (hh1 : ∀ k w w1, op1 k w = Res.ok () w1 → ∃ rest, emitted w w1 = be32 (idx1 k) ++ rest)
    (hh2 : ∀ k w w1, op2 k w = Res.ok () w1 → ∃ rest, emitted w w1 = be32 (idx2 k) ++ rest)
    {ks1 : List κ₁} {ks2 : List κ₂} {wB wC wD : Writer} {d1 d2 : List (List Nat)}
    (h1 : callTrace op1 ks1 wB = some (d1, wC)) (h2 : callTrace op2 ks2 wC = some (d2, wD)) :
    ∀ (i x : Nat), (ks1.map idx1 ++ ks2.map idx2)[i]? = some x →
      ∃ rest, (d1 ++ d2)[i]? = some (be32 x ++ rest) := by
  intro i x hx
  have l1 := callTrace_length _ h1
  by_cases hi : i < ks1.length
  · rw [List.getElem?_append_left (by simpa using hi)] at hx
    rw [List.getElem?_append_left (by omega)]
    rw [List.getElem?_map] at hx
    cases hk : ks1[i]? with
    | none => rw [hk] at hx; cases hx
    | some k =>
      rw [hk] at hx
      simp only [Option.map_some', Option.some.injEq] at hx
      subst hx
      exact callTrace_heads (fun k => (idx1 k : Int)) hh1 h1 i k hk
  · rw [List.getElem?_append_right (by simpa using hi)] at hx
    rw [List.getElem?_append_right (by omega)]
    rw [List.getElem?_map] at hx
    simp only [List.length_map] at hx
    cases hk : ks2[i - ks1.length]? with
    | none => rw [hk] at hx; cases hx
    | some k =>
      rw [hk] at hx
      simp only [Option.map_some', Option.some.injEq] at hx
      subst hx
      rw [l1]
      exact callTrace_heads (fun k => (idx2 k : Int)) hh2 h2 _ k hk

/-- C10 (counterexample): in the graph of one anchor statement whose child is a
store, the traversal reaches the nodes 0, 1 and 2, the node count is 2 and the
records are headed by 0 and 2: the store (global index 1) gets no record,
since its opcode is a statement opcode and it is no statement. In the graph
of one statement whose node has no statement opcode, index 0 heads two
records. -/
theorem writeGraphBody_not_one_record_per_node :
    ((preorderNodeIterator sampleAnchored).map Node.getGlobalIndex = [0, 1, 2] ∧
      countNodes sampleAnchored = 2 ∧ recordIndices sampleAnchored = [0, 2] ∧
      isOk (writeGraphBody (str "t") sampleAnchored Writer.new) = true ∧
      ¬ (∀ n ∈ preorderNodeIterator sampleAnchored,
          n.getGlobalIndex ∈ recordIndices sampleAnchored)) ∧
    (recordIndices sampleBareCall = [0, 0] ∧ ¬ (recordIndices sampleBareCall).Nodup) := by
  decide!

/-- C10 (amended): for every snapshot, `writeGraphBody` emits one record per
statement in statement-list order, then one record per node of the pre-order
traversal whose opcode is not a statement opcode, each record headed by the
4-byte global index of its node: this holds of every graph. When, moreover,
the statements have distinct indices and a traversed node has a statement
opcode exactly when it is the node of a statement, no index heads two records
and every traversed node has a record. -/
theorem writeGraphBody_one_record_per_node (name : CppString)
    (methodSymbol : ResolvedMethodSymbol) (w w1 : Writer)
    (h : writeGraphBody name methodSymbol w = Res.ok () w1) :
    (∃ (wB wC wD : Writer) (recsT recsN : List (List Nat)),
      callTrace writeTreeTop (treeTopIterator methodSymbol) wB = some (recsT, wC) ∧
      callTrace writeNode (plainNodes methodSymbol) wC = some (recsN, wD) ∧
      stream w1 = stream wB ++ (recsT ++ recsN).flatten ++ [0, 0, 0, 0] ∧
      (recsT ++ recsN).length = (recordIndices methodSymbol).length ∧
      ∀ (i x : Nat), (recordIndices methodSymbol)[i]? = some x →
        ∃ rest, (recsT ++ recsN)[i]? = some (be32 x ++ rest)) ∧
    ((∀ n ∈ preorderNodeIterator methodSymbol,
        (n.getOpCode.isTreeTop = true ↔
          n.getGlobalIndex ∈ methodSymbol.trees.map Node.getGlobalIndex)) →
      (methodSymbol.trees.map Node.getGlobalIndex).Nodup →
      (recordIndices methodSymbol).Nodup ∧
      (∀ n ∈ preorderNodeIterator methodSymbol,
        n.getGlobalIndex ∈ recordIndices methodSymbol)) := by
  refine ⟨?_, fun hwf hnodup => ⟨?_, ?_⟩⟩
  · unfold writeGraphBody at h
    obtain ⟨_, wA, h1, k1⟩ := bind_ok_inv h
    obtain ⟨_, wB, h2, k2⟩ := bind_ok_inv k1
    obtain ⟨_, wC, h3, k3⟩ := bind_ok_inv k2
    obtain ⟨_, wD, h4, k4⟩ := bind_ok_inv k3
    obtain ⟨recsT, hT⟩ := forEach_callTrace h3
    obtain ⟨recsN, hN⟩ := forEach_callTrace h4
    obtain ⟨b1, _⟩ := writeInt32_ok k4
    have sT := callTrace_stream steps_writeTreeTop hT
    have sN := callTrace_stream steps_writeNode hN
    refine ⟨wB, wC, wD, recsT, recsN, hT, hN, ?_, ?_, ?_⟩
    · rw [b1, sN, sT]
      simp [be32, ubyte]
    · simp [recordIndices, plainNodes, callTrace_length _ hT, callTrace_length _ hN]
    · exact callTrace_append_heads (fun tt : TreeTop => tt.node.getGlobalIndex)
        Node.getGlobalIndex writeTreeTop_head writeNode_head hT hN
  · unfold recordIndices
    rw [treeTopIterator_indices, List.nodup_append]
    refine ⟨hnodup, ?_, ?_⟩
    · exact List.Nodup.sublist (List.Sublist.map _ (List.filter_sublist _))
        (preorderNodeIterator_nodup methodSymbol)
    · intro x hx1 hx2
      simp only [plainNodes, List.mem_map, List.mem_filter] at hx2
      obtain ⟨n, ⟨hn, hf⟩, rfl⟩ := hx2
      have := (hwf n hn).mpr hx1
      simp [this] at hf
  · intro n hn
    unfold recordIndices
    rw [treeTopIterator_indices, List.mem_append]
    by_cases ht : n.getOpCode.isTreeTop = true
    · exact Or.inl ((hwf n hn).mp ht)
    · right
      simp only [plainNodes, List.mem_map, List.mem_filter]
      exact ⟨n, ⟨hn, by simpa using ht⟩, rfl⟩

theorem writeGraphBody_one_record_per_node_witness :
    (∃ (wB wC wD : Writer) (recsT recsN : List (List Nat)),
      callTrace writeTreeTop (treeTopIterator sampleAnchored) wB = some (recsT, wC) ∧
      callTrace writeNode (plainNodes sampleAnchored) wC = some (recsN, wD) ∧
      stream (finalState (writeGraphBody (str "t") sampleAnchored Writer.new)) =
        stream wB ++ (recsT ++ recsN).flatten ++ [0, 0, 0, 0] ∧
      (recsT ++ recsN).length = (recordIndices sampleAnchored).length ∧
      ∀ (i x : Nat), (recordIndices sampleAnchored)[i]? = some x →
        ∃ rest, (recsT ++ recsN)[i]? = some (be32 x ++ rest)) ∧
    ((recordIndices sampleGraph).Nodup ∧
      (∀ n ∈ preorderNodeIterator sampleGraph,
        n.getGlobalIndex ∈ recordIndices sampleGraph)) :=
  ⟨(writeGraphBody_one_record_per_node (str "t") sampleAnchored Writer.new
      (finalState (writeGraphBody (str "t") sampleAnchored Writer.new))
      (by decide!)).1,
   (writeGraphBody_one_record_per_node (str "t") sampleGraph Writer.new
      (finalState (writeGraphBody (str "t") sampleGraph Writer.new))
      (by decide!)).2 (by decide) (by decide)⟩

theorem forEach_writeDirectEdge_ok {α : Type} (g : α → Int) {xs : List α} {w w1 : Writer}
    (h : forEach xs (fun c => writeDirectEdge (toInt32 (g c))) w = Res.ok () w1) :
    stream w1 = stream w ++ edgeBytes (xs.map g) ∧ w1.tables = w.tables := by
  induction xs generalizing w with
  | nil => rw [forEach_nil, pure_apply] at h; cases h; simp [edgeBytes]
  | cons x xs ih =>
    rw [forEach_cons] at h
    obtain ⟨_, w2, h1, h2⟩ := bind_ok_inv h
    obtain ⟨e1, e2⟩ := writeInt32_ok h1
    obtain ⟨e3, e4⟩ := ih h2
    rw [e3, e1, e4, e2, be32_toInt32]
    simp [edgeBytes]

/-- The parts of a statement record, in order: the global index, the
NodeClass entry, the predecessor flag, the property block, the direct edges. -/
theorem writeTreeTop_record {tt : TreeTop} {w w1 : Writer}
    (h : writeTreeTop tt w = Res.ok () w1) :
    ∃ w2 w3 w4 w5,
      writeInt32 (toInt32 tt.node.getGlobalIndex) w = Res.ok () w2 ∧
      writePoolNodeClass tt.node (getInputEdgeInfo tt.node) (getOutputEdgeInfo tt) w2 =
        Res.ok () w3 ∧
      writeInt8 (if tt.hasPrev then 1 else 0) w3 = Res.ok () w4 ∧
      writeProperties (getNodeProperties tt.node) w4 = Res.ok () w5 ∧
      stream w1 = stream w5 ++ edgeBytes (treeTopEdges tt) ∧ w1.tables = w5.tables ∧
      (tt.node.getOpCode.isBranch = true → tt.node.getBranchDestination.isSome = true) := by
  unfold writeTreeTop at h
  obtain ⟨_, w2, h1, k1⟩ := bind_ok_inv h
  obtain ⟨_, w3, h2, k2⟩ := bind_ok_inv k1
  obtain ⟨_, w4, h3, k3⟩ := bind_ok_inv k2
  obtain ⟨_, w5, h4, k4⟩ := bind_ok_inv k3
  obtain ⟨_, w6, h5, k5⟩ := bind_ok_inv k4
  refine ⟨w2, w3, w4, w5, h1, h2, h3, h4, ?_⟩
  obtain ⟨e5, t5⟩ := forEach_writeDirectEdge_ok (fun c : Node => (c.getGlobalIndex : Int)) h5
  have hn : ∀ v v1 : Writer,
      (match tt.next with
        | some next => writeDirectEdge (toInt32 (next : Int))
        | none => pure ()) v = Res.ok () v1 →
      stream v1 = stream v ++ edgeBytes (tt.next.toList.map (fun n => (n : Int))) ∧
        v1.tables = v.tables := by
    intro v v1 k
    cases hx : tt.next with
    | none => rw [hx] at k; cases k; simp [edgeBytes]
    | some n =>
      rw [hx] at k
      obtain ⟨e, t7⟩ := writeInt32_ok k
      refine ⟨?_, t7⟩
      rw [e, be32_toInt32]; simp [edgeBytes]
  dsimp only at k5
  by_cases hbr : tt.node.getOpCode.isBranch = true
  · simp only [hbr, if_true] at k5
    cases hd : tt.node.getBranchDestination with
    | none =>
      rw [hd] at k5
      obtain ⟨_, _, k6, _⟩ := bind_ok_inv k5
      cases k6
    | some t =>
      rw [hd] at k5
      obtain ⟨_, w7, k6, k7⟩ := bind_ok_inv k5
      obtain ⟨e6, t6⟩ := writeInt32_ok k6
      obtain ⟨e7, t7⟩ := hn _ _ k7
      refine ⟨?_, ?_, fun _ => rfl⟩
      · rw [e7, e6, e5, be32_toInt32]
        simp [treeTopEdges, edgeBytes, hbr, hd]
      · rw [t7, t6, t5]
  · simp only [hbr, if_false] at k5
    obtain ⟨_, w7, k6, k7⟩ := bind_ok_inv k5
    cases k6
    obtain ⟨e7, t7⟩ := hn _ _ k7
    refine ⟨?_, ?_, fun h => absurd h hbr⟩
    · rw [e7, e5]
      simp [treeTopEdges, edgeBytes, hbr]
    · rw [t7, t5]

/-- The parts of a plain node record, in order. -/
theorem writeNode_record {node : Node} {w w1 : Writer} (h : writeNode node w = Res.ok () w1) :
    ∃ w2 w3 w4 w5,
      writeInt32 (toInt32 node.getGlobalIndex) w = Res.ok () w2 ∧
      writePoolNodeClass node (getInputEdgeInfo node) [] w2 = Res.ok () w3 ∧
      writeInt8 0 w3 = Res.ok () w4 ∧
      writeProperties (getNodeProperties node) w4 = Res.ok () w5 ∧
      stream w1 = stream w5 ++
        edgeBytes (node.children.map (fun c => (c.getGlobalIndex : Int))) ∧
      w1.tables = w5.tables := by
  unfold writeNode at h
  obtain ⟨_, w2, h1, k1⟩ := bind_ok_inv h
  obtain ⟨_, w3, h2, k2⟩ := bind_ok_inv k1
  obtain ⟨_, w4, h3, k3⟩ := bind_ok_inv k2
  obtain ⟨_, w5, h4, k4⟩ := bind_ok_inv k3
  obtain ⟨e5, t5⟩ := forEach_writeDirectEdge_ok (fun c : Node => (c.getGlobalIndex : Int)) k4
  exact ⟨w2, w3, w4, w5, h1, h2, h3, h4, e5, t5⟩

/-- A normal return, read back from its outcome. -/
theorem ok_finalState {r : Res Unit} (h : isOk r = true) : r = Res.ok () (finalState r) := by
  cases r with
  | ok a w => rfl
  | throw e w => cases h

theorem getInputEdgeInfo_length (node : Node) :
    (getInputEdgeInfo node).length = node.getNumChildren := by
  simp [getInputEdgeInfo, Function.comp_def]

theorem tables_nodeClassPool {w w1 : Writer} (h : w1.tables = w.tables) :
    w1.nodeClassPool = w.nodeClassPool := congrArg Tables.nodeClassPool h

/-- A successful `writePoolNodeClass` leaves its key in the pool, with the
handle `h` that the entry it emits carries: a reference `[0x06][h]` or a
define record `[0x00][h][0x06]...`. -/
theorem writePoolNodeClass_entry {node : Node} {inputs : List InputEdgeInfo}
    {outputs : List OutputEdgeInfo} {w w1 : Writer}
    (hr : writePoolNodeClass node inputs outputs w = Res.ok () w1) :
    ∃ h, w1.nodeClassPool.find
        (node.getOpCode.name, toInt32 inputs.length, toInt32 outputs.length) = some h ∧
      ∃ rest, stream w1 = stream w ++ (poolReference 6 h ++ rest) ∨
        stream w1 = stream w ++ (0 :: (be16 h ++ 6 :: rest)) := by
  cases hf : w.nodeClassPool.find
      (node.getOpCode.name, toInt32 inputs.length, toInt32 outputs.length) with
  | some h =>
    obtain ⟨e, t⟩ := writePoolNodeClass_reference hf hr
    refine ⟨h, ?_, [], Or.inl ?_⟩
    · rw [tables_nodeClassPool t]; exact hf
    · rw [e]; simp
  | none =>
    obtain ⟨⟨rest, e⟩, t⟩ := writePoolNodeClass_define hf hr
    exact ⟨w.poolId, t, rest, Or.inr e⟩

/-- C11: `getOutputEdgeInfo` returns `[falseBranch, trueBranch]` (both not
indirect) for a statement whose opcode is a branch, with or without a
following statement; `[nextTreeTop]` for another statement with a following
statement; the empty list otherwise. A plain node record is written with the
empty output list: after a successful `writeNode` the NodeClass pool holds
the key (opcode name, number of children, 0) and the record consists of the
global index followed by the reference to or the definition of that entry. -/
theorem getOutputEdgeInfo_cases (tt : TreeTop) (node : Node) (w w1 : Writer)
    (h : writeNode node w = Res.ok () w1) :
    (tt.node.getOpCode.isBranch = true →
      getOutputEdgeInfo tt = [⟨false, str "falseBranch"⟩, ⟨false, str "trueBranch"⟩]) ∧
    (tt.node.getOpCode.isBranch = false → tt.next.isSome = true →
      getOutputEdgeInfo tt = [⟨false, str "nextTreeTop"⟩]) ∧
    (tt.node.getOpCode.isBranch = false → tt.next = none → getOutputEdgeInfo tt = []) ∧
    ∃ hd, w1.nodeClassPool.find (node.getOpCode.name, toInt32 node.getNumChildren, 0) = some hd ∧
      ∃ rest, emitted w w1 = be32 node.getGlobalIndex ++ (poolReference 6 hd ++ rest) ∨
        emitted w w1 = be32 node.getGlobalIndex ++ (0 :: (be16 hd ++ 6 :: rest)) := by
  refine ⟨?_, ?_, ?_, ?_⟩
  · intro hb
    simp [getOutputEdgeInfo, hb]
  · intro hb hn
    simp [getOutputEdgeInfo, hb, hn]
  · intro hb hn
    simp [getOutputEdgeInfo, hb, hn]
  · obtain ⟨w2, w3, w4, w5, h1, h2, h3, h4, e5, t5⟩ := writeNode_record h
    obtain ⟨e1, _⟩ := writeInt32_ok h1
    obtain ⟨hd, hfind, rest, hs⟩ := writePoolNodeClass_entry h2
    obtain ⟨e3, t3⟩ := writeInt8_ok h3
    have g5 : Grows w4 w5 := steps_writeProperties _ _ _ _ h4
    obtain ⟨bs, e4⟩ := g5.stream
    have hkey : (node.getOpCode.name, toInt32 (getInputEdgeInfo node).length,
        toInt32 ([] : List OutputEdgeInfo).length) =
        (node.getOpCode.name, toInt32 node.getNumChildren, (0 : Int)) := by
      rw [getInputEdgeInfo_length]; rfl
    rw [hkey] at hfind
    refine ⟨hd, ?_, ?_⟩
    · rw [tables_nodeClassPool t5]
      apply g5.nodeClassPool
      rw [tables_nodeClassPool t3]
      exact hfind
    · rcases hs with hs | hs
      · refine ⟨rest ++ [ubyte 0] ++ bs ++
          edgeBytes (node.children.map (fun c => (c.getGlobalIndex : Int))), Or.inl ?_⟩
        apply emitted_of_append
        rw [e5, e4, e3, hs, e1, be32_toInt32]
        simp [List.append_assoc]
      · refine ⟨rest ++ [ubyte 0] ++ bs ++
          edgeBytes (node.children.map (fun c => (c.getGlobalIndex : Int))), Or.inr ?_⟩
        apply emitted_of_append
        rw [e5, e4, e3, hs, e1, be32_toInt32]
        simp [List.append_assoc]

theorem getOutputEdgeInfo_cases_witness :
    getOutputEdgeInfo ⟨sampleAdd, false, none⟩ = [] ∧
    ∃ hd, (finalState (writeNode sampleAdd Writer.new)).nodeClassPool.find
        (sampleAdd.getOpCode.name, toInt32 sampleAdd.getNumChildren, 0) = some hd ∧
      ∃ rest, emitted Writer.new (finalState (writeNode sampleAdd Writer.new)) =
          be32 sampleAdd.getGlobalIndex ++ (poolReference 6 hd ++ rest) ∨
        emitted Writer.new (finalState (writeNode sampleAdd Writer.new)) =
          be32 sampleAdd.getGlobalIndex ++ (0 :: (be16 hd ++ 6 :: rest)) :=
  have h := getOutputEdgeInfo_cases ⟨sampleAdd, false, none⟩ sampleAdd Writer.new
    (finalState (writeNode sampleAdd Writer.new)) (ok_finalState (by decide!))
  ⟨h.2.2.1 rfl rfl, h.2.2.2⟩

theorem edgeBytes_length (ids : List Int) : (edgeBytes ids).length = 4 * ids.length := by
  induction ids with
  | nil => rfl
  | cons x xs ih =>
    have : edgeBytes (x :: xs) = be32 x ++ edgeBytes xs := by simp [edgeBytes]
    rw [this, List.length_append, ih]
    simp [be32]
    omega

/-- The NodeClass key of a successful statement record is in the pool
afterwards. -/
theorem writeTreeTop_nodeClass {tt : TreeTop} {w w1 : Writer}
    (h : writeTreeTop tt w = Res.ok () w1) :
    ∃ hd, w1.nodeClassPool.find (tt.node.getOpCode.name, toInt32 tt.node.getNumChildren,
      toInt32 (getOutputEdgeInfo tt).length) = some hd := by
  obtain ⟨w2, w3, w4, w5, _, h2, h3, h4, _, t5, _⟩ := writeTreeTop_record h
  obtain ⟨hd, hfind, _⟩ := writePoolNodeClass_entry h2
  obtain ⟨_, t3⟩ := writeInt8_ok h3
  have g5 : Grows w4 w5 := steps_writeProperties _ _ _ _ h4
  rw [getInputEdgeInfo_length] at hfind
  refine ⟨hd, ?_⟩
  rw [tables_nodeClassPool t5]
  apply g5.nodeClassPool
  rw [tables_nodeClassPool t3]
  exact hfind

/-- C12 (counterexample): the record of a branch statement with the target 9
and one child (node 5) that is the last statement of the list. After the
property block it carries the child edge and one extra edge, the target, not
two: 8 bytes. -/
theorem writeTreeTop_branch_last_one_extra_edge :
    sampleBranchLast.node.getOpCode.isBranch = true ∧
    sampleBranchLast.node.getBranchDestination = some 9 ∧
    isOk (writeTreeTop sampleBranchLast Writer.new) = true ∧
    ∃ w5, AfterProperties sampleBranchLast Writer.new w5 ∧
      finalStream (writeTreeTop sampleBranchLast Writer.new) =
        stream w5 ++ (be32 5 ++ be32 9) := by
  have hok : isOk (writeTreeTop sampleBranchLast Writer.new) = true := by decide!
  obtain ⟨w2, w3, w4, w5, h1, h2, h3, h4, e5, _⟩ := writeTreeTop_record (ok_finalState hok)
  refine ⟨rfl, rfl, hok, w5, ⟨w2, w3, w4, h1, h2, h3, h4⟩, ?_⟩
  have hf : finalStream (writeTreeTop sampleBranchLast Writer.new) =
      stream (finalState (writeTreeTop sampleBranchLast Writer.new)) := by
    cases writeTreeTop sampleBranchLast Writer.new <;> rfl
  rw [hf, e5]
  congr 1

/-- C12 (amended): for a branch statement with the branch target `t`, the
NodeClass of its record has the two output edges `falseBranch`, `trueBranch`
in this order (its key has outCount 2), and after the property block the
record carries one direct edge per child in order, then the target `t`, then
the following statement when there is one: two extra edges when a following
statement exists, one extra edge when the branch is the last statement. -/
theorem writeTreeTop_branch_edges (tt : TreeTop) (t : Nat) (w w1 : Writer)
    (hb : tt.node.getOpCode.isBranch = true) (ht : tt.node.getBranchDestination = some t)
    (h : writeTreeTop tt w = Res.ok () w1) :
    getOutputEdgeInfo tt = [⟨false, str "falseBranch"⟩, ⟨false, str "trueBranch"⟩] ∧
    (∃ hd, w1.nodeClassPool.find
      (tt.node.getOpCode.name, toInt32 tt.node.getNumChildren, 2) = some hd) ∧
    ∃ w5, AfterProperties tt w w5 ∧
      stream w1 = stream w5 ++ edgeBytes (tt.node.children.map (fun c => (c.getGlobalIndex : Int))
        ++ [(t : Int)] ++ tt.next.toList.map (fun n => (n : Int))) ∧
      (tt.next = none → (emitted w5 w1).length = 4 * (tt.node.getNumChildren + 1)) ∧
      (∀ n, tt.next = some n → (emitted w5 w1).length = 4 * (tt.node.getNumChildren + 2)) := by
  have hout : getOutputEdgeInfo tt =
      [⟨false, str "falseBranch"⟩, ⟨false, str "trueBranch"⟩] := by
    simp [getOutputEdgeInfo, hb]
  obtain ⟨hd, hfind⟩ := writeTreeTop_nodeClass h
  rw [hout] at hfind
  obtain ⟨w2, w3, w4, w5, h1, h2, h3, h4, e5, _⟩ := writeTreeTop_record h
  have he : treeTopEdges tt = tt.node.children.map (fun c => (c.getGlobalIndex : Int))
      ++ [(t : Int)] ++ tt.next.toList.map (fun n => (n : Int)) := by
    simp [treeTopEdges, hb, ht]
  rw [he] at e5
  refine ⟨hout, ⟨hd, hfind⟩, w5, ⟨w2, w3, w4, h1, h2, h3, h4⟩, e5, ?_, ?_⟩
  · intro hn
    rw [emitted_of_append e5, edgeBytes_length, hn]
    simp [Node.getNumChildren]
  · intro n hn
    rw [emitted_of_append e5, edgeBytes_length, hn]
    simp [Node.getNumChildren]

theorem writeTreeTop_branch_edges_witness :
    getOutputEdgeInfo sampleBranchMid =
      [⟨false, str "falseBranch"⟩, ⟨false, str "trueBranch"⟩] ∧
    ∃ w5, AfterProperties sampleBranchMid Writer.new w5 ∧
      stream (finalState (writeTreeTop sampleBranchMid Writer.new)) = stream w5 ++
        edgeBytes (sampleBranchMid.node.children.map (fun c => (c.getGlobalIndex : Int))
          ++ [((9 : Nat) : Int)] ++ sampleBranchMid.next.toList.map (fun n => (n : Int))) :=
  have h := writeTreeTop_branch_edges sampleBranchMid 9 Writer.new
    (finalState (writeTreeTop sampleBranchMid Writer.new)) rfl rfl (ok_finalState (by decide!))
  ⟨h.1, h.2.2.imp (fun _ h5 => ⟨h5.1, h5.2.1⟩)⟩

/-- A successful `writeStringProperty` emits the String entry of the key, the
tag byte 0x00, and the String entry of the value. -/
theorem writeStringProperty_ok {p : StringProperty} {w w1 : Writer}
    (h : writeStringProperty p w = Res.ok () w1) :
    stream w1 = stream w ++ ((stringEntry w.tables p.key).1 ++
      0 :: (stringEntry (stringEntry w.tables p.key).2 p.value).1) ∧
    w1.tables = (stringEntry (stringEntry w.tables p.key).2 p.value).2 := by
  unfold writeStringProperty writePropString at h
  obtain ⟨_, w2, h1, k1⟩ := bind_ok_inv h
  obtain ⟨_, w3, h2, h3⟩ := bind_ok_inv k1
  obtain ⟨e1, t1⟩ := writePoolString_ok h1
  obtain ⟨e2, t2⟩ := writeInt8_ok h2
  obtain ⟨e3, t3⟩ := writePoolString_ok h3
  rw [t2, t1] at e3 t3
  refine ⟨?_, t3⟩
  rw [e3, e2, e1]
  simp [PROPERTY_POOL, ubyte]

theorem forEach_writeStringProperty_ok {ps : List StringProperty} {w w1 : Writer}
    (h : forEach ps writeStringProperty w = Res.ok () w1) :
    stream w1 = stream w ++ (propertyEntries w.tables ps).1 ∧
    w1.tables = (propertyEntries w.tables ps).2 := by
  induction ps generalizing w with
  | nil => rw [forEach_nil, pure_apply] at h; cases h; simp [propertyEntries]
  | cons p ps ih =>
    rw [forEach_cons] at h
    obtain ⟨_, w2, h1, h2⟩ := bind_ok_inv h
    obtain ⟨e1, t1⟩ := writeStringProperty_ok h1
    obtain ⟨e2, t2⟩ := ih h2
    rw [t1] at e2 t2
    refine ⟨?_, ?_⟩
    · rw [e2, e1]; simp [propertyEntries]
    · rw [t2]; simp [propertyEntries]

/-- C13: for a list of `n < 2^15` string properties, a successful
`writeProperties` appends exactly the 2-byte big-endian count `n` and then,
property by property in list order, the String pool entry of the key
(reference or definition), the tag byte 0x00 and the String pool entry of the
value; the pools afterwards are those the entries left. -/
theorem writeProperties_block (ps : List StringProperty) (w w1 : Writer)
    (hn : ps.length < 2 ^ 15) (h : writeProperties ps w = Res.ok () w1) :
    stream w1 = stream w ++ ([ps.length / 256, ps.length % 256] ++
      (propertyEntries w.tables ps).1) ∧
    w1.tables = (propertyEntries w.tables ps).2 := by
  unfold writeProperties at h
  obtain ⟨_, w2, h1, h2⟩ := bind_ok_inv h
  obtain ⟨e1, t1⟩ := writeInt16_ok h1
  obtain ⟨e2, t2⟩ := forEach_writeStringProperty_ok h2
  rw [t1] at e2 t2
  refine ⟨?_, t2⟩
  rw [e2, e1, be16_toInt16]
  have hb : be16 (ps.length : Int) = [ps.length / 256, ps.length % 256] := by
    simp only [be16, ubyte, List.cons.injEq, and_true]
    constructor <;> omega
  rw [hb]
  simp

theorem writeProperties_block_witness :
    stream (finalState (writeProperties sampleProperties Writer.new)) =
      stream Writer.new ++ ([sampleProperties.length / 256, sampleProperties.length % 256] ++
        (propertyEntries Writer.new.tables sampleProperties).1) ∧
    (propertyEntries Writer.new.tables sampleProperties).1 =
      stringDefine 0 [107] ++ 0 :: stringDefine 1 [118] ++
        (poolReference 1 1 ++ 0 :: poolReference 1 0) :=
  ⟨(writeProperties_block sampleProperties Writer.new
    (finalState (writeProperties sampleProperties Writer.new)) (by decide)
    (ok_finalState (by decide!))).1, by decide!⟩

/-- C14 (counterexample): the block of the one property `k = v` on a fresh
session is the count `00 01`, the define record of the key, the tag byte
0x00, and the define record of the value. The byte immediately before the
entry of the key is the low byte 0x01 of the count; the only tag byte of the
block stands after the key, immediately before the entry of the value. -/
theorem writeProperties_tag_not_before_key :
    isOk (writeProperties [⟨[107], [118]⟩] Writer.new) = true ∧
    finalStream (writeProperties [⟨[107], [118]⟩] Writer.new) =
      [0, 1] ++ stringDefine 0 [107] ++ [0] ++ stringDefine 1 [118] ∧
    ([0, 1] ++ stringDefine 0 [107] ++ [0] ++ stringDefine 1 [118])[1]? = some 1 := by
  decide!

/-- C14 (amended): in every property block written by `writeProperties`, after
the 2-byte count, the bytes of each property are the String pool entry of its
key, then the tag byte 0x00, then the String pool entry of its value: the tag
byte stands immediately before the pool entry of each property value, and
after the pool entry of its key. -/
theorem writeProperties_tag_before_value (ps : List StringProperty) (w w1 : Writer)
    (h : writeProperties ps w = Res.ok () w1) :
    ∃ (w0 : Writer) (recs : List (List Nat)),
      writeInt16 (toInt16 ps.length) w = Res.ok () w0 ∧
      callTrace writeStringProperty ps w0 = some (recs, w1) ∧
      stream w1 = stream w0 ++ recs.flatten ∧
      ∀ (i : Nat) (p : StringProperty), ps[i]? = some p → ∃ t : Tables,
        recs[i]? = some ((stringEntry t p.key).1 ++
          0 :: (stringEntry (stringEntry t p.key).2 p.value).1) := by
  unfold writeProperties at h
  obtain ⟨_, w0, h1, h2⟩ := bind_ok_inv h
  obtain ⟨recs, hc⟩ := forEach_callTrace h2
  refine ⟨w0, recs, h1, hc, callTrace_stream (fun k => steps_writeStringProperty k) hc, ?_⟩
  clear h h1 h2
  induction ps generalizing w0 recs with
  | nil => intro i p hp; simp at hp
  | cons q qs ih =>
    obtain ⟨w2, ds2, hq, hrest, hds⟩ := callTrace_cons_inv hc
    intro i p hp
    subst hds
    cases i with
    | zero =>
      simp only [List.getElem?_cons_zero, Option.some.injEq] at hp
      subst hp
      refine ⟨w0.tables, ?_⟩
      simp only [List.getElem?_cons_zero, Option.some.injEq]
      exact emitted_of_append (writeStringProperty_ok hq).1
    | succ j =>
      simp only [List.getElem?_cons_succ] at hp ⊢
      exact ih w2 ds2 hrest j p hp

theorem writeProperties_tag_before_value_witness :
    ∃ (w0 : Writer) (recs : List (List Nat)),
      writeInt16 (toInt16 sampleProperties.length) Writer.new = Res.ok () w0 ∧
      callTrace writeStringProperty sampleProperties w0 =
        some (recs, finalState (writeProperties sampleProperties Writer.new)) ∧
      stream (finalState (writeProperties sampleProperties Writer.new)) =
        stream w0 ++ recs.flatten ∧
      ∀ (i : Nat) (p : StringProperty), sampleProperties[i]? = some p → ∃ t : Tables,
        recs[i]? = some ((stringEntry t p.key).1 ++
          0 :: (stringEntry (stringEntry t p.key).2 p.value).1) :=
  writeProperties_tag_before_value sampleProperties Writer.new
    (finalState (writeProperties sampleProperties Writer.new)) (ok_finalState (by decide!))

/-- C15 (amended): `getNodeProperties` is defined for every node and returns,
by the opcode of the node: for BBStart and BBEnd the category `begin` and
`end`; for the returns `controlSink`; for the calls `floating` and the target
(the symbol name); for the stores astore, istore, fstore, lstore and dstore
`fixed` and the destination; for the loads aload, iload, fload, lload and
dload `floating` and the destination; for the constants iconst, lconst,
sconst and bconst `floating`, the raw value (the literal in decimal) and the
data type; and for every opcode the switch does not name (the byte and short
stores and loads among them) `controlSplit` when it is a branch, else `fixed`
when it is a statement opcode, else `floating`. -/
theorem getNodeProperties_cases (node : Node) :
    (node.getOpCodeValue = ILOpCodes.BBStart →
      getNodeProperties node = [⟨str "category", str "begin"⟩]) ∧
    (node.getOpCodeValue = ILOpCodes.BBEnd →
      getNodeProperties node = [⟨str "category", str "end"⟩]) ∧
    (node.getOpCodeValue ∈ [ILOpCodes.Return, ILOpCodes.areturn, ILOpCodes.ireturn,
        ILOpCodes.freturn, ILOpCodes.lreturn, ILOpCodes.dreturn] →
      getNodeProperties node = [⟨str "category", str "controlSink"⟩]) ∧
    (node.getOpCodeValue ∈ [ILOpCodes.acall, ILOpCodes.icall, ILOpCodes.lcall,
        ILOpCodes.dcall, ILOpCodes.fcall, ILOpCodes.call] →
      getNodeProperties node =
        [⟨str "category", str "floating"⟩, ⟨str "target", node.getSymbolName⟩]) ∧
    (node.getOpCodeValue ∈ [ILOpCodes.astore, ILOpCodes.istore, ILOpCodes.fstore,
        ILOpCodes.lstore, ILOpCodes.dstore] →
      getNodeProperties node =
        [⟨str "category", str "fixed"⟩, ⟨str "destination", node.getSymbolName⟩]) ∧
    (node.getOpCodeValue ∈ [ILOpCodes.aload, ILOpCodes.iload, ILOpCodes.fload,
        ILOpCodes.lload, ILOpCodes.dload] →
      getNodeProperties node =
        [⟨str "category", str "floating"⟩, ⟨str "destination", node.getSymbolName⟩]) ∧
    (node.getOpCodeValue ∈ [ILOpCodes.iconst, ILOpCodes.lconst, ILOpCodes.sconst,
        ILOpCodes.bconst] →
      getNodeProperties node =
        [⟨str "category", str "floating"⟩, ⟨str "rawvalue", decimal node.getLongInt⟩,
         ⟨str "datatype", node.getDataType⟩]) ∧
    (node.getOpCodeValue ∉ namedPropertyOpcodes →
      (node.getOpCode.isBranch = true →
        getNodeProperties node = [⟨str "category", str "controlSplit"⟩]) ∧
      (node.getOpCode.isBranch = false → node.getOpCode.isTreeTop = true →
        getNodeProperties node = [⟨str "category", str "fixed"⟩]) ∧
      (node.getOpCode.isBranch = false → node.getOpCode.isTreeTop = false →
        getNodeProperties node = [⟨str "category", str "floating"⟩])) := by
  refine ⟨?_, ?_, ?_, ?_, ?_, ?_, ?_, ?_⟩
  · intro h; unfold getNodeProperties; rw [h]
  · intro h; unfold getNodeProperties; rw [h]
  · intro h
    simp only [List.mem_cons, List.mem_singleton, List.not_mem_nil, or_false] at h
    unfold getNodeProperties
    rcases h with h | h | h | h | h | h <;> rw [h]
  · intro h
    simp only [List.mem_cons, List.mem_singleton, List.not_mem_nil, or_false] at h
    unfold getNodeProperties
    rcases h with h | h | h | h | h | h <;> rw [h]
  · intro h
    simp only [List.mem_cons, List.mem_singleton, List.not_mem_nil, or_false] at h
    unfold getNodeProperties
    rcases h with h | h | h | h | h <;> rw [h]
  · intro h
    simp only [List.mem_cons, List.mem_singleton, List.not_mem_nil, or_false] at h
    unfold getNodeProperties
    rcases h with h | h | h | h | h <;> rw [h]
  · intro h
    simp only [List.mem_cons, List.mem_singleton, List.not_mem_nil, or_false] at h
    unfold getNodeProperties
    rcases h with h | h | h | h <;> rw [h]
  · intro h
    obtain ⟨g, ⟨v, nm, tt, br⟩, s, l, d, b, cs⟩ := node
    cases v <;> first
      | (exfalso; apply h
         simp only [namedPropertyOpcodes, Node.getOpCodeValue, Node.getOpCode, List.mem_cons,
           true_or, or_true]; done)
      | (cases tt <;> cases br <;> refine ⟨?_, ?_, ?_⟩ <;> intro h1 <;> (try intro h2) <;>
          first
          | rfl
          | (simp only [Node.getOpCode, Bool.false_eq_true, Bool.true_eq_false] at h1; done)
          | (simp only [Node.getOpCode, Bool.false_eq_true, Bool.true_eq_false] at h2; done))

/-- The decimal text of a literal, at the value -12. -/
theorem decimal_sample : decimal (-12) = str "-12" := by decide

/-- A call of `initialize` on an initialized session returns at once. -/
theorem initializeWriter_skip (comp : Compilation) (symbol : ResolvedMethodSymbol) (w : Writer)
    (h : w.initialized = true) : initializeWriter comp symbol w = Res.ok () w := by
  unfold initializeWriter
  simp [bind_apply, getWriter, h, pure_apply]

/-- The three ways through `initialize` on a session that is not initialized:
the destination is open already; it is opened; it cannot be opened. -/
theorem initializeWriter_eq (comp : Compilation) (symbol : ResolvedMethodSymbol) (w : Writer)
    (hi : w.initialized = false) :
    initializeWriter comp symbol w =
      match w.file with
      | some _ => initializeBody symbol w
      | none =>
        match fopen comp (destinationName comp symbol) with
        | none => Res.throw Fault.openFailed w
        | some f => initializeBody symbol { w with file := some f } := by
  unfold initializeWriter
  simp only [bind_apply, getWriter, hi, Bool.false_eq_true, if_false]
  cases hf : w.file with
  | some f0 =>
    simp only [Option.isNone_some, Bool.false_eq_true, if_false, bind_apply, pure_apply]
    rfl
  | none =>
    simp only [Option.isNone_none, if_true]
    have hn : str "TestarossaCompilation-" ++ decimal 0 ++ str "[" ++
        cstr (replaceChar symbol.signature 47 46) ++ str "][" ++ cstr comp.hotnessName ++
        str "].bgv" = destinationName comp symbol := rfl
    rw [hn]
    cases fopen comp (destinationName comp symbol) with
    | none => rfl
    | some f =>
      simp only [bind_apply, modifyWriter, hi]
      rfl

theorem stream_openFile {w : Writer} {f : File} (hw : w.file = none) (hf : f.chunks = []) :
    stream { w with file := some f } = stream w := by
  simp [stream, hw, File.data, hf]

theorem fopen_chunks {comp : Compilation} {name : CppString} {f : File}
    (h : fopen comp name = some f) : f.chunks = [] ∧ f.name = name := by
  unfold fopen at h
  split at h
  · cases h; exact ⟨rfl, rfl⟩
  · cases h

/-- A successful `initialize` of a session that is not initialized runs the
body in a state with the same stream and the same pools. -/
theorem initializeWriter_ok {comp : Compilation} {symbol : ResolvedMethodSymbol} {w w1 : Writer}
    (hi : w.initialized = false) (h : initializeWriter comp symbol w = Res.ok () w1) :
    ∃ w0, stream w0 = stream w ∧ w0.tables = w.tables ∧ initializeBody symbol w0 = Res.ok () w1 := by
  rw [initializeWriter_eq comp symbol w hi] at h
  cases hf : w.file with
  | some f0 => rw [hf] at h; exact ⟨w, rfl, rfl, h⟩
  | none =>
    rw [hf] at h
    cases ho : fopen comp (destinationName comp symbol) with
    | none => rw [ho] at h; cases h
    | some f =>
      rw [ho] at h
      exact ⟨_, stream_openFile hf (fopen_chunks ho).1, rfl, h⟩

/-- The bytes of a successful run of the body of `initialize`: the header, the
begin-group byte, the String entry of the name, the String entry of the
placeholder short name, the Method entry, four zero bytes, and the block of
the one property `graph`; the session is initialized afterwards. -/
theorem initializeBody_ok {symbol : ResolvedMethodSymbol} {w w1 : Writer}
    (h : initializeBody symbol w = Res.ok () w1) :
    ∃ wB wC,
      stream wB = stream w ++ ([66, 73, 71, 86, 7, 0] ++ [0] ++
        (stringEntry w.tables (sessionName symbol)).1 ++
        (stringEntry (stringEntry w.tables (sessionName symbol)).2
          (str "Placeholder short name")).1) ∧
      wB.tables = (stringEntry (stringEntry w.tables (sessionName symbol)).2
        (str "Placeholder short name")).2 ∧
      writePoolMethod symbol wB = Res.ok () wC ∧
      stream w1 = stream wC ++ ([0, 0, 0, 0] ++ ([0, 1] ++
        (propertyEntries wC.tables [⟨str "graph", sessionGraphType symbol⟩]).1)) ∧
      w1.initialized = true := by
  unfold initializeBody at h
  obtain ⟨_, v1, h1, k1⟩ := bind_ok_inv h
  obtain ⟨_, v2, h2, k2⟩ := bind_ok_inv k1
  obtain ⟨_, v3, h3, k3⟩ := bind_ok_inv k2
  obtain ⟨_, v4, h4, k4⟩ := bind_ok_inv k3
  obtain ⟨_, v5, h5, k5⟩ := bind_ok_inv k4
  obtain ⟨_, v6, h6, k6⟩ := bind_ok_inv k5
  obtain ⟨_, v7, h7, k7⟩ := bind_ok_inv k6
  obtain ⟨_, v8, h8, k8⟩ := bind_ok_inv k7
  obtain ⟨_, v9, h9, k9⟩ := bind_ok_inv k8
  obtain ⟨_, v10, h10, k10⟩ := bind_ok_inv k9
  obtain ⟨_, v11, h11, k11⟩ := bind_ok_inv k10
  obtain ⟨_, v12, h12, k12⟩ := bind_ok_inv k11
  obtain ⟨e1, t1⟩ := writeInt8_ok h1
  obtain ⟨e2, t2⟩ := writeInt8_ok h2
  obtain ⟨e3, t3⟩ := writeInt8_ok h3
  obtain ⟨e4, t4⟩ := writeInt8_ok h4
  obtain ⟨e5, t5⟩ := writeInt8_ok h5
  obtain ⟨e6, t6⟩ := writeInt8_ok h6
  obtain ⟨e7, t7⟩ := writeInt8_ok h7
  obtain ⟨e8, t8⟩ := writePoolString_ok h8
  obtain ⟨e9, t9⟩ := writePoolString_ok h9
  obtain ⟨e11, t11⟩ := writeInt32_ok h11
  obtain ⟨e12, t12⟩ := writeProperties_block _ _ _ (by simp) h12
  have ht7 : v7.tables = w.tables := by rw [t7, t6, t5, t4, t3, t2, t1]
  rw [ht7] at e8 t8
  rw [t8] at e9 t9
  rw [t11] at e12
  refine ⟨v9, v10, ?_, t9, h10, ?_, ?_⟩
  · rw [e9, e8, e7, e6, e5, e4, e3, e2, e1]
    simp [ubyte, BEGIN_GROUP]
  · have hs : stream w1 = stream v12 := by
      cases k12
      simp [stream]
    rw [hs, e12, e11]
    simp [be32, ubyte]
  · cases k12
    rfl

/-- The parts of a successful snapshot request: initialization, then the
begin-graph byte, the graph id, the title, four zero bytes and the body. -/
theorem writeGraph_parts {comp : Compilation} {title : CppString}
    {symbol : ResolvedMethodSymbol} {w w1 : Writer}
    (h : writeGraph comp title symbol w = Res.ok () w1) :
    ∃ w0 w2, initializeWriter comp symbol w = Res.ok () w0 ∧
      stream w2 = stream w0 ++ ([1] ++ be32 comp.optIndex ++ stringPayload (cstr title) ++
        [0, 0, 0, 0]) ∧
      w2.tables = w0.tables ∧
      writeGraphBody (cstr title) symbol w2 = Res.ok () w1 := by
  unfold writeGraph at h
  obtain ⟨_, w0, h0, k0⟩ := bind_ok_inv h
  obtain ⟨_, v1, h1, k1⟩ := bind_ok_inv k0
  obtain ⟨_, v2, h2, k2⟩ := bind_ok_inv k1
  obtain ⟨_, v3, h3, k3⟩ := bind_ok_inv k2
  obtain ⟨_, v4, h4, k4⟩ := bind_ok_inv k3
  obtain ⟨e1, t1⟩ := writeInt8_ok h1
  obtain ⟨e2, t2⟩ := writeInt32_ok h2
  obtain ⟨e3, t3⟩ := writeString_ok h3
  obtain ⟨e4, t4⟩ := writeInt32_ok h4
  refine ⟨w0, v4, h0, ?_, by rw [t4, t3, t2, t1], k4⟩
  rw [e4, e3, e2, e1, be32_toInt32]
  simp [BEGIN_GRAPH, ubyte, be32]

/-- C16: a successful first snapshot request (session not initialized)
appends the bytes `B I G V 7 0` and then the begin-group byte 0x00 before
anything else; on a session that has written nothing these are the first
bytes of the stream, and what the destination holds is a prefix of the
stream. -/
theorem writeGraph_header (comp : Compilation) (title : CppString)
    (symbol : ResolvedMethodSymbol) (w w1 : Writer) (hi : w.initialized = false)
    (h : writeGraph comp title symbol w = Res.ok () w1) :
    (∃ rest, stream w1 = stream w ++ ([66, 73, 71, 86, 7, 0] ++ [0] ++ rest)) ∧
    (stream w = [] → ∃ rest, stream w1 = [66, 73, 71, 86, 7, 0, 0] ++ rest) ∧
    (∀ f, w1.file = some f → ∃ tail, stream w1 = f.data ++ tail) := by
  obtain ⟨w0, w2, h0, e2, _, hb⟩ := writeGraph_parts h
  obtain ⟨v0, ev0, _, hbody⟩ := initializeWriter_ok hi h0
  obtain ⟨wB, wC, eB, _, hm, eC, _⟩ := initializeBody_ok hbody
  obtain ⟨bm, em⟩ := (steps_writePoolMethod symbol wB () wC hm).stream
  obtain ⟨bb, eb⟩ := (steps_writeGraphBody (cstr title) symbol w2 () w1 hb).stream
  have hs : ∃ rest, stream w1 = stream w ++ ([66, 73, 71, 86, 7, 0] ++ [0] ++ rest) := by
    refine ⟨(stringEntry v0.tables (sessionName symbol)).1 ++
      (stringEntry (stringEntry v0.tables (sessionName symbol)).2
        (str "Placeholder short name")).1 ++ bm ++
      ([0, 0, 0, 0] ++ ([0, 1] ++
        (propertyEntries wC.tables [⟨str "graph", sessionGraphType symbol⟩]).1)) ++
      ([1] ++ be32 comp.optIndex ++ stringPayload (cstr title) ++ [0, 0, 0, 0]) ++ bb, ?_⟩
    rw [eb, e2, eC, em, eB, ev0]
    simp only [List.append_assoc]
  refine ⟨hs, ?_, ?_⟩
  · intro he
    obtain ⟨rest, hr⟩ := hs
    exact ⟨rest, by rw [hr, he]; rfl⟩
  · intro f hf
    exact ⟨w1.buffer.reverse.map ubyte, by simp [stream, hf]⟩

theorem writeGraph_header_witness :
    ∃ rest, stream (finalState (writeGraph sampleComp (str "t") sampleGraph Writer.new)) =
      [66, 73, 71, 86, 7, 0, 0] ++ rest :=
  (writeGraph_header sampleComp (str "t") sampleGraph Writer.new
    (finalState (writeGraph sampleComp (str "t") sampleGraph Writer.new)) rfl
    (ok_finalState (by decide!))).2.1 rfl

/-- C17 (counterexample): initialization of a fresh session for the method
`A/f()V`. The seven bytes of the header and the begin-group byte are followed
by the define record of the String `0:A.f()V` (handle 0) and the define
record of the String `Placeholder short name` (handle 1); the Method entry
starts only after these two entries. -/
theorem initialize_strings_before_method :
    isOk (initializeWriter sampleComp sampleMethod Writer.new) = true ∧
    ((finalStream (initializeWriter sampleComp sampleMethod Writer.new)).drop 7).take
        ((stringDefine 0 (str "0:A.f()V")).length +
          (stringDefine 1 (str "Placeholder short name")).length + 4) =
      stringDefine 0 (str "0:A.f()V") ++ stringDefine 1 (str "Placeholder short name") ++
        [0, 0, 0, 4] ∧
    (finalStream (initializeWriter sampleComp sampleMethod Writer.new))[10]? = some 1 := by
  decide!

/-- C17 (amended): a successful initialization of a session that is not
initialized appends, in this order and with nothing in between: the header,
the begin-group byte, the String pool entry of the name `0:<signature>`, the
String pool entry of `Placeholder short name`, the bytes of the Method pool
entry of the compiled method, four zero bytes, and a property block of
exactly one property whose key is `graph`; it leaves the session
initialized. -/
theorem initialize_prologue (comp : Compilation) (symbol : ResolvedMethodSymbol)
    (w w1 : Writer) (hi : w.initialized = false)
    (h : initializeWriter comp symbol w = Res.ok () w1) :
    ∃ wB wC,
      stream wB = stream w ++ ([66, 73, 71, 86, 7, 0] ++ [0] ++
        (stringEntry w.tables (sessionName symbol)).1 ++
        (stringEntry (stringEntry w.tables (sessionName symbol)).2
          (str "Placeholder short name")).1) ∧
      writePoolMethod symbol wB = Res.ok () wC ∧
      stream wC = stream wB ++ emitted wB wC ∧
      stream w1 = stream wC ++ ([0, 0, 0, 0] ++ ([0, 1] ++
        (propertyEntries wC.tables [⟨str "graph", sessionGraphType symbol⟩]).1)) ∧
      w1.initialized = true := by
  obtain ⟨v0, ev0, tv0, hbody⟩ := initializeWriter_ok hi h
  obtain ⟨wB, wC, eB, _, hm, eC, hinit⟩ := initializeBody_ok hbody
  obtain ⟨bm, em⟩ := (steps_writePoolMethod symbol wB () wC hm).stream
  refine ⟨wB, wC, ?_, hm, ?_, eC, hinit⟩
  · rw [eB, ev0, tv0]
  · rw [emitted_of_append em, em]

theorem initialize_prologue_witness :
    ∃ wB wC,
      stream wB = stream Writer.new ++ ([66, 73, 71, 86, 7, 0] ++ [0] ++
        (stringEntry Writer.new.tables (sessionName sampleMethod)).1 ++
        (stringEntry (stringEntry Writer.new.tables (sessionName sampleMethod)).2
          (str "Placeholder short name")).1) ∧
      writePoolMethod sampleMethod wB = Res.ok () wC ∧
      stream wC = stream wB ++ emitted wB wC ∧
      stream (finalState (initializeWriter sampleComp sampleMethod Writer.new)) =
        stream wC ++ ([0, 0, 0, 0] ++ ([0, 1] ++
          (propertyEntries wC.tables [⟨str "graph", sessionGraphType sampleMethod⟩]).1)) ∧
      (finalState (initializeWriter sampleComp sampleMethod Writer.new)).initialized = true :=
  initialize_prologue sampleComp sampleMethod Writer.new
    (finalState (initializeWriter sampleComp sampleMethod Writer.new)) rfl
    (ok_finalState (by decide!))

/-- Every successful snapshot request leaves the session initialized. -/
theorem writeGraph_initialized {comp : Compilation} {title : CppString}
    {symbol : ResolvedMethodSymbol} {w w1 : Writer}
    (h : writeGraph comp title symbol w = Res.ok () w1) : w1.initialized = true := by
  obtain ⟨w0, w2, h0, _, t2, hb⟩ := writeGraph_parts h
  have g := steps_writeGraphBody (cstr title) symbol w2 () w1 hb
  have ht : w2.initialized = w0.initialized := congrArg Tables.initialized t2
  rw [g.initialized, ht]
  cases hi : w.initialized with
  | true =>
    rw [initializeWriter_skip comp symbol w hi] at h0
    cases h0
    exact hi
  | false =>
    obtain ⟨v0, _, _, hbody⟩ := initializeWriter_ok hi h0
    exact (initializeBody_ok hbody).choose_spec.choose_spec.2.2.2.2

/-- C20: the bytes a successful snapshot request appends after those of
initialization are the begin-graph byte 0x01, the 4-byte graph id (the
optimisation index), the title as a length-prefixed string (its 4-byte
length and its bytes, no pool entry), four zero bytes (the argument count,
whatever the method), then the body of the graph, which ends with four zero
bytes (the block count, whatever the graph). -/
theorem writeGraph_frame (comp : Compilation) (title : CppString)
    (symbol : ResolvedMethodSymbol) (w w1 : Writer) (hlen : (cstr title).length < 2 ^ 31)
    (h : writeGraph comp title symbol w = Res.ok () w1) :
    ∃ w0 body, initializeWriter comp symbol w = Res.ok () w0 ∧
      stream w1 = stream w0 ++ ([1] ++ be32 comp.optIndex ++ lengthPrefixed (cstr title) ++
        [0, 0, 0, 0] ++ body ++ [0, 0, 0, 0]) := by
  obtain ⟨w0, w2, h0, e2, _, hb⟩ := writeGraph_parts h
  obtain ⟨wA, wB, wC, recsT, recsN, hA, _, _, e1⟩ := writeGraphBody_records _ _ _ _ hb
  obtain ⟨bp, ep⟩ := (steps_writeProperties _ w2 () wA hA).stream
  refine ⟨w0, bp ++ be32 (countNodes symbol) ++ recsT.flatten ++ recsN.flatten, h0, ?_⟩
  have hp : stringPayload (cstr title) = lengthPrefixed (cstr title) :=
    map_ubyte_bytesString hlen
  rw [e1, ep, e2, hp]
  simp only [List.append_assoc]

theorem writeGraph_frame_witness :
    ∃ w0 body, initializeWriter sampleComp sampleGraph Writer.new = Res.ok () w0 ∧
      stream (finalState (writeGraph sampleComp (str "t") sampleGraph Writer.new)) =
        stream w0 ++ ([1] ++ be32 sampleComp.optIndex ++ lengthPrefixed (cstr (str "t")) ++
          [0, 0, 0, 0] ++ body ++ [0, 0, 0, 0]) :=
  writeGraph_frame sampleComp (str "t") sampleGraph Writer.new
    (finalState (writeGraph sampleComp (str "t") sampleGraph Writer.new)) (by decide)
    (ok_finalState (by decide!))

/-- C22: when the destination cannot be opened (the session has no
destination and `fopen` returns null), `initialize` throws the open error in
the state it was called in: nothing is buffered or written, no pool has
changed, and the session is not initialized; the snapshot request throws the
same way. -/
theorem initialize_open_failure (comp : Compilation) (title : CppString)
    (symbol : ResolvedMethodSymbol) (w : Writer) (hi : w.initialized = false)
    (hf : w.file = none) (ho : fopen comp (destinationName comp symbol) = none) :
    initializeWriter comp symbol w = Res.throw Fault.openFailed w ∧
    writeGraph comp title symbol w = Res.throw Fault.openFailed w := by
  have h1 : initializeWriter comp symbol w = Res.throw Fault.openFailed w := by
    rw [initializeWriter_eq comp symbol w hi, hf]
    simp only [ho]
  refine ⟨h1, ?_⟩
  unfold writeGraph
  rw [bind_apply, h1]

theorem initialize_open_failure_witness :
    initializeWriter sampleCompClosed sampleMethod Writer.new =
      Res.throw Fault.openFailed Writer.new ∧
    writeGraph sampleCompClosed (str "t") sampleMethod Writer.new =
      Res.throw Fault.openFailed Writer.new ∧
    stream Writer.new = [] ∧ Writer.new.initialized = false :=
  have h := initialize_open_failure sampleCompClosed (str "t") sampleMethod Writer.new rfl rfl rfl
  ⟨h.1, h.2, rfl, rfl⟩

/-- The name of the destination depends on the signature of the method and
on the hotness name only. -/
theorem destinationName_eq (comp1 comp2 : Compilation) (symbol1 symbol2 : ResolvedMethodSymbol)
    (hs : symbol1.signature = symbol2.signature) (hh : comp1.hotnessName = comp2.hotnessName) :
    destinationName comp1 symbol1 = destinationName comp2 symbol2 := by
  unfold destinationName sessionSignature
  rw [hs, hh]

/-- C24 (the code at the failing input): two sessions, created for two
compilations of the method `A/f()V` at the hotness `warm`, both open the
destination `TestarossaCompilation-0[A.f()V][warm].bgv`: the id in the name
is the constant 0 and the two names are equal. -/
theorem destination_name_shared :
    isOk (initializeWriter sampleComp sampleMethod Writer.new) = true ∧
    isOk (initializeWriter sampleCompSecond sampleMethod Writer.new) = true ∧
    (finalState (initializeWriter sampleComp sampleMethod Writer.new)).file.map File.name =
      some (str "TestarossaCompilation-0[A.f()V][warm].bgv") ∧
    (finalState (initializeWriter sampleCompSecond sampleMethod Writer.new)).file.map File.name =
      some (str "TestarossaCompilation-0[A.f()V][warm].bgv") := by
  decide!

/-- What `flushBuffer` does on a session with a destination, case by case. -/
theorem flushBuffer_eq (force : Bool) (w : Writer) (f : File) (hf : w.file = some f) :
    flushBuffer force w =
      if w.buffer.length < BUFFER_SIZE_BYTES ∧ force = false then Res.ok () w
      else if (fwrite w.buffer.reverse f).1 < w.buffer.length then
        Res.throw Fault.flushFailed { w with file := some (fwrite w.buffer.reverse f).2 }
      else Res.ok () { w with file := some (fwrite w.buffer.reverse f).2, buffer := [] } := by
  unfold flushBuffer
  cases force <;> by_cases hl : w.buffer.length < BUFFER_SIZE_BYTES <;> simp [hl, hf]

/-- C23: on a session with a destination, `flushBuffer` ends with the flush
error exactly when a flush is attempted (the buffer holds at least 4096
bytes, or `force`) and the write accepts fewer bytes than the buffer holds;
it ends with no other error; after the error the buffer holds what it held
(it is not cleared); and a `writeInt8` that ends with an error has not
appended its byte: the buffer and the pools are as before the call. -/
theorem flushBuffer_fails_iff (force : Bool) (w : Writer) (f : File) (hf : w.file = some f) :
    ((∃ w1, flushBuffer force w = Res.throw Fault.flushFailed w1) ↔
      ((BUFFER_SIZE_BYTES ≤ w.buffer.length ∨ force = true) ∧
        (fwrite w.buffer.reverse f).1 < w.buffer.length)) ∧
    (∀ e w1, flushBuffer force w = Res.throw e w1 →
      e = Fault.flushFailed ∧ w1.buffer = w.buffer ∧ w1.tables = w.tables) ∧
    (∀ b e w1, writeInt8 b w = Res.throw e w1 →
      e = Fault.flushFailed ∧ w1.buffer = w.buffer ∧ w1.tables = w.tables ∧
      BUFFER_SIZE_BYTES ≤ w.buffer.length ∧ (fwrite w.buffer.reverse f).1 < w.buffer.length) := by
  have key : ∀ (fc : Bool) e w1, flushBuffer fc w = Res.throw e w1 →
      e = Fault.flushFailed ∧ w1.buffer = w.buffer ∧ w1.tables = w.tables ∧
      (BUFFER_SIZE_BYTES ≤ w.buffer.length ∨ fc = true) ∧
      (fwrite w.buffer.reverse f).1 < w.buffer.length := by
    intro fc e w1 h
    rw [flushBuffer_eq fc w f hf] at h
    split at h
    · cases h
    · rename_i hc
      split at h
      · rename_i hs
        cases h
        refine ⟨rfl, rfl, rfl, ?_, hs⟩
        by_cases hl : w.buffer.length < BUFFER_SIZE_BYTES
        · right
          cases fc
          · exact absurd ⟨hl, rfl⟩ hc
          · rfl
        · left; omega
      · cases h
  refine ⟨⟨?_, ?_⟩, ?_, ?_⟩
  · rintro ⟨w1, h⟩
    exact (key force _ _ h).2.2.2
  · rintro ⟨ha, hs⟩
    rw [flushBuffer_eq force w f hf]
    have hc : ¬ (w.buffer.length < BUFFER_SIZE_BYTES ∧ force = false) := by
      rintro ⟨h1, h2⟩
      rcases ha with ha | ha
      · omega
      · rw [h2] at ha; cases ha
    rw [if_neg hc, if_pos hs]
    exact ⟨_, rfl⟩
  · intro e w1 h
    obtain ⟨a, b, c, _⟩ := key force e w1 h
    exact ⟨a, b, c⟩
  · intro b e w1 h
    unfold writeInt8 at h
    rw [bind_apply] at h
    cases hfl : flushBuffer false w with
    | ok a v => rw [hfl] at h; cases h
    | throw e2 v =>
      rw [hfl] at h
      cases h
      obtain ⟨a, b, c, d, e3⟩ := key false _ _ hfl
      refine ⟨a, b, c, ?_, e3⟩
      rcases d with d | d
      · exact d
      · cases d

theorem flushBuffer_fails_iff_witness :
    (∃ w1, flushBuffer true sampleFullSession = Res.throw Fault.flushFailed w1) ∧
    (∀ e w1, flushBuffer true sampleFullSession = Res.throw e w1 →
      e = Fault.flushFailed ∧ w1.buffer = sampleFullSession.buffer ∧
      w1.tables = sampleFullSession.tables) :=
  have h := flushBuffer_fails_iff true sampleFullSession
    { name := [], chunks := [], room := 0, isOpen := true } rfl
  ⟨h.1.2 ⟨Or.inr rfl, by decide⟩, h.2.1⟩

/-- C25: buffering is transparent. After any successful run of `writeInt8`
calls, what the destination holds followed by what is buffered is what a
writer that sends every byte straight to the destination would hold: the
stream before the run followed by the bytes passed, in call order. When a
forced flush then succeeds, the destination itself holds exactly that and the
buffer is empty. -/
theorem buffering_transparent (bs : List Int) (w w1 : Writer)
    (h : emit bs w = Res.ok () w1) :
    stream w1 = bs.foldl sendDirect (stream w) ∧
    stream w1 = stream w ++ bs.map ubyte ∧
    (∀ w2, flushBuffer true w1 = Res.ok () w2 →
      w2.buffer = [] ∧ ∃ f2, w2.file = some f2 ∧ f2.data = bs.foldl sendDirect (stream w)) := by
  have hfold : ∀ (xs : List Int) (d : List Nat), xs.foldl sendDirect d = d ++ xs.map ubyte := by
    intro xs
    induction xs with
    | nil => intro d; simp
    | cons x xs ih => intro d; simp [List.foldl_cons, ih, sendDirect]
  obtain ⟨e1, _⟩ := emit_ok h
  refine ⟨by rw [hfold, e1], e1, ?_⟩
  intro w2 h2
  cases hf : w1.file with
  | none =>
    unfold flushBuffer at h2
    simp [hf] at h2
  | some f =>
    rw [flushBuffer_eq true w1 f hf] at h2
    simp only [Bool.true_eq_false, and_false, if_false] at h2
    split at h2
    · cases h2
    · rename_i hs
      cases h2
      refine ⟨rfl, _, rfl, ?_⟩
      rw [hfold, ← e1]
      have hm : min w1.buffer.reverse.length f.room = w1.buffer.reverse.length := by
        simp only [fwrite, List.length_reverse] at hs ⊢
        omega
      simp only [fwrite, hm, List.take_length, File.data, stream, hf, List.flatten_append,
        List.flatten_cons, List.flatten_nil, List.append_nil]

theorem buffering_transparent_witness :
    stream (finalState (emit [1, -1, 300] sampleSession)) =
      [1, -1, 300].foldl sendDirect (stream sampleSession) ∧
    stream (finalState (emit [1, -1, 300] sampleSession)) = [1, 66, 73, 1, 255, 44] :=
  have h := buffering_transparent [1, -1, 300] sampleSession
    (finalState (emit [1, -1, 300] sampleSession)) (ok_finalState (by decide!))
  ⟨h.1, by decide!⟩

theorem getOutputEdgeInfo_length (tt : TreeTop) :
    (getOutputEdgeInfo tt).length =
      if tt.node.getOpCode.isBranch then 2 else if tt.next.isSome then 1 else 0 := by
  unfold getOutputEdgeInfo
  cases hb : tt.node.getOpCode.isBranch <;> cases hx : tt.next <;> simp [hb]

theorem treeTopEdges_length (tt : TreeTop)
    (hd : tt.node.getOpCode.isBranch = true → tt.node.getBranchDestination.isSome = true) :
    (treeTopEdges tt).length = tt.node.getNumChildren +
      (if tt.node.getOpCode.isBranch then 1 else 0) + (if tt.next.isSome then 1 else 0) := by
  unfold treeTopEdges Node.getNumChildren
  cases hb : tt.node.getOpCode.isBranch with
  | false => cases tt.next <;> simp
  | true =>
    have := hd hb
    cases hx : tt.node.getBranchDestination with
    | none => rw [hx] at this; cases this
    | some t => cases tt.next <;> simp

/-- The NodeClass key of a successful plain node record is in the pool
afterwards. -/
theorem writeNode_nodeClass {node : Node} {w w1 : Writer}
    (h : writeNode node w = Res.ok () w1) :
    ∃ hd, w1.nodeClassPool.find
      (node.getOpCode.name, toInt32 node.getNumChildren, 0) = some hd := by
  obtain ⟨w2, w3, w4, w5, _, h2, h3, h4, _, t5⟩ := writeNode_record h
  obtain ⟨hd, hfind, _⟩ := writePoolNodeClass_entry h2
  obtain ⟨_, t3⟩ := writeInt8_ok h3
  have g5 : Grows w4 w5 := steps_writeProperties _ _ _ _ h4
  rw [getInputEdgeInfo_length] at hfind
  refine ⟨hd, ?_⟩
  rw [tables_nodeClassPool t5]
  apply g5.nodeClassPool
  rw [tables_nodeClassPool t3]
  exact hfind

/-- C27: the number of 4-byte direct edges a statement record carries after
its property block is inCount + outCount of the NodeClass key of the record
(the number of children and the number of output edges), except for a branch
that is the last statement, whose record carries inCount + 1 edges against
the outCount 2 of its key; a plain node record carries inCount edges. -/
theorem record_edge_count (tt : TreeTop) (node : Node) (w w1 v v1 : Writer)
    (hc : tt.node.getNumChildren < 2 ^ 31) (hcn : node.getNumChildren < 2 ^ 31)
    (ht : writeTreeTop tt w = Res.ok () w1) (hn : writeNode node v = Res.ok () v1) :
    (∃ (w5 : Writer) (edges : List Int) (hd : Nat),
      AfterProperties tt w w5 ∧ emitted w5 w1 = edgeBytes edges ∧
      w1.nodeClassPool.find (tt.node.getOpCode.name, (tt.node.getNumChildren : Int),
        ((getOutputEdgeInfo tt).length : Int)) = some hd ∧
      (¬ (tt.node.getOpCode.isBranch = true ∧ tt.next = none) →
        edges.length = tt.node.getNumChildren + (getOutputEdgeInfo tt).length) ∧
      (tt.node.getOpCode.isBranch = true ∧ tt.next = none →
        edges.length = tt.node.getNumChildren + 1 ∧ (getOutputEdgeInfo tt).length = 2)) ∧
    (∃ (v5 : Writer) (edges : List Int) (hd : Nat),
      AfterNodeProperties node v v5 ∧ emitted v5 v1 = edgeBytes edges ∧
      v1.nodeClassPool.find (node.getOpCode.name, (node.getNumChildren : Int), 0) = some hd ∧
      edges.length = node.getNumChildren) := by
  constructor
  · obtain ⟨w2, w3, w4, w5, h1, h2, h3, h4, e5, _, hdest⟩ := writeTreeTop_record ht
    obtain ⟨hd, hfind⟩ := writeTreeTop_nodeClass ht
    have hol : (getOutputEdgeInfo tt).length < 2 ^ 31 := by
      rw [getOutputEdgeInfo_length]
      split
      · decide
      · split <;> decide
    rw [toInt32_of_lt hc, toInt32_of_lt hol] at hfind
    refine ⟨w5, treeTopEdges tt, hd, ⟨w2, w3, w4, h1, h2, h3, h4⟩, emitted_of_append e5,
      hfind, ?_, ?_⟩
    · intro hne
      rw [treeTopEdges_length tt hdest, getOutputEdgeInfo_length]
      cases hb : tt.node.getOpCode.isBranch with
      | false => cases tt.next <;> simp
      | true =>
        cases hx : tt.next with
        | none => exact absurd ⟨hb, hx⟩ hne
        | some n => simp
    · rintro ⟨hb, hx⟩
      rw [treeTopEdges_length tt hdest, getOutputEdgeInfo_length, hb, hx]
      simp
  · obtain ⟨v2, v3, v4, v5, h1, h2, h3, h4, e5, _⟩ := writeNode_record hn
    obtain ⟨hd, hfind⟩ := writeNode_nodeClass hn
    rw [toInt32_of_lt hcn] at hfind
    exact ⟨v5, _, hd, ⟨v2, v3, v4, h1, h2, h3, h4⟩, emitted_of_append e5, hfind,
      by simp [Node.getNumChildren]⟩

theorem record_edge_count_witness :
    (∃ (w5 : Writer) (edges : List Int) (hd : Nat),
      AfterProperties sampleBranchLast Writer.new w5 ∧
      emitted w5 (finalState (writeTreeTop sampleBranchLast Writer.new)) = edgeBytes edges ∧
      (finalState (writeTreeTop sampleBranchLast Writer.new)).nodeClassPool.find
        (sampleBranchLast.node.getOpCode.name, (sampleBranchLast.node.getNumChildren : Int),
          ((getOutputEdgeInfo sampleBranchLast).length : Int)) = some hd ∧
      edges.length = sampleBranchLast.node.getNumChildren + 1 ∧
      (getOutputEdgeInfo sampleBranchLast).length = 2) ∧
    (∃ (v5 : Writer) (edges : List Int) (hd : Nat),
      AfterNodeProperties sampleAdd Writer.new v5 ∧
      emitted v5 (finalState (writeNode sampleAdd Writer.new)) = edgeBytes edges ∧
      (finalState (writeNode sampleAdd Writer.new)).nodeClassPool.find
        (sampleAdd.getOpCode.name, (sampleAdd.getNumChildren : Int), 0) = some hd ∧
      edges.length = sampleAdd.getNumChildren) :=
  have h := record_edge_count sampleBranchLast sampleAdd Writer.new
    (finalState (writeTreeTop sampleBranchLast Writer.new)) Writer.new
    (finalState (writeNode sampleAdd Writer.new)) (by decide) (by decide)
    (ok_finalState (by decide!)) (ok_finalState (by decide!))
  ⟨h.1.imp fun _ h5 => h5.imp fun _ h6 => h6.imp fun _ h7 =>
      ⟨h7.1, h7.2.1, h7.2.2.1, (h7.2.2.2.2 ⟨rfl, rfl⟩).1, (h7.2.2.2.2 ⟨rfl, rfl⟩).2⟩,
    h.2⟩

theorem Pool.find_insert_self {T : Type} [DecidableEq T] (p : Pool T) (k : T) (id : Nat) :
    ∃ h, (p.insert k id).1.find k = some h := by
  rw [Pool.find_insert]
  cases p.find k with
  | some h => exact ⟨h, rfl⟩
  | none => exact ⟨id, by simp⟩

/-- A `writePoolClass` whose name is in the type pool emits the reference
`[0x03][handle]` and nothing else. -/
theorem writePoolClass_reference {name : CppString} {w w1 : Writer} {h : Nat}
    (hf : w.typePool.find name = some h) (hr : writePoolClass name w = Res.ok () w1) :
    stream w1 = stream w ++ poolReference 3 h ∧ w1.tables = w.tables := by
  unfold writePoolClass at hr
  obtain ⟨a, w0, h0, k0⟩ := bind_ok_inv hr
  obtain ⟨rfl, rfl⟩ := getWriter_ok h0
  have hc : w0.typePool.contains name = true := by simp [Pool.contains, hf]
  simp only [hc, if_true] at k0
  obtain ⟨a, w1', h1, k1⟩ := bind_ok_inv k0
  obtain ⟨rfl, rfl⟩ := getWriter_ok h1
  obtain ⟨id', w2, h2, k2⟩ := bind_ok_inv k1
  obtain ⟨e, rfl⟩ := poolLookup_ok h2
  rw [hf] at e
  cases e
  exact writePoolReference_ok k2

/-- A `writePoolEnumClass` whose name is in the type pool emits the reference
`[0x03][handle]` and nothing else. -/
theorem writePoolEnumClass_reference {cls : PoolEnumClass} {w w1 : Writer} {h : Nat}
    (hf : w.typePool.find cls.name = some h) (hr : writePoolEnumClass cls w = Res.ok () w1) :
    stream w1 = stream w ++ poolReference 3 h ∧ w1.tables = w.tables := by
  unfold writePoolEnumClass at hr
  obtain ⟨a, w0, h0, k0⟩ := bind_ok_inv hr
  obtain ⟨rfl, rfl⟩ := getWriter_ok h0
  have hc : w0.typePool.contains cls.name = true := by simp [Pool.contains, hf]
  simp only [hc, if_true] at k0
  obtain ⟨a, w1', h1, k1⟩ := bind_ok_inv k0
  obtain ⟨rfl, rfl⟩ := getWriter_ok h1
  obtain ⟨id', w2, h2, k2⟩ := bind_ok_inv k1
  obtain ⟨e, rfl⟩ := poolLookup_ok h2
  rw [hf] at e
  cases e
  exact writePoolReference_ok k2

theorem insertType_find {k : CppString} {id a : Nat} {w w1 : Writer}
    (h : insertType k id w = Res.ok a w1) : ∃ hd, w1.typePool.find k = some hd := by
  cases h
  exact Pool.find_insert_self _ _ _

/-- After a successful `writePoolClass` the name is in the type pool. -/
theorem writePoolClass_find {name : CppString} {w w1 : Writer}
    (hr : writePoolClass name w = Res.ok () w1) : ∃ h, w1.typePool.find name = some h := by
  cases hf : w.typePool.find name with
  | some h =>
    obtain ⟨_, t⟩ := writePoolClass_reference hf hr
    have ht : w1.typePool = w.typePool := congrArg Tables.typePool t
    exact ⟨h, by rw [ht]; exact hf⟩
  | none =>
    unfold writePoolClass at hr
    obtain ⟨a, w0, h0, k0⟩ := bind_ok_inv hr
    obtain ⟨rfl, rfl⟩ := getWriter_ok h0
    have hc : w0.typePool.contains name = false := by simp [Pool.contains, hf]
    simp only [hc, Bool.false_eq_true, if_false] at k0
    obtain ⟨_, _, _, k1⟩ := bind_ok_inv k0
    obtain ⟨_, _, _, k2⟩ := bind_ok_inv k1
    obtain ⟨_, _, _, k3⟩ := bind_ok_inv k2
    obtain ⟨_, _, _, k4⟩ := bind_ok_inv k3
    obtain ⟨_, _, _, k5⟩ := bind_ok_inv k4
    obtain ⟨_, _, _, k6⟩ := bind_ok_inv k5
    obtain ⟨_, _, k7, k8⟩ := bind_ok_inv k6
    cases k8
    exact insertType_find k7

/-- After a successful `writePoolEnumClass` the name is in the type pool. -/
theorem writePoolEnumClass_find {cls : PoolEnumClass} {w w1 : Writer}
    (hr : writePoolEnumClass cls w = Res.ok () w1) :
    ∃ h, w1.typePool.find cls.name = some h := by
  cases hf : w.typePool.find cls.name with
  | some h =>
    obtain ⟨_, t⟩ := writePoolEnumClass_reference hf hr
    have ht : w1.typePool = w.typePool := congrArg Tables.typePool t
    exact ⟨h, by rw [ht]; exact hf⟩
  | none =>
    unfold writePoolEnumClass at hr
    obtain ⟨a, w0, h0, k0⟩ := bind_ok_inv hr
    obtain ⟨rfl, rfl⟩ := getWriter_ok h0
    have hc : w0.typePool.contains cls.name = false := by simp [Pool.contains, hf]
    simp only [hc, Bool.false_eq_true, if_false] at k0
    obtain ⟨_, _, _, k1⟩ := bind_ok_inv k0
    obtain ⟨_, _, _, k2⟩ := bind_ok_inv k1
    obtain ⟨_, _, _, k3⟩ := bind_ok_inv k2
    obtain ⟨_, _, _, k4⟩ := bind_ok_inv k3
    obtain ⟨_, _, _, k5⟩ := bind_ok_inv k4
    obtain ⟨_, _, _, k6⟩ := bind_ok_inv k5
    obtain ⟨_, _, _, k7⟩ := bind_ok_inv k6
    obtain ⟨_, _, _, k8⟩ := bind_ok_inv k7
    obtain ⟨_, _, k9, k10⟩ := bind_ok_inv k8
    cases k10
    exact insertType_find k9

/-- C29: plain classes and enum classes share the type pool, keyed by the name
alone. After a successful `writePoolClass n` the name has a handle `h`, and
every later `writePoolEnumClass` of a class with the name `n` emits exactly
the reference `[0x03][h]` and changes no pool: no class kind byte, no
enumerator count, no enumerator strings. In the same way, after a successful
`writePoolEnumClass` of a class named `n`, every later `writePoolClass n`
emits exactly the reference to that entry. -/
theorem typePool_shared (n : CppString) (cls : PoolEnumClass) (w w1 v v1 : Writer)
    (hn : cls.name = n) (hc : writePoolClass n w = Res.ok () w1)
    (he : writePoolEnumClass cls v = Res.ok () v1) :
    (∃ h, w1.typePool.find n = some h ∧ ∀ w2 w3, Grows w1 w2 →
      writePoolEnumClass cls w2 = Res.ok () w3 →
      emitted w2 w3 = [3, h / 256 % 256, h % 256] ∧ w3.tables = w2.tables) ∧
    (∃ h, v1.typePool.find n = some h ∧ ∀ v2 v3, Grows v1 v2 →
      writePoolClass n v2 = Res.ok () v3 →
      emitted v2 v3 = [3, h / 256 % 256, h % 256] ∧ v3.tables = v2.tables) := by
  have hb : ∀ h : Nat, poolReference 3 h = [3, h / 256 % 256, h % 256] := by
    intro h
    simp only [poolReference, be16, ubyte, List.cons.injEq, true_and, and_true]
    constructor <;> omega
  constructor
  · obtain ⟨h, hf⟩ := writePoolClass_find hc
    refine ⟨h, hf, ?_⟩
    intro w2 w3 g hr
    have hf2 : w2.typePool.find cls.name = some h := by rw [hn]; exact g.typePool _ _ hf
    obtain ⟨e, t⟩ := writePoolEnumClass_reference hf2 hr
    exact ⟨by rw [emitted_of_append e, hb], t⟩
  · subst hn
    obtain ⟨h, hf⟩ := writePoolEnumClass_find he
    refine ⟨h, hf, ?_⟩
    intro v2 v3 g hr
    obtain ⟨e, t⟩ := writePoolClass_reference (g.typePool _ _ hf) hr
    exact ⟨by rw [emitted_of_append e, hb], t⟩

theorem typePool_shared_witness :
    (∃ h, (finalState (writePoolClass (str "InputEdgeType") Writer.new)).typePool.find
        (str "InputEdgeType") = some h ∧
      ∀ w2 w3, Grows (finalState (writePoolClass (str "InputEdgeType") Writer.new)) w2 →
        writePoolEnumClass InputEdgeType w2 = Res.ok () w3 →
        emitted w2 w3 = [3, h / 256 % 256, h % 256] ∧ w3.tables = w2.tables) ∧
    finalStream (writePoolClass (str "InputEdgeType")
      (finalState (writePoolEnumClass InputEdgeType Writer.new))) =
      finalStream (writePoolEnumClass InputEdgeType Writer.new) ++ [3, 0, 0] :=
  ⟨(typePool_shared (str "InputEdgeType") InputEdgeType Writer.new
    (finalState (writePoolClass (str "InputEdgeType") Writer.new)) Writer.new
    (finalState (writePoolEnumClass InputEdgeType Writer.new)) rfl
    (ok_finalState (by decide!)) (ok_finalState (by decide!))).1, by decide!⟩

/-- What holds of the bytes of every successful call holds of every entry of a
trace. -/
theorem callTrace_forall {κ : Type} {op : κ → M Unit} (P : κ → List Nat → Prop)
    (hP : ∀ k w w1, op k w = Res.ok () w1 → P k (emitted w w1))
    {ks : List κ} {w w1 : Writer} {ds : List (List Nat)}
    (h : callTrace op ks w = some (ds, w1)) :
    ∀ (i : Nat) (k : κ), ks[i]? = some k → ∃ d, ds[i]? = some d ∧ P k d := by
  induction ks generalizing w w1 ds with
  | nil => intro i k hk; simp at hk
  | cons q qs ih =>
    obtain ⟨w2, ds2, hq, hrest, hds⟩ := callTrace_cons_inv h
    subst hds
    intro i k hk
    cases i with
    | zero =>
      simp only [List.getElem?_cons_zero, Option.some.injEq] at hk
      subst hk
      exact ⟨emitted w w2, by simp, hP _ _ _ hq⟩
    | succ j =>
      simp only [List.getElem?_cons_succ] at hk ⊢
      exact ih hrest j k hk

theorem getNodeProperties_length (node : Node) : (getNodeProperties node).length ≤ 3 := by
  unfold getNodeProperties
  split <;> try simp
  split <;> try simp
  split <;> simp

/-- The bytes of a plain node record: the global index, the NodeClass entry,
the predecessor flag 0, the property block, one direct edge per child. -/
theorem writeNode_bytes (node : Node) (w w1 : Writer) (h : writeNode node w = Res.ok () w1) :
    ∃ (nc : List Nat) (t : Tables), emitted w w1 =
      be32 node.getGlobalIndex ++ nc ++ [0] ++ propertyBlock t (getNodeProperties node) ++
        edgeBytes (node.children.map (fun c => (c.getGlobalIndex : Int))) := by
  obtain ⟨w2, w3, w4, w5, h1, h2, h3, h4, e5, _⟩ := writeNode_record h
  obtain ⟨e1, _⟩ := writeInt32_ok h1
  obtain ⟨nc, e2⟩ := (steps_writePoolNodeClass _ _ _ w2 () w3 h2).stream
  obtain ⟨e3, _⟩ := writeInt8_ok h3
  have hl : (getNodeProperties node).length < 2 ^ 15 :=
    Nat.lt_of_le_of_lt (getNodeProperties_length node) (by decide)
  obtain ⟨e4, _⟩ := writeProperties_block _ _ _ hl h4
  refine ⟨nc, w4.tables, emitted_of_append ?_⟩
  rw [e5, e4, e3, e2, e1, be32_toInt32]
  simp [propertyBlock, ubyte, List.append_assoc]

/-- The bytes of a statement record: the global index, the NodeClass entry,
the predecessor flag, the property block, the direct edges. -/
theorem writeTreeTop_bytes (tt : TreeTop) (w w1 : Writer)
    (h : writeTreeTop tt w = Res.ok () w1) :
    ∃ (nc : List Nat) (t : Tables), emitted w w1 =
      be32 tt.node.getGlobalIndex ++ nc ++ [if tt.hasPrev then 1 else 0] ++
        propertyBlock t (getNodeProperties tt.node) ++ edgeBytes (treeTopEdges tt) := by
  obtain ⟨w2, w3, w4, w5, h1, h2, h3, h4, e5, _⟩ := writeTreeTop_record h
  obtain ⟨e1, _⟩ := writeInt32_ok h1
  obtain ⟨nc, e2⟩ := (steps_writePoolNodeClass _ _ _ w2 () w3 h2).stream
  obtain ⟨e3, _⟩ := writeInt8_ok h3
  have hl : (getNodeProperties tt.node).length < 2 ^ 15 :=
    Nat.lt_of_le_of_lt (getNodeProperties_length tt.node) (by decide)
  obtain ⟨e4, _⟩ := writeProperties_block _ _ _ hl h4
  refine ⟨nc, w4.tables, emitted_of_append ?_⟩
  rw [e5, e4, e3, e2, e1, be32_toInt32]
  cases tt.hasPrev <;> simp [propertyBlock, ubyte, List.append_assoc]

/-- C21: the snapshot of the one statement `x = 1 + 2` (store 0, addition 1,
constants 2 and 3) on a fresh session. The request succeeds; the node count
is 4; the body is the property block, the count `00 00 00 04`, one statement
record and three plain node records, and the zero block count; the records
are those of `istore`, `iadd`, `iconst`, `iconst` with the global indices 0,
1, 2, 3, each made of the index, the NodeClass entry, the predecessor flag,
the property block and the direct edges. The NodeClass keys of the session
are (istore, 1, 0), (iadd, 2, 0) and (iconst, 0, 0); the properties are
category `fixed` with the destination for the statement, `floating` for the
addition, and `floating` with the raw values `1` and `2` for the constants;
the direct edges are 1 for the statement, 2 and 3 for the addition and none
for the constants, each of them one of 0..3. -/
theorem snapshot_store_add :
    isOk (writeGraph sampleComp (str "t") sampleStoreAdd Writer.new) = true ∧
    countNodes sampleStoreAdd = 4 ∧
    (treeTopIterator sampleStoreAdd).map
      (fun tt => (tt.node.getOpCode.name, tt.node.getGlobalIndex)) = [(str "istore", 0)] ∧
    (plainNodes sampleStoreAdd).map (fun n => (n.getOpCode.name, n.getGlobalIndex)) =
      [(str "iadd", 1), (str "iconst", 2), (str "iconst", 3)] ∧
    (∃ (wA : Writer) (recsT recsN : List (List Nat)),
      stream (finalState (writeGraph sampleComp (str "t") sampleStoreAdd Writer.new)) =
        stream wA ++ [0, 0, 0, 4] ++ recsT.flatten ++ recsN.flatten ++ [0, 0, 0, 0] ∧
      recsT.length = 1 ∧ recsN.length = 3 ∧
      (∀ (i : Nat) (tt : TreeTop), (treeTopIterator sampleStoreAdd)[i]? = some tt →
        ∃ d, recsT[i]? = some d ∧ ∃ (nc : List Nat) (t : Tables), d =
          be32 tt.node.getGlobalIndex ++ nc ++ [if tt.hasPrev then 1 else 0] ++
            propertyBlock t (getNodeProperties tt.node) ++ edgeBytes (treeTopEdges tt)) ∧
      (∀ (i : Nat) (node : Node), (plainNodes sampleStoreAdd)[i]? = some node →
        ∃ d, recsN[i]? = some d ∧ ∃ (nc : List Nat) (t : Tables), d =
          be32 node.getGlobalIndex ++ nc ++ [0] ++
            propertyBlock t (getNodeProperties node) ++
            edgeBytes (node.children.map (fun c => (c.getGlobalIndex : Int))))) ∧
    (finalState (writeGraph sampleComp (str "t") sampleStoreAdd Writer.new)).nodeClassPool.map.map
      Prod.fst = [(str "istore", 1, 0), (str "iadd", 2, 0), (str "iconst", 0, 0)] ∧
    (treeTopIterator sampleStoreAdd).map (fun tt => getNodeProperties tt.node) =
      [[⟨str "category", str "fixed"⟩, ⟨str "destination", str "x"⟩]] ∧
    (plainNodes sampleStoreAdd).map getNodeProperties =
      [[⟨str "category", str "floating"⟩],
       [⟨str "category", str "floating"⟩, ⟨str "rawvalue", str "1"⟩,
        ⟨str "datatype", str "Int32"⟩],
       [⟨str "category", str "floating"⟩, ⟨str "rawvalue", str "2"⟩,
        ⟨str "datatype", str "Int32"⟩]] ∧
    (treeTopIterator sampleStoreAdd).map treeTopEdges = [[1]] ∧
    (plainNodes sampleStoreAdd).map
      (fun n => n.children.map (fun c => (c.getGlobalIndex : Int))) = [[2, 3], [], []] := by
  have hok : isOk (writeGraph sampleComp (str "t") sampleStoreAdd Writer.new) = true := by
    decide!
  refine ⟨hok, by decide!, by decide!, by decide!, ?_, by decide!, by decide!, by decide!,
    by decide!, by decide!⟩
  obtain ⟨w0, w2, _, _, _, hb⟩ := writeGraph_parts (ok_finalState hok)
  unfold writeGraphBody at hb
  obtain ⟨_, wA, h1, k1⟩ := bind_ok_inv hb
  obtain ⟨_, wB, h2, k2⟩ := bind_ok_inv k1
  obtain ⟨_, wC, h3, k3⟩ := bind_ok_inv k2
  obtain ⟨_, wD, h4, k4⟩ := bind_ok_inv k3
  obtain ⟨recsT, hT⟩ := forEach_callTrace h3
  obtain ⟨recsN, hN⟩ := forEach_callTrace h4
  obtain ⟨b1, _⟩ := writeInt32_ok k4
  obtain ⟨b2, _⟩ := writeInt32_ok h2
  have sT := callTrace_stream steps_writeTreeTop hT
  have sN := callTrace_stream steps_writeNode hN
  have hcount : countNodes sampleStoreAdd = 4 := by decide!
  refine ⟨wA, recsT, recsN, ?_, ?_, ?_, ?_, ?_⟩
  · rw [b1, sN, sT, b2, be32_toInt32, hcount]
    simp [be32, ubyte]
  · rw [callTrace_length _ hT]; decide!
  · rw [callTrace_length _ hN]; decide!
  · exact callTrace_forall (fun (tt : TreeTop) d => ∃ (nc : List Nat) (t : Tables), d =
      be32 tt.node.getGlobalIndex ++ nc ++ [if tt.hasPrev then 1 else 0] ++
        propertyBlock t (getNodeProperties tt.node) ++ edgeBytes (treeTopEdges tt))
      writeTreeTop_bytes hT
  · exact callTrace_forall (fun (node : Node) d => ∃ (nc : List Nat) (t : Tables), d =
      be32 node.getGlobalIndex ++ nc ++ [0] ++ propertyBlock t (getNodeProperties node) ++
        edgeBytes (node.children.map (fun c => (c.getGlobalIndex : Int))))
      writeNode_bytes hN

namespace XMLGraphWriter

theorem findIn_nil (s : CppString) (i : Nat) : findIn [] s i = some i := by
  cases s <;> simp [findIn]

/-- With the empty target the loop of `replace` does not end. -/
theorem replaceLoop_empty_target (replacement : CppString) (fuel : Nat) :
    ∀ (string : CppString) (index : Nat), index ≤ string.length →
      replaceLoop [] replacement fuel string index = none := by
  induction fuel with
  | zero => intro string index _; rfl
  | succ fuel ih =>
    intro string index hle
    have hf : find string [] index = some index := by
      unfold find
      rw [if_pos hle, findIn_nil]
    unfold replaceLoop
    rw [hf]
    apply ih
    simp only [stringReplace, List.length_append, List.length_take, List.length_drop]
    omega

/-- C30 (the code at the failing input): `sanitizeXML` of `a<bcd>e`. The first
`replace` turns the string into `a&lt;>e`: the four characters `<bcd` give
way to `&lt;`, since the count passed to `string.replace` is the size of the
replacement and not the size of the target. The second turns it into
`a&lt;&gt;`, so the characters `b`, `c`, `d` and `e` of the input are lost.
And with the empty target and a non-empty replacement the loop of `replace`
does not end, whatever the number of iterations allowed. -/
theorem sanitizeXML_loses_characters :
    replace 10 (str "a<bcd>e") (str "<") (str "&lt;") = some (str "a&lt;>e") ∧
    sanitizeXML 10 (str "a<bcd>e") = some (str "a&lt;&gt;") ∧
    (∀ fuel : Nat, replace fuel (str "ab") [] (str "x") = none) := by
  refine ⟨by decide!, by decide!, ?_⟩
  intro fuel
  exact replaceLoop_empty_target _ fuel _ 0 (Nat.zero_le _)

end XMLGraphWriter

theorem stringEntry_known {t : Tables} {s : CppString}
    (h : (t.stringPool.find s).isSome = true) : stringEntry t s = (stringRef t s, t) := by
  unfold stringEntry stringRef
  cases hf : t.stringPool.find s with
  | none => rw [hf] at h; cases h
  | some hd => rfl

theorem propertyEntries_known {t : Tables} {ps : List StringProperty}
    (h : PropertiesKnown t ps) :
    propertyEntries t ps =
      ((ps.map (fun p => stringRef t p.key ++ 0 :: stringRef t p.value)).flatten, t) := by
  induction ps with
  | nil => rfl
  | cons p ps ih =>
    have hp := h p (List.mem_cons_self _ _)
    have hrest : PropertiesKnown t ps := fun q hq => h q (List.mem_cons_of_mem _ hq)
    simp only [propertyEntries, stringEntry_known hp.1, stringEntry_known hp.2, ih hrest]
    simp

/-- A property block whose strings are all in the pool is a block of
references, and changes no pool. -/
theorem writeProperties_known {ps : List StringProperty} {w w1 : Writer}
    (hn : ps.length < 2 ^ 15) (hk : PropertiesKnown w.tables ps)
    (h : writeProperties ps w = Res.ok () w1) :
    stream w1 = stream w ++ propertyRefs w.tables ps ∧ w1.tables = w.tables := by
  obtain ⟨e, t⟩ := writeProperties_block ps w w1 hn h
  rw [propertyEntries_known hk] at e t
  exact ⟨e, t⟩

theorem getNodeProperties_small (node : Node) : (getNodeProperties node).length < 2 ^ 15 :=
  Nat.lt_of_le_of_lt (getNodeProperties_length node) (by decide)

/-- A statement record whose keys are all in the pools is a record of
references, and changes no pool. -/
theorem writeTreeTop_known {tt : TreeTop} {w w1 : Writer}
    (hk : TreeTopKnown w.tables tt) (h : writeTreeTop tt w = Res.ok () w1) :
    stream w1 = stream w ++ treeTopRefRecord w.tables tt ∧ w1.tables = w.tables := by
  obtain ⟨w2, w3, w4, w5, h1, h2, h3, h4, e5, t5, _⟩ := writeTreeTop_record h
  obtain ⟨e1, t1⟩ := writeInt32_ok h1
  obtain ⟨hd, hf⟩ := Option.isSome_iff_exists.mp hk.1
  have hf2 : w2.nodeClassPool.find (tt.node.getOpCode.name,
      toInt32 (getInputEdgeInfo tt.node).length, toInt32 (getOutputEdgeInfo tt).length) =
      some hd := by
    rw [tables_nodeClassPool t1]; exact hf
  obtain ⟨e2, t2⟩ := writePoolNodeClass_reference hf2 h2
  obtain ⟨e3, t3⟩ := writeInt8_ok h3
  have t4 : w4.tables = w.tables := by rw [t3, t2, t1]
  have hk4 : PropertiesKnown w4.tables (getNodeProperties tt.node) := by rw [t4]; exact hk.2
  obtain ⟨e4, t4'⟩ := writeProperties_known (getNodeProperties_small _) hk4 h4
  refine ⟨?_, by rw [t5, t4', t4]⟩
  rw [e5, e4, e3, e2, e1, be32_toInt32, t4]
  have hr : nodeClassRef w.tables (treeTopKey tt) = poolReference 6 hd := by
    unfold nodeClassRef
    rw [show w.tables.nodeClassPool.find (treeTopKey tt) = some hd from hf]
    rfl
  unfold treeTopRefRecord
  rw [hr]
  cases tt.hasPrev <;> simp [ubyte, List.append_assoc]

/-- A plain node record whose keys are all in the pools is a record of
references, and changes no pool. -/
theorem writeNode_known {node : Node} {w w1 : Writer}
    (hk : NodeKnown w.tables node) (h : writeNode node w = Res.ok () w1) :
    stream w1 = stream w ++ nodeRefRecord w.tables node ∧ w1.tables = w.tables := by
  obtain ⟨w2, w3, w4, w5, h1, h2, h3, h4, e5, t5⟩ := writeNode_record h
  obtain ⟨e1, t1⟩ := writeInt32_ok h1
  obtain ⟨hd, hf⟩ := Option.isSome_iff_exists.mp hk.1
  have hf2 : w2.nodeClassPool.find (node.getOpCode.name,
      toInt32 (getInputEdgeInfo node).length, toInt32 ([] : List OutputEdgeInfo).length) =
      some hd := by
    rw [tables_nodeClassPool t1]; exact hf
  obtain ⟨e2, t2⟩ := writePoolNodeClass_reference hf2 h2
  obtain ⟨e3, t3⟩ := writeInt8_ok h3
  have t4 : w4.tables = w.tables := by rw [t3, t2, t1]
  have hk4 : PropertiesKnown w4.tables (getNodeProperties node) := by rw [t4]; exact hk.2
  obtain ⟨e4, t4'⟩ := writeProperties_known (getNodeProperties_small _) hk4 h4
  refine ⟨?_, by rw [t5, t4', t4]⟩
  rw [e5, e4, e3, e2, e1, be32_toInt32, t4]
  have hr : nodeClassRef w.tables (nodeKey node) = poolReference 6 hd := by
    unfold nodeClassRef
    rw [show w.tables.nodeClassPool.find (nodeKey node) = some hd from hf]
    rfl
  unfold nodeRefRecord
  rw [hr]
  simp [ubyte, List.append_assoc]

/-- A loop whose every call appends bytes that depend on the tables only and
leaves the tables as they are. -/
theorem forEach_known {α : Type} {body : α → M Unit} {R : α → List Nat} {t : Tables}
    {xs : List α}
    (hb : ∀ x ∈ xs, ∀ w w1, w.tables = t → body x w = Res.ok () w1 →
      stream w1 = stream w ++ R x ∧ w1.tables = t)
    {w w1 : Writer} (ht : w.tables = t) (h : forEach xs body w = Res.ok () w1) :
    stream w1 = stream w ++ (xs.map R).flatten ∧ w1.tables = t := by
  induction xs generalizing w with
  | nil => rw [forEach_nil, pure_apply] at h; cases h; simp [ht]
  | cons x xs ih =>
    rw [forEach_cons] at h
    obtain ⟨_, w2, h1, h2⟩ := bind_ok_inv h
    obtain ⟨e1, t1⟩ := hb x (List.mem_cons_self _ _) w w2 ht h1
    obtain ⟨e2, t2⟩ := ih (fun y hy => hb y (List.mem_cons_of_mem _ hy)) t1 h2
    exact ⟨by rw [e2, e1]; simp, t2⟩

/-- A graph body whose keys are all in the pools is a body of references, and
changes no pool. -/
theorem writeGraphBody_known {name : CppString} {methodSymbol : ResolvedMethodSymbol}
    {w w1 : Writer} (hk : BodyKnown w.tables name methodSymbol)
    (h : writeGraphBody name methodSymbol w = Res.ok () w1) :
    stream w1 = stream w ++ bodyRefs w.tables name methodSymbol ∧ w1.tables = w.tables := by
  unfold writeGraphBody at h
  obtain ⟨_, wA, h1, k1⟩ := bind_ok_inv h
  obtain ⟨_, wB, h2, k2⟩ := bind_ok_inv k1
  obtain ⟨_, wC, h3, k3⟩ := bind_ok_inv k2
  obtain ⟨_, wD, h4, k4⟩ := bind_ok_inv k3
  obtain ⟨e1, t1⟩ := writeProperties_known (by simp) hk.1 h1
  obtain ⟨e2, t2⟩ := writeInt32_ok h2
  have tB : wB.tables = w.tables := by rw [t2, t1]
  obtain ⟨e3, t3⟩ := forEach_known (R := treeTopRefRecord w.tables) (t := w.tables)
    (fun tt htt v v1 hv hr => by
      have := writeTreeTop_known (by rw [hv]; exact hk.2.1 tt htt) hr
      rw [hv] at this; exact this) tB h3
  obtain ⟨e4, t4⟩ := forEach_known (R := nodeRefRecord w.tables) (t := w.tables)
    (fun n hn v v1 hv hr => by
      have := writeNode_known (by rw [hv]; exact hk.2.2 n hn) hr
      rw [hv] at this; exact this) t3 h4
  obtain ⟨e5, t5⟩ := writeInt32_ok k4
  refine ⟨?_, by rw [t5, t4]⟩
  rw [e5, e4, e3, e2, e1, be32_toInt32]
  simp [bodyRefs, plainNodes, be32, ubyte, List.append_assoc]

theorem find_isSome_mono {T : Type} [DecidableEq T] {p q : Pool T} {k : T}
    (hle : Pool.le p q) (h : (p.find k).isSome = true) : (q.find k).isSome = true := by
  obtain ⟨hd, hf⟩ := Option.isSome_iff_exists.mp h
  rw [hle k hd hf]; rfl

theorem propertiesKnown_mono {w w1 : Writer} {ps : List StringProperty} (g : Grows w w1)
    (h : PropertiesKnown w.tables ps) : PropertiesKnown w1.tables ps :=
  fun p hp => ⟨find_isSome_mono g.stringPool (h p hp).1, find_isSome_mono g.stringPool (h p hp).2⟩

theorem treeTopKnown_mono {w w1 : Writer} {tt : TreeTop} (g : Grows w w1)
    (h : TreeTopKnown w.tables tt) : TreeTopKnown w1.tables tt :=
  ⟨find_isSome_mono g.nodeClassPool h.1, propertiesKnown_mono g h.2⟩

theorem nodeKnown_mono {w w1 : Writer} {node : Node} (g : Grows w w1)
    (h : NodeKnown w.tables node) : NodeKnown w1.tables node :=
  ⟨find_isSome_mono g.nodeClassPool h.1, propertiesKnown_mono g h.2⟩

/-- What every call of a loop establishes, and later calls keep, holds of
every element at the end of the loop. -/
theorem forEach_post {α : Type} {body : α → M Unit} (P : α → Writer → Prop)
    (hpost : ∀ x w w1, body x w = Res.ok () w1 → P x w1)
    (hsteps : ∀ x, Steps (body x))
    (hmono : ∀ x w w1, P x w → Grows w w1 → P x w1)
    {xs : List α} {w w1 : Writer} (h : forEach xs body w = Res.ok () w1) :
    ∀ x ∈ xs, P x w1 := by
  induction xs generalizing w with
  | nil => intro x hx; cases hx
  | cons y ys ih =>
    rw [forEach_cons] at h
    obtain ⟨_, w2, h1, h2⟩ := bind_ok_inv h
    intro x hx
    rcases List.mem_cons.mp hx with rfl | hx
    · exact hmono _ _ _ (hpost _ _ _ h1) (steps_forEach ys hsteps _ _ _ h2)
    · exact ih h2 x hx

theorem writeStringProperty_post {p : StringProperty} {w w1 : Writer}
    (h : writeStringProperty p w = Res.ok () w1) :
    (w1.tables.stringPool.find p.key).isSome = true ∧
    (w1.tables.stringPool.find p.value).isSome = true := by
  obtain ⟨_, t⟩ := writeStringProperty_ok h
  rw [t]
  constructor
  · rw [stringEntry_find, stringEntry_find]
    cases w.tables.stringPool.find p.key with
    | some hd => rfl
    | none => simp
  · rw [stringEntry_find]
    cases (stringEntry w.tables p.key).2.stringPool.find p.value with
    | some hd => rfl
    | none => simp

/-- After a successful property block every key and value is in the String
pool. -/
theorem writeProperties_post {ps : List StringProperty} {w w1 : Writer}
    (h : writeProperties ps w = Res.ok () w1) : PropertiesKnown w1.tables ps := by
  unfold writeProperties at h
  obtain ⟨_, w2, _, h2⟩ := bind_ok_inv h
  exact forEach_post
    (fun p v => (v.tables.stringPool.find p.key).isSome = true ∧
      (v.tables.stringPool.find p.value).isSome = true)
    (fun p v v1 hv => writeStringProperty_post hv) steps_writeStringProperty
    (fun p v v1 hp g => @propertiesKnown_mono v v1 [p] g
      (fun q hq => by rw [List.mem_singleton.mp hq]; exact hp) p (List.mem_singleton.mpr rfl))
    h2

/-- After a successful statement record its keys are in the pools. -/
theorem writeTreeTop_post {tt : TreeTop} {w w1 : Writer}
    (h : writeTreeTop tt w = Res.ok () w1) : TreeTopKnown w1.tables tt := by
  obtain ⟨w2, w3, w4, w5, _, h2, h3, h4, _, t5, _⟩ := writeTreeTop_record h
  obtain ⟨hd, hfind, _⟩ := writePoolNodeClass_entry h2
  obtain ⟨_, t3⟩ := writeInt8_ok h3
  have g5 : Grows w4 w5 := steps_writeProperties _ _ _ _ h4
  rw [t5]
  refine ⟨?_, writeProperties_post h4⟩
  apply find_isSome_mono g5.nodeClassPool
  rw [tables_nodeClassPool t3]
  exact Option.isSome_iff_exists.mpr ⟨hd, hfind⟩

/-- After a successful plain node record its keys are in the pools. -/
theorem writeNode_post {node : Node} {w w1 : Writer}
    (h : writeNode node w = Res.ok () w1) : NodeKnown w1.tables node := by
  obtain ⟨w2, w3, w4, w5, _, h2, h3, h4, _, t5⟩ := writeNode_record h
  obtain ⟨hd, hfind, _⟩ := writePoolNodeClass_entry h2
  obtain ⟨_, t3⟩ := writeInt8_ok h3
  have g5 : Grows w4 w5 := steps_writeProperties _ _ _ _ h4
  rw [t5]
  refine ⟨?_, writeProperties_post h4⟩
  apply find_isSome_mono g5.nodeClassPool
  rw [tables_nodeClassPool t3]
  exact Option.isSome_iff_exists.mpr ⟨hd, hfind⟩

/-- After a successful graph body all its keys are in the pools. -/
theorem writeGraphBody_post {name : CppString} {methodSymbol : ResolvedMethodSymbol}
    {w w1 : Writer} (h : writeGraphBody name methodSymbol w = Res.ok () w1) :
    BodyKnown w1.tables name methodSymbol := by
  unfold writeGraphBody at h
  obtain ⟨_, wA, h1, k1⟩ := bind_ok_inv h
  obtain ⟨_, wB, h2, k2⟩ := bind_ok_inv k1
  obtain ⟨_, wC, h3, k3⟩ := bind_ok_inv k2
  obtain ⟨_, wD, h4, k4⟩ := bind_ok_inv k3
  have gB : Grows wA wB := steps_writeInt32 _ _ _ _ h2
  have gC : Grows wB wC := steps_forEach _ steps_writeTreeTop _ _ _ h3
  have gD : Grows wC wD := steps_forEach _ steps_writeNode _ _ _ h4
  have g1 : Grows wD w1 := steps_writeInt32 _ _ _ _ k4
  refine ⟨?_, ?_, ?_⟩
  · exact propertiesKnown_mono (grows_trans (grows_trans (grows_trans gB gC) gD) g1)
      (writeProperties_post h1)
  · intro tt htt
    exact treeTopKnown_mono (grows_trans gD g1)
      (forEach_post (fun tt v => TreeTopKnown v.tables tt) (fun _ _ _ hv => writeTreeTop_post hv)
        steps_writeTreeTop (fun _ _ _ hp g => treeTopKnown_mono g hp) h3 tt htt)
  · intro n hn
    exact nodeKnown_mono g1
      (forEach_post (fun n v => NodeKnown v.tables n) (fun _ _ _ hv => writeNode_post hv)
        steps_writeNode (fun _ _ _ hp g => nodeKnown_mono g hp) h4 n hn)

/-- C19: when a snapshot request that succeeded is issued again on the
session (same title, same IR) and succeeds, the second request defines
nothing: no pool and no handle counter changes, and its bytes are the
begin-graph byte, the graph id, the title, the zero argument count and a
body in which every String entry is the 3-byte reference `[0x01][handle]` and
every NodeClass entry is the 3-byte reference `[0x06][handle]`, the handles
being those the keys have in the pools after the first request (no Class or
Enum-value entry is written at all, as they occur inside NodeClass
definitions only). -/
theorem second_snapshot_references (comp : Compilation) (title : CppString)
    (symbol : ResolvedMethodSymbol) (w w1 w2 : Writer)
    (hlen : (cstr title).length < 2 ^ 31)
    (h1 : writeGraph comp title symbol w = Res.ok () w1)
    (h2 : writeGraph comp title symbol w1 = Res.ok () w2) :
    w2.tables = w1.tables ∧
    BodyKnown w1.tables (cstr title) symbol ∧
    emitted w1 w2 = [1] ++ be32 comp.optIndex ++ lengthPrefixed (cstr title) ++ [0, 0, 0, 0] ++
      bodyRefs w1.tables (cstr title) symbol := by
  obtain ⟨_, _, _, _, _, hb1⟩ := writeGraph_parts h1
  have hk : BodyKnown w1.tables (cstr title) symbol := writeGraphBody_post hb1
  obtain ⟨w0, v2, h0, e2, t2, hb2⟩ := writeGraph_parts h2
  rw [initializeWriter_skip comp symbol w1 (writeGraph_initialized h1)] at h0
  cases h0
  obtain ⟨e3, t3⟩ := writeGraphBody_known (by rw [t2]; exact hk) hb2
  rw [t2] at e3 t3
  refine ⟨t3, hk, emitted_of_append ?_⟩
  rw [e3, e2, show stringPayload (cstr title) = lengthPrefixed (cstr title) from
    map_ubyte_bytesString hlen]
  simp only [List.append_assoc]

theorem second_snapshot_references_witness :
    (finalState (writeGraph sampleComp (str "t") sampleGraph
      (finalState (writeGraph sampleComp (str "t") sampleGraph Writer.new)))).tables =
      (finalState (writeGraph sampleComp (str "t") sampleGraph Writer.new)).tables ∧
    emitted (finalState (writeGraph sampleComp (str "t") sampleGraph Writer.new))
      (finalState (writeGraph sampleComp (str "t") sampleGraph
        (finalState (writeGraph sampleComp (str "t") sampleGraph Writer.new)))) =
      [1] ++ be32 sampleComp.optIndex ++ lengthPrefixed (cstr (str "t")) ++ [0, 0, 0, 0] ++
        bodyRefs (finalState (writeGraph sampleComp (str "t") sampleGraph Writer.new)).tables
          (cstr (str "t")) sampleGraph :=
  have h := second_snapshot_references sampleComp (str "t") sampleGraph Writer.new
    (finalState (writeGraph sampleComp (str "t") sampleGraph Writer.new))
    (finalState (writeGraph sampleComp (str "t") sampleGraph
      (finalState (writeGraph sampleComp (str "t") sampleGraph Writer.new))))
    (by decide) (ok_finalState (by decide!)) (ok_finalState (by decide!))
  ⟨h.1, h.2.2⟩

/-- The handle counter after the run of `samplePoolOps`: seven define records
(the string, the node class, its class, the name of its input edge, the enum
value of the edge type, its enum class, and the enumerator name). -/
theorem samplePoolOps_counter :
    (finalState (forEach samplePoolOps PoolOp.run Writer.new)).poolId = 7 := by
  decide!

/-- C15 (counterexample): a byte store `bstore` of the symbol `x` gets the
single property `category = fixed` and a byte load `bload` the single
property `category = floating`: neither has a `destination`, since the switch
names the stores and loads of the types a, i, f, l, d only. -/
theorem getNodeProperties_byte_store_load :
    (getNodeProperties sampleByteStore = [⟨str "category", str "fixed"⟩] ∧
      getNodeProperties sampleByteStore ≠
        [⟨str "category", str "fixed"⟩,
         ⟨str "destination", sampleByteStore.getSymbolName⟩]) ∧
    (getNodeProperties sampleByteLoad = [⟨str "category", str "floating"⟩] ∧
      getNodeProperties sampleByteLoad ≠
        [⟨str "category", str "floating"⟩,
         ⟨str "destination", sampleByteLoad.getSymbolName⟩]) := by
  decide

theorem handleSeq_self (c k : Nat) : handleSeq c k k = [] := by
  simp [handleSeq]

theorem handleSeq_cons (c k n : Nat) (h : k < n) :
    handleSeq c k n = (c + k) % 65536 :: handleSeq c (k + 1) n := by
  unfold handleSeq
  have : n - k = (n - (k + 1)) + 1 := by omega
  rw [this, List.range'_succ]
  rfl

theorem handleSeq_append (c : Nat) {k n m : Nat} (h1 : k ≤ n) (h2 : n ≤ m) :
    handleSeq c k n ++ handleSeq c n m = handleSeq c k m := by
  unfold handleSeq
  rw [← List.map_append]
  congr 1
  have e1 : n = k + 1 * (n - k) := by omega
  have e2 : m - k = (m - n) + (n - k) := by omega
  rw [e2]
  nth_rewrite 2 [e1]
  exact List.range'_append k (n - k) (m - n) 1

theorem handleSeq_length (c k n : Nat) : (handleSeq c k n).length = n - k := by
  simp [handleSeq]

theorem handleSeq_zero (c n : Nat) :
    handleSeq c 0 n = (List.range n).map (fun j => (c + j) % 65536) := by
  simp [handleSeq, List.range_eq_range']

theorem PoolEntry.tag_ne_zero (e : PoolEntry) : e.tag ≠ 0 := by
  cases e <;> simp only [PoolEntry.tag] <;> decide

theorem be16_inj {h h2 : Nat} (a : h < 65536) (b : h2 < 65536)
    (e : be16 (h : Int) = be16 (h2 : Int)) : h = h2 := by
  unfold be16 ubyte at e
  simp only [List.cons.injEq, and_true] at e
  omega

theorem reads_nil_inv {bs hs : List Nat} (h : Reads [] bs hs) : bs = [] ∧ hs = [] := by
  cases h
  exact ⟨rfl, rfl⟩

theorem reads_scalar_inv {bytes : List Nat} {rest : List Field} {B H : List Nat}
    (h : Reads (Field.scalar bytes :: rest) B H) : ∃ bs, B = bytes ++ bs ∧ Reads rest bs H := by
  cases h with
  | scalar _ _ bs _ r => exact ⟨bs, rfl, r⟩

theorem reads_entry_inv {e : PoolEntry} {rest : List Field} {B H : List Nat}
    (h : Reads (Field.entry e :: rest) B H) :
    (∃ (x : Int) (bs : List Nat), B = poolReference e.tag x ++ bs ∧ Reads rest bs H) ∨
    (∃ (x : Nat) (bs hs : List Nat), x < 65536 ∧ B = 0 :: (be16 (x : Int) ++ e.tag :: bs) ∧
      H = x :: hs ∧ Reads (e.payload ++ rest) bs hs) := by
  cases h with
  | reference _ x _ bs _ r => exact Or.inl ⟨x, bs, rfl, r⟩
  | define _ x _ bs hs hx r => exact Or.inr ⟨x, bs, hs, hx, rfl, rfl, r⟩

/-- The handles of the define records are determined by the bytes. -/
theorem reads_unique {fs : List Field} {bs hs : List Nat} (h : Reads fs bs hs) :
    ∀ hs2, Reads fs bs hs2 → hs2 = hs := by
  induction h with
  | done =>
    intro hs2 h2
    exact (reads_nil_inv h2).2
  | scalar bytes rest bs hs _ ih =>
    intro hs2 h2
    obtain ⟨bs2, e, r⟩ := reads_scalar_inv h2
    have := List.append_cancel_left e
    subst this
    exact ih hs2 r
  | reference e x rest bs hs _ ih =>
    intro hs2 h2
    rcases reads_entry_inv h2 with ⟨x2, bs2, eq, r⟩ | ⟨x2, bs2, hs3, _, eq, _, _⟩
    · simp only [poolReference, be16, List.cons_append, List.nil_append, List.cons.injEq,
        true_and] at eq
      obtain ⟨_, _, eq⟩ := eq
      subst eq
      exact ih hs2 r
    · simp only [poolReference, List.cons_append, List.cons.injEq] at eq
      exact absurd eq.1 (PoolEntry.tag_ne_zero e)
  | define e x rest bs hs hx _ ih =>
    intro hs2 h2
    rcases reads_entry_inv h2 with ⟨x2, bs2, eq, r⟩ | ⟨x2, bs2, hs3, hx2, eq, eH, r⟩
    · simp only [poolReference, List.cons_append, List.cons.injEq] at eq
      exact absurd eq.1.symm (PoolEntry.tag_ne_zero e)
    · have e1 : be16 (x : Int) = be16 (x2 : Int) ∧ bs = bs2 := by
        simp only [be16, List.cons_append, List.nil_append, List.cons.injEq, true_and] at eq
        obtain ⟨a, b, c⟩ := eq
        exact ⟨by simp only [be16, a, b], c⟩
      obtain ⟨e2, e3⟩ := e1
      have := be16_inj hx hx2 e2
      subst this
      subst e3
      rw [eH, ih hs3 r]


theorem emits_congr {α : Type} {m : M α} {f1 f2 : List Field} (h : Emits m f1)
    (e : f1 = f2) : Emits m f2 := e ▸ h

/-- A step that writes nothing and leaves the counter. -/
theorem emits_silent {α : Type} {m : M α}
    (hm : ∀ w a w1, m w = Res.ok a w1 → stream w1 = stream w ∧ w1.poolId = w.poolId) :
    Emits m [] := by
  intro c0 k w a w1 hk h
  obtain ⟨e, p⟩ := hm w a w1 h
  refine ⟨[], k, Nat.le_refl k, by rw [e, List.append_nil], by rw [p, hk], ?_⟩
  intro rest bs2 hs2 r
  simpa [handleSeq_self] using r

/-- One call of the scalar encoder. -/
theorem emits_scalar {α : Type} {m : M α} {bytes : List Nat}
    (hm : ∀ w a w1, m w = Res.ok a w1 → stream w1 = stream w ++ bytes ∧ w1.tables = w.tables) :
    Emits m [Field.scalar bytes] := by
  intro c0 k w a w1 hk h
  obtain ⟨e, t⟩ := hm w a w1 h
  have p : w1.poolId = w.poolId := congrArg Tables.poolId t
  refine ⟨bytes, k, Nat.le_refl k, e, by rw [p, hk], ?_⟩
  intro rest bs2 hs2 r
  have := Reads.scalar bytes rest bs2 hs2 r
  simpa [handleSeq_self] using this

theorem emits_bind {α β : Type} {m : M α} {f : α → M β} {f1 f2 : List Field}
    (hm : Emits m f1) (hf : ∀ a, Emits (f a) f2) : Emits (m >>= f) (f1 ++ f2) := by
  intro c0 k w b w2 hk h
  obtain ⟨a, w1, h1, h2⟩ := bind_ok_inv h
  obtain ⟨bs1, n1, l1, e1, p1, r1⟩ := hm c0 k w a w1 hk h1
  obtain ⟨bs2, n2, l2, e2, p2, r2⟩ := hf a c0 n1 w1 b w2 p1 h2
  refine ⟨bs1 ++ bs2, n2, Nat.le_trans l1 l2, by rw [e2, e1, List.append_assoc], p2, ?_⟩
  intro rest bs3 hs3 r
  have := r1 (f2 ++ rest) (bs2 ++ bs3) (handleSeq c0 n1 n2 ++ hs3) (r2 rest bs3 hs3 r)
  rw [← List.append_assoc, ← List.append_assoc, ← List.append_assoc, handleSeq_append c0 l1 l2]
    at this
  exact this

theorem emits_pure {α : Type} (a : α) : Emits (pure a : M α) [] :=
  emits_silent (fun _ _ _ h => by cases h; exact ⟨rfl, rfl⟩)

/-- A silent step followed by a continuation. -/
theorem emits_then {α β : Type} {m : M α} {f : α → M β} {fs : List Field}
    (hm : Emits m []) (hf : ∀ a, Emits (f a) fs) : Emits (m >>= f) fs :=
  emits_bind hm hf

/-- A step followed by a silent end. -/
theorem emits_last {α β : Type} {m : M α} {f : α → M β} {fs : List Field}
    (hm : Emits m fs) (hf : ∀ a, Emits (f a) []) : Emits (m >>= f) fs :=
  emits_congr (emits_bind hm hf) (List.append_nil fs)

/-- A scalar or entry followed by a continuation. -/
theorem emits_cons {α β : Type} {m : M α} {f : α → M β} {x : Field} {fs : List Field}
    (hm : Emits m [x]) (hf : ∀ a, Emits (f a) fs) : Emits (m >>= f) (x :: fs) :=
  emits_bind hm hf

theorem emits_forEach {α : Type} (xs : List α) {body : α → M Unit} (g : α → List Field)
    (hb : ∀ x, Emits (body x) (g x)) : Emits (forEach xs body) (xs.map g).flatten := by
  induction xs with
  | nil => exact emits_pure ()
  | cons x xs ih =>
    rw [forEach_cons]
    exact emits_congr (emits_bind (hb x) (fun _ => ih)) (by simp)

theorem emits_forEach_one {α : Type} (xs : List α) {body : α → M Unit} (g : α → Field)
    (hb : ∀ x, Emits (body x) [g x]) : Emits (forEach xs body) (xs.map g) := by
  induction xs with
  | nil => exact emits_pure ()
  | cons x xs ih =>
    rw [forEach_cons]
    exact emits_cons (hb x) (fun _ => ih)

theorem emits_ite {α : Type} {c : Prop} [Decidable c] {a b : M α} {fs : List Field}
    (ha : Emits a fs) (hb : Emits b fs) : Emits (if c then a else b) fs := by
  split
  · exact ha
  · exact hb

theorem emits_getWriter : Emits getWriter [] :=
  emits_silent (fun _ _ _ h => by cases h; exact ⟨rfl, rfl⟩)

theorem emits_poolLookup {T : Type} [DecidableEq T] (p : Pool T) (k : T) :
    Emits (poolLookup p k) [] :=
  emits_silent (fun _ _ _ h => by rw [(poolLookup_ok h).2]; exact ⟨rfl, rfl⟩)

theorem emits_writeInt8 (b : Int) : Emits (writeInt8 b) [Field.scalar [ubyte b]] :=
  emits_scalar (fun _ _ _ h => writeInt8_ok h)

theorem emits_writeInt16 (n : Int) : Emits (writeInt16 n) [Field.scalar (be16 n)] :=
  emits_scalar (fun _ _ _ h => writeInt16_ok h)

theorem emits_writeInt32 (n : Int) : Emits (writeInt32 n) [Field.scalar (be32 n)] :=
  emits_scalar (fun _ _ _ h => writeInt32_ok h)

theorem emits_writeString (s : CppString) :
    Emits (writeString s) [Field.scalar (stringPayload s)] :=
  emits_scalar (fun _ _ _ h => writeString_ok h)

theorem emits_insertType (k : CppString) (id : Nat) : Emits (insertType k id) [] :=
  emits_silent (fun _ _ _ h => by cases h; exact ⟨by simp [stream], rfl⟩)

theorem emits_insertSignature (k : CppString) (id : Nat) : Emits (insertSignature k id) [] :=
  emits_silent (fun _ _ _ h => by cases h; exact ⟨by simp [stream], rfl⟩)

theorem emits_insertEnumValue (k : CppString × Int) (id : Nat) :
    Emits (insertEnumValue k id) [] :=
  emits_silent (fun _ _ _ h => by cases h; exact ⟨by simp [stream], rfl⟩)

/-- The referencing branch of a pool operation: `[tag][handle]`. -/
theorem emits_lookupReference {T : Type} [DecidableEq T] (e : PoolEntry)
    (pool : Writer → Pool T) (key : T) (tag : Int) (htag : ubyte tag = e.tag) :
    Emits (getWriter >>= fun v => poolLookup (pool v) key >>= fun id =>
      writePoolReference tag id) [Field.entry e] := by
  intro c0 k w a w1 hk h
  obtain ⟨v, w2, h1, k1⟩ := bind_ok_inv h
  obtain ⟨rfl, rfl⟩ := getWriter_ok h1
  obtain ⟨id, w3, h2, k2⟩ := bind_ok_inv k1
  obtain ⟨_, rfl⟩ := poolLookup_ok h2
  obtain ⟨e1, t1⟩ := writePoolReference_ok k2
  have p : w1.poolId = w3.poolId := congrArg Tables.poolId t1
  refine ⟨poolReference e.tag id, k, Nat.le_refl k, by rw [e1, htag]; rfl, by rw [p, hk], ?_⟩
  intro rest bs2 hs2 r
  have := Reads.reference e id rest bs2 hs2 r
  simpa [handleSeq_self] using this

/-- The head of a define record: the handle is drawn, then `[0x00][handle][tag]`
is written, then the payload. -/
theorem emits_define {α : Type} (e : PoolEntry) (tag : Int) (htag : ubyte tag = e.tag)
    (rest : Nat → M α) (hrest : ∀ id, Emits (rest id) e.payload) :
    Emits (getNextPoolId >>= fun id => writeInt8 POOL_NEW >>= fun _ =>
      writeInt16 (toInt16 id) >>= fun _ => writeInt8 tag >>= fun _ => rest id)
      [Field.entry e] := by
  intro c0 k w a w1 hk h
  obtain ⟨id, v1, h1, k1⟩ := bind_ok_inv h
  obtain ⟨_, v2, h2, k2⟩ := bind_ok_inv k1
  obtain ⟨_, v3, h3, k3⟩ := bind_ok_inv k2
  obtain ⟨_, v4, h4, k4⟩ := bind_ok_inv k3
  obtain ⟨hid, e1, t1⟩ := getNextPoolId_ok h1
  obtain ⟨e2, t2⟩ := writeInt8_ok h2
  obtain ⟨e3, t3⟩ := writeInt16_ok h3
  obtain ⟨e4, t4⟩ := writeInt8_ok h4
  have hp : v4.poolId = (c0 + (k + 1)) % 65536 := by
    have : v4.tables.poolId = (w.poolId + 1) % 65536 := by rw [t4, t3, t2, t1]; rfl
    show v4.tables.poolId = _
    rw [this, hk]
    omega
  obtain ⟨bs, n, l5, e5, p5, r5⟩ := hrest id c0 (k + 1) v4 a w1 hp k4
  refine ⟨0 :: (be16 (((c0 + k) % 65536 : Nat) : Int) ++ e.tag :: bs), n, by omega, ?_, p5, ?_⟩
  · rw [e5, e4, e3, e2, e1, be16_toInt16, hid, hk, htag]
    simp [POOL_NEW, ubyte]
  · intro rest2 bs2 hs2 r
    have := Reads.define e ((c0 + k) % 65536) rest2 (bs ++ bs2) (handleSeq c0 (k + 1) n ++ hs2)
      (Nat.mod_lt _ (by decide)) (r5 rest2 bs2 hs2 r)
    rw [handleSeq_cons c0 k n (by omega)]
    simpa using this

/-- The head of a define record whose handle is drawn after the byte 0x00 and
passed through `insert`. -/
theorem emits_define_insert {α : Type} (e : PoolEntry) (tag : Int) (htag : ubyte tag = e.tag)
    (ins : Nat → M Nat) (rest : M α)
    (hins : ∀ x w a w1, ins x w = Res.ok a w1 →
      a = x ∧ stream w1 = stream w ∧ w1.poolId = w.poolId)
    (hrest : Emits rest e.payload) :
    Emits (writeInt8 POOL_NEW >>= fun _ => getNextPoolId >>= fun x => ins x >>= fun id =>
      writeInt16 (toInt16 id) >>= fun _ => writeInt8 tag >>= fun _ => rest)
      [Field.entry e] := by
  intro c0 k w a w1 hk h
  obtain ⟨_, v1, h1, k1⟩ := bind_ok_inv h
  obtain ⟨x, v2, h2, k2⟩ := bind_ok_inv k1
  obtain ⟨id, v3, h3, k3⟩ := bind_ok_inv k2
  obtain ⟨_, v4, h4, k4⟩ := bind_ok_inv k3
  obtain ⟨_, v5, h5, k5⟩ := bind_ok_inv k4
  obtain ⟨e1, t1⟩ := writeInt8_ok h1
  obtain ⟨hx, e2, t2⟩ := getNextPoolId_ok h2
  obtain ⟨hid, e3, p3⟩ := hins x v2 id v3 h3
  obtain ⟨e4, t4⟩ := writeInt16_ok h4
  obtain ⟨e5, t5⟩ := writeInt8_ok h5
  have hv1 : v1.poolId = w.poolId := congrArg Tables.poolId t1
  have hp : v5.poolId = (c0 + (k + 1)) % 65536 := by
    have h54 : v5.poolId = v4.poolId := congrArg Tables.poolId t5
    have h43 : v4.poolId = v3.poolId := congrArg Tables.poolId t4
    have h2b : v2.poolId = (v1.poolId + 1) % 65536 := by
      have := congrArg Tables.poolId t2
      exact this
    rw [h54, h43, p3, h2b, hv1, hk]
    omega
  obtain ⟨bs, n, l6, e6, p6, r6⟩ := hrest c0 (k + 1) v5 a w1 hp k5
  refine ⟨0 :: (be16 (((c0 + k) % 65536 : Nat) : Int) ++ e.tag :: bs), n, by omega, ?_, p6, ?_⟩
  · rw [e6, e5, e4, e3, e2, e1, be16_toInt16, hid, hx, hv1, hk, htag]
    simp [POOL_NEW, ubyte]
  · intro rest2 bs2 hs2 r
    have := Reads.define e ((c0 + k) % 65536) rest2 (bs ++ bs2) (handleSeq c0 (k + 1) n ++ hs2)
      (Nat.mod_lt _ (by decide)) (r6 rest2 bs2 hs2 r)
    rw [handleSeq_cons c0 k n (by omega)]
    simpa using this

theorem emits_writePoolString (s : CppString) :
    Emits (writePoolString s) [Field.entry (PoolEntry.string s)] := by
  unfold writePoolString
  refine emits_then emits_getWriter (fun _ => emits_ite ?_ ?_)
  · exact emits_lookupReference (PoolEntry.string s) (fun v => v.stringPool) s POOL_STRING rfl
  · exact emits_define_insert (PoolEntry.string s) POOL_STRING rfl (insertString s)
      (writeString s)
      (fun x w a w1 h => by cases h; exact ⟨rfl, by simp [stream], rfl⟩)
      (emits_writeString s)

theorem emits_writePoolClass (name : CppString) :
    Emits (writePoolClass name) [Field.entry (PoolEntry.klass name)] := by
  unfold writePoolClass
  refine emits_then emits_getWriter (fun _ => emits_ite ?_ ?_)
  · exact emits_lookupReference (PoolEntry.klass name) (fun v => v.typePool) name POOL_CLASS rfl
  · exact emits_define (PoolEntry.klass name) POOL_CLASS rfl _ (fun id =>
      emits_cons (emits_writeString _) (fun _ =>
      emits_last (emits_writeInt8 _) (fun _ =>
      emits_then (emits_insertType _ _) (fun _ => emits_pure _))))

theorem emits_writePoolEnumClass (cls : PoolEnumClass) :
    Emits (writePoolEnumClass cls) [Field.entry (PoolEntry.enumClass cls)] := by
  unfold writePoolEnumClass
  refine emits_then emits_getWriter (fun _ => emits_ite ?_ ?_)
  · exact emits_lookupReference (PoolEntry.enumClass cls) (fun v => v.typePool) cls.name
      POOL_CLASS rfl
  · exact emits_define (PoolEntry.enumClass cls) POOL_CLASS rfl _ (fun id =>
      emits_cons (emits_writeString _) (fun _ =>
      emits_cons (emits_writeInt8 _) (fun _ =>
      emits_cons (emits_writeInt32 _) (fun _ =>
      emits_last (emits_forEach_one _ (fun s => Field.entry (PoolEntry.string s))
        emits_writePoolString) (fun _ =>
      emits_then (emits_insertType _ _) (fun _ => emits_pure _))))))

theorem emits_writePoolEnumValue (index : Nat) (cls : PoolEnumClass) :
    Emits (writePoolEnumValue index cls) [Field.entry (PoolEntry.enumValue index cls)] := by
  unfold writePoolEnumValue
  refine emits_then emits_getWriter (fun _ => emits_ite ?_ ?_)
  · exact emits_lookupReference (PoolEntry.enumValue index cls) (fun v => v.enumValuePool)
      (cls.name, toInt32 index) POOL_ENUM rfl
  · exact emits_define (PoolEntry.enumValue index cls) POOL_ENUM rfl _ (fun id =>
      emits_cons (emits_writePoolEnumClass _) (fun _ =>
      emits_last (emits_writeInt32 _) (fun _ =>
      emits_then (emits_insertEnumValue _ _) (fun _ => emits_pure _))))

theorem emits_writePoolSignature (symbol : ResolvedMethodSymbol) :
    Emits (writePoolSignature symbol) [Field.entry (PoolEntry.signature symbol)] := by
  unfold writePoolSignature
  refine emits_then emits_getWriter (fun _ => emits_ite ?_ ?_)
  · exact emits_lookupReference (PoolEntry.signature symbol) (fun v => v.signaturePool)
      symbol.signatureChars POOL_SIGNATURE rfl
  · exact emits_define (PoolEntry.signature symbol) POOL_SIGNATURE rfl _ (fun id =>
      emits_cons (emits_writeInt16 _) (fun _ =>
      emits_bind (emits_forEach_one _ (fun s => Field.entry (PoolEntry.string s))
        emits_writePoolString) (fun _ =>
      emits_last (emits_writePoolString _) (fun _ =>
      emits_then (emits_insertSignature _ _) (fun _ => emits_pure _)))))

theorem emits_writeInputEdgeInfo (info : InputEdgeInfo) :
    Emits (writeInputEdgeInfo info) (inputEdgeFields info) :=
  emits_cons (emits_writeInt8 _) (fun _ =>
    emits_cons (emits_writePoolString _) (fun _ => emits_writePoolEnumValue _ _))

theorem emits_writeOutputEdgeInfo (info : OutputEdgeInfo) :
    Emits (writeOutputEdgeInfo info) (outputEdgeFields info) :=
  emits_cons (emits_writeInt8 _) (fun _ => emits_writePoolString _)

theorem emits_writePoolNodeClass (node : Node) (inputs : List InputEdgeInfo)
    (outputs : List OutputEdgeInfo) :
    Emits (writePoolNodeClass node inputs outputs)
      [Field.entry (PoolEntry.nodeClass node inputs outputs)] := by
  unfold writePoolNodeClass
  refine emits_then emits_getWriter (fun _ => emits_ite ?_ ?_)
  · exact emits_lookupReference (PoolEntry.nodeClass node inputs outputs)
      (fun v => v.nodeClassPool)
      (node.getOpCode.name, toInt32 inputs.length, toInt32 outputs.length) POOL_NODE_CLASS rfl
  · exact emits_define_insert (PoolEntry.nodeClass node inputs outputs) POOL_NODE_CLASS rfl
      (insertNodeClass (node.getOpCode.name, toInt32 inputs.length, toInt32 outputs.length)) _
      (fun x w a w1 h => by cases h; exact ⟨rfl, by simp [stream], rfl⟩)
      (emits_cons (emits_writePoolClass _) (fun _ =>
        emits_cons (emits_writeString _) (fun _ =>
        emits_cons (emits_writeInt16 _) (fun _ =>
        emits_bind (emits_forEach _ inputEdgeFields emits_writeInputEdgeInfo) (fun _ =>
        emits_cons (emits_writeInt16 _) (fun _ =>
          emits_forEach _ outputEdgeFields emits_writeOutputEdgeInfo))))))

theorem emits_writeProperties (ps : List StringProperty) :
    Emits (writeProperties ps) (PoolOp.properties ps).fields :=
  emits_cons (emits_writeInt16 _) (fun _ =>
    emits_forEach _ propertyFields (fun _ => emits_cons (emits_writePoolString _) (fun _ =>
      emits_cons (emits_writeInt8 _) (fun _ => emits_writePoolString _))))

theorem emits_run (op : PoolOp) : Emits op.run op.fields := by
  cases op with
  | poolString s => exact emits_writePoolString s
  | poolClass name => exact emits_writePoolClass name
  | poolEnumClass cls => exact emits_writePoolEnumClass cls
  | poolEnumValue index cls => exact emits_writePoolEnumValue index cls
  | poolNodeClass node inputs outputs => exact emits_writePoolNodeClass node inputs outputs
  | poolSignature symbol => exact emits_writePoolSignature symbol
  | inputEdgeInfo info => exact emits_writeInputEdgeInfo info
  | outputEdgeInfo info => exact emits_writeOutputEdgeInfo info
  | properties ps => exact emits_writeProperties ps


/-- Every define record takes at least four bytes. -/
theorem reads_length {fs : List Field} {bs hs : List Nat} (h : Reads fs bs hs) :
    4 * hs.length ≤ bs.length := by
  induction h with
  | done => simp
  | scalar bytes rest bs hs _ ih => simp only [List.length_append]; omega
  | reference e x rest bs hs _ ih => simp only [List.length_append]; omega
  | define e x rest bs hs _ _ ih =>
    simp only [be16, List.length_cons, List.cons_append, List.nil_append]
    omega

/-- C26: for every sequence of pool operations other than `writePoolMethod`
that succeeds, started with the handle counter at `c` (a 16-bit value), the
bytes appended read as the fields of the operations, every pool entry being a
reference or a define record `[0x00][handle][tag][payload]` whose payload
holds its nested entries; the handles of the define records, in stream order,
are determined by the bytes, and the record number `k` (from 0) carries the
handle `(c + k) mod 2^16`; the counter ends at `(c + n) mod 2^16`, `n` being
the number of define records. The handles of at most 65536 records are
distinct, and they increase strictly as long as the counter does not wrap. -/
theorem define_handles_sequential (ops : List PoolOp) (w w1 : Writer)
    (hc : w.poolId < 65536) (h : forEach ops PoolOp.run w = Res.ok () w1) :
    ∃ hs : List Nat,
      Reads (ops.map PoolOp.fields).flatten (emitted w w1) hs ∧
      (∀ hs2, Reads (ops.map PoolOp.fields).flatten (emitted w w1) hs2 → hs2 = hs) ∧
      hs = (List.range hs.length).map (fun k => (w.poolId + k) % 65536) ∧
      w1.poolId = (w.poolId + hs.length) % 65536 ∧
      (hs.length ≤ 65536 → hs.Nodup) ∧
      (w.poolId + hs.length ≤ 65536 → hs.Pairwise (fun a b => a < b)) := by
  obtain ⟨bs, n, _, e, p, r⟩ := emits_forEach ops PoolOp.fields emits_run w.poolId 0 w () w1
    (by simp only [Nat.add_zero]; exact (Nat.mod_eq_of_lt hc).symm) h
  have R := r [] [] [] Reads.done
  simp only [List.append_nil] at R
  rw [← emitted_of_append e, handleSeq_zero] at R
  have hl : ((List.range n).map (fun k => (w.poolId + k) % 65536)).length = n := by simp
  refine ⟨_, R, reads_unique R, by rw [hl], by rw [hl]; exact p, ?_, ?_⟩
  · rw [hl]
    intro hn
    refine List.Nodup.map_on ?_ (List.nodup_range n)
    intro x hx y hy hxy
    rw [List.mem_range] at hx hy
    omega
  · rw [hl]
    intro hn
    rw [List.pairwise_map]
    refine List.Pairwise.imp_of_mem ?_ (List.pairwise_lt_range n)
    intro a b ha hb hab
    rw [List.mem_range] at ha hb
    omega

theorem define_handles_sequential_witness :
    Reads (samplePoolOps.map PoolOp.fields).flatten
      (emitted Writer.new (finalState (forEach samplePoolOps PoolOp.run Writer.new)))
      [0, 1, 2, 3, 4, 5, 6] := by
  obtain ⟨hs, r, _, e, p, _⟩ := define_handles_sequential samplePoolOps Writer.new
    (finalState (forEach samplePoolOps PoolOp.run Writer.new)) (by decide)
    (ok_finalState (by decide!))
  have hl := reads_length r
  have hb : (emitted Writer.new
      (finalState (forEach samplePoolOps PoolOp.run Writer.new))).length < 65536 := by decide!
  have p7 : (finalState (forEach samplePoolOps PoolOp.run Writer.new)).poolId = 7 :=
    samplePoolOps_counter
  have hn : hs.length = 7 := by
    rw [p7] at p
    have : Writer.new.poolId = 0 := rfl
    omega
  rw [hn] at e
  rw [e] at r
  exact r


/-- The reading tells a handle that is used twice: two String define records
that both carry the handle 0 read with the handles 0 and 0, and in no other
way, so they are not the handles `c`, `c + 1` of any counter. -/
theorem reads_repeated_handle :
    Reads [Field.entry (PoolEntry.string [97]), Field.entry (PoolEntry.string [98])]
      (stringDefine 0 [97] ++ stringDefine 0 [98]) [0, 0] ∧
    ∀ hs, Reads [Field.entry (PoolEntry.string [97]), Field.entry (PoolEntry.string [98])]
      (stringDefine 0 [97] ++ stringDefine 0 [98]) hs → hs = [0, 0] := by
  have r : Reads [Field.entry (PoolEntry.string [97]), Field.entry (PoolEntry.string [98])]
      (stringDefine 0 [97] ++ stringDefine 0 [98]) [0, 0] :=
    Reads.define (PoolEntry.string [97]) 0 _ _ _ (by decide)
      (Reads.scalar (stringPayload [97]) _ _ _
        (Reads.define (PoolEntry.string [98]) 0 _ _ _ (by decide)
          (Reads.scalar (stringPayload [98]) _ [] _ Reads.done)))
  exact ⟨r, reads_unique r⟩

end BinaryGraphWriter
